import Mathlib

set_option linter.unusedSectionVars false

/-!
Verification development for the storage and transaction core of the RMDB
relational database engine (record manager with slotted pages and a free-page
list, scan iterator, log manager, transaction manager, semantic analyzer,
sequential-scan and update executors).

The C++ sources are shallowly embedded: each C++ member function becomes a
Lean function over an explicit state value.  Machine integers that can go
negative (page numbers, slot numbers, the `NO_PAGE = -1` sentinel) are
modelled as `Int`; counters that stay nonnegative (`num_records`,
`num_records_per_page`, `num_pages`) as `Nat`.  Record payload bytes are
abstracted to a type parameter `α`: the record manager copies whole
fixed-size records, so a record's byte content is an opaque value.
Exceptions become `Except` / explicit error results.  Side channels that the
logical page state does not see (buffer-pool pin traffic, the lock manager,
the log latch) get their own small models further below.
-/

/-- Error kinds of the engine (§7 of the design: `PageNotExistError`,
`RecordNotFoundError`, `InternalError`, `IncompatibleTypeError`,
`AmbiguousColumnError`, `ColumnNotFoundError`, `TableNotFoundError`,
lock refusals).  `fuelExhausted` is a model artifact marking a loop of the
source that does not terminate on the given (invariant-violating) state. -/
inductive DbErr where
  | pageNotExist
  | recordNotFound
  | internalErr
  | incompatibleType
  | ambiguousColumn
  | columnNotFound
  | tableNotFound
  | lockConflict
  | diskFailed
  | fuelExhausted
deriving DecidableEq, Repr

/-- Record identifier `(page_no, slot_no)` as in `defs.h`. -/
structure Rid where
  page_no : Int
  slot_no : Int
deriving DecidableEq, Repr

/-- Slotted data page: `RmPageHdr` fields plus the occupancy bitmap and the
slot array.  `bitmap` has one `Bool` per slot (`Bitmap::is_set`), `slots`
holds the record payload of each slot (stale content stays behind after a
delete, exactly like the bytes in the C++ page). -/
structure RmPage (α : Type) where
  next_free_page_no : Int
  num_records : Nat
  bitmap : List Bool
  slots : List α
deriving DecidableEq, Repr

/-- File header `RmFileHdr` (the fields the embedded operations touch).
`num_pages` counts the header page, so data pages are `1 .. num_pages - 1`. -/
structure RmFileHdr where
  num_pages : Nat
  first_free_page_no : Int
  num_records_per_page : Nat
deriving DecidableEq, Repr

/-- Logical state of one table file: the header plus the data pages.  Data
page `p` (`1 ≤ p`) lives at list index `p - 1`. -/
structure RmFile (α : Type) where
  hdr : RmFileHdr
  pages : List (RmPage α)
deriving DecidableEq, Repr

/-- The `RM_NO_PAGE` sentinel. -/
def RM_NO_PAGE : Int := -1

/-- Reading bit `i` of a page bitmap (`Bitmap::is_set`); out-of-range reads
yield `false`. -/
def bitmapGet (l : List Bool) (i : Int) : Bool :=
  if 0 ≤ i then l.getD i.toNat false else false

/-- Writing bit `i` of a page bitmap (`Bitmap::set` / `Bitmap::reset`). -/
def bitmapSet (l : List Bool) (i : Int) (b : Bool) : List Bool :=
  if 0 ≤ i then l.set i.toNat b else l

/-- Reading slot `i` of a page (the `memcpy` out of `page_handle.get_slot`). -/
def slotGet {α : Type} [Inhabited α] (l : List α) (i : Int) : α :=
  if 0 ≤ i then l.getD i.toNat default else default

/-- Writing slot `i` of a page (the `memcpy` into `page_handle.get_slot`). -/
def slotSet {α : Type} (l : List α) (i : Int) (a : α) : List α :=
  if 0 ≤ i then l.set i.toNat a else l

/-- Index of the lowest clear bit (`Bitmap::first_bit(false, …)`); `none`
when every slot is occupied. -/
def firstClearBit : List Bool → Option Nat
  | [] => none
  | b :: bs => if b then (firstClearBit bs).map (· + 1) else some 0

namespace RmFile

variable {α : Type} [Inhabited α]

/-- The embedding of `RmFileHandle::fetch_page_handle`: page-number range
check, then the page itself.  Page `0` is the file-header page and is outside
this byte-level model, so it is rejected together with the out-of-range
numbers. -/
def getPage (f : RmFile α) (p : Int) : Option (RmPage α) :=
  if 1 ≤ p ∧ p < (f.hdr.num_pages : Int) then f.pages.get? (p - 1).toNat else none

/-- Replacing data page `p` after a mutation through its page handle. -/
def setPage (f : RmFile α) (p : Int) (pg : RmPage α) : RmFile α :=
  { f with pages := f.pages.set (p - 1).toNat pg }

/-- Embedding of `RmFileHandle::get_record` (its effect on / reading of the
logical page state; lock and pin traffic are modelled separately): fetch the
page, fail with `RecordNotFoundError` when the slot bit is clear, otherwise
copy the slot bytes out. -/
def get_record (f : RmFile α) (rid : Rid) : Except DbErr α :=
  match f.getPage rid.page_no with
  | none => .error .pageNotExist
  | some pg =>
    if bitmapGet pg.bitmap rid.slot_no then .ok (slotGet pg.slots rid.slot_no)
    else .error .recordNotFound

/-- Embedding of `RmFileHandle::create_new_page_handle`: allocate page
`num_pages`, zero its bitmap and header, bump `num_pages`, and make it the
free-list head when the list was empty. -/
def create_new_page_handle (f : RmFile α) : RmFile α × Int :=
  let newNo : Int := (f.hdr.num_pages : Int)
  let pg : RmPage α :=
    { next_free_page_no := RM_NO_PAGE
      num_records := 0
      bitmap := List.replicate f.hdr.num_records_per_page false
      slots := List.replicate f.hdr.num_records_per_page default }
  let f' : RmFile α :=
    { hdr :=
        { num_pages := f.hdr.num_pages + 1
          first_free_page_no :=
            if f.hdr.first_free_page_no = RM_NO_PAGE then newNo
            else f.hdr.first_free_page_no
          num_records_per_page := f.hdr.num_records_per_page }
      pages := f.pages ++ [pg] }
  (f', newNo)

/-- Embedding of `RmFileHandle::create_page_handle`: take the free-list head;
if none exists, create a new page; if the head is (unexpectedly) full, unlink
it and retry.  The retry loop of the source spins forever on a cyclic chain
of full pages, which the fuel argument turns into `fuelExhausted`. -/
def create_page_handle : Nat → RmFile α → Except DbErr (RmFile α × Int)
  | 0, _ => .error .fuelExhausted
  | fuel + 1, f =>
    if f.hdr.first_free_page_no = RM_NO_PAGE then
      .ok f.create_new_page_handle
    else
      match f.getPage f.hdr.first_free_page_no with
      | none => .error .pageNotExist
      | some pg =>
        if pg.num_records = f.hdr.num_records_per_page then
          create_page_handle fuel
            { f with hdr := { f.hdr with first_free_page_no := pg.next_free_page_no } }
        else
          .ok (f, f.hdr.first_free_page_no)

/-- Embedding of `Rid RmFileHandle::insert_record(char*, Context*)` (logical
page effect; the lock call and the unpin are modelled separately): get a
non-full page, take its lowest clear slot, write the record, set the bit,
bump `num_records`, and unlink the page from the free list when the insert
filled it.  The `internalErr` on a full bitmap marks the out-of-bounds slot
write the source would perform there (unreachable from well-formed states). -/
def insert_record (f : RmFile α) (buf : α) : Except DbErr (RmFile α × Rid) := do
  let (f1, p) ← create_page_handle (f.pages.length + 2) f
  match f1.getPage p with
  | none => .error .internalErr
  | some pg =>
    match firstClearBit pg.bitmap with
    | none => .error .internalErr
    | some slot =>
      let pg' : RmPage α :=
        { pg with
          bitmap := pg.bitmap.set slot true
          slots := pg.slots.set slot buf
          num_records := pg.num_records + 1 }
      let f2 := f1.setPage p pg'
      let f3 :=
        if pg'.num_records = f1.hdr.num_records_per_page then
          { f2 with hdr := { f2.hdr with first_free_page_no := pg.next_free_page_no } }
        else f2
      .ok (f3, ⟨p, (slot : Int)⟩)

/-- Embedding of `void RmFileHandle::insert_record(const Rid&, char*)` (the
recovery-path insert at a fixed rid, `insert_record_at` in the spec): fail
with `InternalError` when the slot is occupied, otherwise write the record,
set the bit and bump `num_records`.  Note that the source does not touch the
free list here, even when the insert fills the page. -/
def insert_record_at (f : RmFile α) (rid : Rid) (buf : α) : Except DbErr (RmFile α) :=
  match f.getPage rid.page_no with
  | none => .error .pageNotExist
  | some pg =>
    if bitmapGet pg.bitmap rid.slot_no then .error .internalErr
    else
      .ok (f.setPage rid.page_no
        { pg with
          bitmap := bitmapSet pg.bitmap rid.slot_no true
          slots := slotSet pg.slots rid.slot_no buf
          num_records := pg.num_records + 1 })

/-- Embedding of `RmFileHandle::release_page_handle`, applied to page `p`
right after a delete decremented its `num_records`: exactly on the edge
`num_records = num_records_per_page - 1` the page is linked at the head of
the free list. -/
def release_page_handle (f : RmFile α) (p : Int) : RmFile α :=
  match f.getPage p with
  | none => f
  | some pg =>
    if pg.num_records = f.hdr.num_records_per_page - 1 then
      let f1 := f.setPage p { pg with next_free_page_no := f.hdr.first_free_page_no }
      { f1 with hdr := { f1.hdr with first_free_page_no := p } }
    else f

/-- Embedding of `RmFileHandle::delete_record` (logical page effect): fetch
the page, fail with `RecordNotFoundError` when the bit is clear, otherwise
clear the bit, decrement `num_records` and run `release_page_handle`. -/
def delete_record (f : RmFile α) (rid : Rid) : Except DbErr (RmFile α) :=
  match f.getPage rid.page_no with
  | none => .error .pageNotExist
  | some pg =>
    if ¬ bitmapGet pg.bitmap rid.slot_no then .error .recordNotFound
    else
      let pg' : RmPage α :=
        { pg with
          bitmap := bitmapSet pg.bitmap rid.slot_no false
          num_records := pg.num_records - 1 }
      .ok ((f.setPage rid.page_no pg').release_page_handle rid.page_no)

/-- Embedding of `RmFileHandle::update_record` (logical page effect): fetch
the page, fail with `RecordNotFoundError` when the bit is clear, otherwise
overwrite the slot bytes in place. -/
def update_record (f : RmFile α) (rid : Rid) (buf : α) : Except DbErr (RmFile α) :=
  match f.getPage rid.page_no with
  | none => .error .pageNotExist
  | some pg =>
    if ¬ bitmapGet pg.bitmap rid.slot_no then .error .recordNotFound
    else .ok (f.setPage rid.page_no { pg with slots := slotSet pg.slots rid.slot_no buf })

/-- A freshly created table file: only the header page, an empty free list. -/
def emptyFile (α : Type) (per : Nat) : RmFile α :=
  { hdr := { num_pages := 1, first_free_page_no := RM_NO_PAGE, num_records_per_page := per }
    pages := [] }

/-- The record currently stored at `rid`, when its slot bit is set. -/
def recordAt (f : RmFile α) (rid : Rid) : Option α :=
  match f.getPage rid.page_no with
  | none => none
  | some pg =>
    if bitmapGet pg.bitmap rid.slot_no then some (slotGet pg.slots rid.slot_no) else none

/-- The live records of one page, in slot order. -/
def pageLive {α : Type} (pg : RmPage α) : List α :=
  (pg.bitmap.zip pg.slots).filterMap (fun ba => if ba.1 then some ba.2 else none)

/-- The multiset of live record contents of the whole file. -/
def liveContents (f : RmFile α) : Multiset α :=
  ((f.pages.map pageLive).flatten : List α)

end RmFile

namespace RmFile

variable {α : Type} [Inhabited α]

/-- The free-page chain: `FreeList f p l` says that starting from page
pointer `p` and following `next_free_page_no` reaches `NO_PAGE` after
visiting exactly the pages of `l`, in order. -/
inductive FreeList (f : RmFile α) : Int → List Int → Prop where
  | nil : FreeList f RM_NO_PAGE []
  | cons {p : Int} {pg : RmPage α} {l : List Int} :
      f.getPage p = some pg →
      FreeList f pg.next_free_page_no l →
      FreeList f p (p :: l)

/-- Structural well-formedness of one data page: bitmap and slot array have
one entry per slot, and `num_records` equals the bitmap popcount (spec
invariant 1). -/
def wfPage (per : Nat) (pg : RmPage α) : Prop :=
  pg.bitmap.length = per ∧ pg.slots.length = per ∧
  pg.bitmap.count true = pg.num_records ∧ pg.num_records ≤ per

/-- Well-formedness of a table file: consistent page count, well-formed
pages, and a duplicate-free free-page chain that contains exactly the
non-full data pages (spec invariant 2). -/
def wf (f : RmFile α) : Prop :=
  1 ≤ f.hdr.num_records_per_page ∧
  f.hdr.num_pages = f.pages.length + 1 ∧
  (∀ pg ∈ f.pages, wfPage f.hdr.num_records_per_page pg) ∧
  ∃ l, FreeList f f.hdr.first_free_page_no l ∧ l.Nodup ∧
    ∀ p pg, f.getPage p = some pg → (p ∈ l ↔ pg.num_records < f.hdr.num_records_per_page)

theorem wf_emptyFile (per : Nat) (h : 1 ≤ per) : wf (emptyFile α per) := by
  refine ⟨h, rfl, by simp [emptyFile], [], .nil, List.nodup_nil, ?_⟩
  intro p pg hp
  simp [getPage, emptyFile] at hp

theorem getPage_mem {f : RmFile α} {p : Int} {pg : RmPage α}
    (h : f.getPage p = some pg) : pg ∈ f.pages := by
  unfold getPage at h
  split at h
  · exact List.get?_mem h
  · exact absurd h (by simp)

theorem getPage_bounds {f : RmFile α} {p : Int} {pg : RmPage α}
    (h : f.getPage p = some pg) : 1 ≤ p ∧ p < (f.hdr.num_pages : Int) := by
  unfold getPage at h
  split at h
  · assumption
  · exact absurd h (by simp)

theorem getPage_eq {f : RmFile α} {p : Int} {pg : RmPage α}
    (h : f.getPage p = some pg) : f.pages.get? (p - 1).toNat = some pg := by
  unfold getPage at h
  split at h
  · exact h
  · exact absurd h (by simp)

theorem setPage_hdr (f : RmFile α) (p : Int) (pg : RmPage α) :
    (f.setPage p pg).hdr = f.hdr := rfl

theorem setPage_pages_length (f : RmFile α) (p : Int) (pg : RmPage α) :
    (f.setPage p pg).pages.length = f.pages.length := by
  simp [setPage]

theorem getPage_lt {f : RmFile α} {p : Int} {pg : RmPage α}
    (h : f.getPage p = some pg) : (p - 1).toNat < f.pages.length :=
  List.get?_eq_some.1 (getPage_eq h) |>.1

theorem getPage_setPage_self {f : RmFile α} {p : Int} {pg : RmPage α}
    (h : f.getPage p = some pg) (pg' : RmPage α) :
    (f.setPage p pg').getPage p = some pg' := by
  have hb := getPage_bounds h
  have hlt := getPage_lt h
  unfold getPage setPage
  simp only [if_pos hb]
  exact List.get?_set_eq_of_lt _ hlt

theorem getPage_setPage_ne {f : RmFile α} {p q : Int} (pg' : RmPage α)
    (hp : 1 ≤ p) (hq : q ≠ p) :
    (f.setPage p pg').getPage q = f.getPage q := by
  unfold getPage setPage
  simp only
  by_cases hqr : 1 ≤ q ∧ q < (f.hdr.num_pages : Int)
  · simp only [if_pos hqr]
    exact List.get?_set_ne pg' f.pages (by omega)
  · simp only [if_neg hqr]

theorem recordAt_some_getPage {f : RmFile α} {rid : Rid} {a : α}
    (h : f.recordAt rid = some a) :
    ∃ pg, f.getPage rid.page_no = some pg ∧ bitmapGet pg.bitmap rid.slot_no = true ∧
      slotGet pg.slots rid.slot_no = a := by
  unfold recordAt at h
  split at h
  · exact absurd h (by simp)
  · rename_i pg hpg
    split at h
    · exact ⟨pg, hpg, by assumption, by injection h⟩
    · exact absurd h (by simp)

end RmFile


/-! Helper lemmas about lists: element access after `set`, popcount after a
bit flip, the lowest clear bit, and the live-record sublist of a page. -/

theorem getD_set_self {α : Type} {l : List α} {i : Nat} (a d : α) (h : i < l.length) :
    (l.set i a).getD i d = a := by
  induction l generalizing i with
  | nil => simp at h
  | cons x xs ih =>
    cases i with
    | zero => simp
    | succ n => simpa using ih (by simpa using h)

theorem getD_set_ne {α : Type} {l : List α} {i j : Nat} (a d : α) (h : i ≠ j) :
    (l.set i a).getD j d = l.getD j d := by
  induction l generalizing i j with
  | nil => simp
  | cons x xs ih =>
    cases i with
    | zero => cases j with
      | zero => exact absurd rfl h
      | succ m => simp
    | succ n => cases j with
      | zero => simp
      | succ m => simpa using ih (by omega)

theorem count_true_set_true {l : List Bool} {i : Nat} (hlt : i < l.length)
    (h : l.getD i false = false) :
    (l.set i true).count true = l.count true + 1 := by
  induction l generalizing i with
  | nil => simp at hlt
  | cons x xs ih =>
    cases i with
    | zero =>
      simp only [List.getD_cons_zero] at h
      subst h
      simp [List.count_cons]
    | succ n =>
      simp only [List.getD_cons_succ] at h
      have hrec := ih (by simpa using hlt) h
      cases x <;> simp [List.count_cons, hrec]

theorem count_true_set_false {l : List Bool} {i : Nat} (hlt : i < l.length)
    (h : l.getD i false = true) :
    l.count true = (l.set i false).count true + 1 := by
  induction l generalizing i with
  | nil => simp at hlt
  | cons x xs ih =>
    cases i with
    | zero =>
      simp only [List.getD_cons_zero] at h
      subst h
      simp [List.count_cons]
    | succ n =>
      simp only [List.getD_cons_succ] at h
      have hrec := ih (by simpa using hlt) h
      cases x <;> simp [List.count_cons, hrec]

theorem firstClearBit_spec {l : List Bool} {i : Nat} (h : firstClearBit l = some i) :
    i < l.length ∧ l.getD i false = false := by
  induction l generalizing i with
  | nil => simp [firstClearBit] at h
  | cons x xs ih =>
    cases x with
    | true =>
      rw [show firstClearBit (true :: xs) = (firstClearBit xs).map (· + 1) from rfl] at h
      match hfc : firstClearBit xs with
      | none => rw [hfc] at h; simp at h
      | some j =>
        rw [hfc] at h
        simp only [Option.map_some'] at h
        have hij : i = j + 1 := (Option.some.inj h).symm
        subst hij
        have := ih hfc
        exact ⟨by simpa using this.1, by simpa using this.2⟩
    | false =>
      rw [show firstClearBit (false :: xs) = some 0 from rfl] at h
      have : i = 0 := (Option.some.inj h).symm
      subst this
      exact ⟨by simp, by simp⟩

theorem firstClearBit_exists {l : List Bool} (h : l.count true < l.length) :
    ∃ i, firstClearBit l = some i := by
  induction l with
  | nil => simp at h
  | cons x xs ih =>
    cases x with
    | true =>
      simp only [List.count_cons, List.length_cons] at h
      have hc : xs.count true < xs.length := by
        have := List.count_le_length (l := xs) (a := true)
        simp at h
        omega
      obtain ⟨j, hj⟩ := ih hc
      refine ⟨j + 1, ?_⟩
      rw [show firstClearBit (true :: xs) = (firstClearBit xs).map (· + 1) from rfl, hj]
      rfl
    | false =>
      exact ⟨0, rfl⟩

/-- The live records of a bitmap/slot pair, in slot order. -/
def live {α : Type} (bs : List Bool) (xs : List α) : List α :=
  (bs.zip xs).filterMap (fun ba => if ba.1 then some ba.2 else none)

theorem live_nil_left {α : Type} (xs : List α) : live [] xs = [] := rfl

theorem live_cons_cons {α : Type} (b : Bool) (bs : List Bool) (x : α) (xs : List α) :
    live (b :: bs) (x :: xs) = if b then x :: live bs xs else live bs xs := by
  cases b <;> simp [live]

theorem pageLive_eq_live {α : Type} (pg : RmPage α) :
    RmFile.pageLive pg = live pg.bitmap pg.slots := rfl

theorem live_set_true {α : Type} {bs : List Bool} {xs : List α} {i : Nat} (a : α)
    (hib : i < bs.length) (hix : i < xs.length) (hb : bs.getD i false = false) :
    (live (bs.set i true) (xs.set i a) : Multiset α) = a ::ₘ (live bs xs : Multiset α) := by
  induction bs generalizing xs i with
  | nil => simp at hib
  | cons b bs' ih =>
    cases xs with
    | nil => simp at hix
    | cons x xs' =>
      cases i with
      | zero =>
        simp only [List.getD_cons_zero] at hb
        subst hb
        simp [live_cons_cons]
      | succ n =>
        simp only [List.getD_cons_succ] at hb
        have hrec := @ih xs' n (by simpa using hib) (by simpa using hix) hb
        cases b with
        | true =>
          have hp : (live (bs'.set n true) (xs'.set n a)).Perm (a :: live bs' xs') :=
            Multiset.coe_eq_coe.mp (by simpa using hrec)
          have hgoal : ((x :: live (bs'.set n true) (xs'.set n a) : List α) : Multiset α)
              = ((a :: x :: live bs' xs' : List α) : Multiset α) :=
            Multiset.coe_eq_coe.mpr ((hp.cons x).trans (List.Perm.swap a x _))
          simpa [List.set_cons_succ, live_cons_cons] using hgoal
        | false =>
          simpa [List.set_cons_succ, live_cons_cons] using hrec

theorem live_set_false {α : Type} [Inhabited α] {bs : List Bool} {xs : List α} {i : Nat}
    (hib : i < bs.length) (hix : i < xs.length) (hb : bs.getD i false = true) :
    (live bs xs : Multiset α) = xs.getD i default ::ₘ (live (bs.set i false) xs : Multiset α) := by
  induction bs generalizing xs i with
  | nil => simp at hib
  | cons b bs' ih =>
    cases xs with
    | nil => simp at hix
    | cons x xs' =>
      cases i with
      | zero =>
        simp only [List.getD_cons_zero] at hb
        subst hb
        simp [live_cons_cons]
      | succ n =>
        simp only [List.getD_cons_succ] at hb
        have hrec := @ih xs' n (by simpa using hib) (by simpa using hix) hb
        cases b with
        | true =>
          have hp : (live bs' xs').Perm (xs'.getD n default :: live (bs'.set n false) xs') :=
            Multiset.coe_eq_coe.mp (by simpa using hrec)
          have hgoal : ((x :: live bs' xs' : List α) : Multiset α)
              = ((xs'.getD n default :: x :: live (bs'.set n false) xs' : List α) : Multiset α) :=
            Multiset.coe_eq_coe.mpr
              ((hp.cons x).trans (List.Perm.swap (xs'.getD n default) x _))
          simpa [List.set_cons_succ, live_cons_cons] using hgoal
        | false =>
          simpa [List.set_cons_succ, live_cons_cons] using hrec

theorem live_set_slot {α : Type} [Inhabited α] {bs : List Bool} {xs : List α} {i : Nat} (a : α)
    (hib : i < bs.length) (hix : i < xs.length) (hb : bs.getD i false = true) :
    ∃ m : Multiset α, (live bs xs : Multiset α) = xs.getD i default ::ₘ m ∧
      (live bs (xs.set i a) : Multiset α) = a ::ₘ m := by
  induction bs generalizing xs i with
  | nil => simp at hib
  | cons b bs' ih =>
    cases xs with
    | nil => simp at hix
    | cons x xs' =>
      cases i with
      | zero =>
        simp only [List.getD_cons_zero] at hb
        subst hb
        exact ⟨(live bs' xs' : Multiset α), by simp [live_cons_cons], by simp [live_cons_cons]⟩
      | succ n =>
        simp only [List.getD_cons_succ] at hb
        obtain ⟨m, hm1, hm2⟩ := @ih xs' n (by simpa using hib) (by simpa using hix) hb
        cases b with
        | true =>
          refine ⟨x ::ₘ m, ?_, ?_⟩
          · have : ((x :: live bs' xs' : List α) : Multiset α)
                = xs'.getD n default ::ₘ x ::ₘ m := by
              rw [← Multiset.cons_coe, hm1, Multiset.cons_swap]
            simpa [live_cons_cons] using this
          · have : ((x :: live bs' (xs'.set n a) : List α) : Multiset α) = a ::ₘ x ::ₘ m := by
              rw [← Multiset.cons_coe, hm2, Multiset.cons_swap]
            simpa [List.set_cons_succ, live_cons_cons] using this
        | false =>
          refine ⟨m, ?_, ?_⟩
          · simpa [live_cons_cons] using hm1
          · simpa [List.set_cons_succ, live_cons_cons] using hm2

theorem live_replicate_false {α : Type} (n : Nat) (xs : List α) :
    live (List.replicate n false) xs = [] := by
  induction n generalizing xs with
  | zero => rfl
  | succ m ih =>
    cases xs with
    | nil => simp [live]
    | cons x xs' => simpa [List.replicate_succ, live_cons_cons] using ih xs'

theorem getD_replicate_false (n : Nat) (i : Nat) :
    (List.replicate n false).getD i false = false := by
  by_cases h : i < n
  · rw [List.getD_eq_getElem _ _ (by simpa using h)]
    simp
  · rw [List.getD_eq_default]
    simpa using h

namespace RmFile

variable {α : Type} [Inhabited α]

theorem FreeList.no_page {f : RmFile α} {l : List Int} (h : FreeList f RM_NO_PAGE l) :
    l = [] := by
  cases h with
  | nil => rfl
  | cons hpg _ =>
    have := getPage_bounds hpg
    simp [RM_NO_PAGE] at this

theorem FreeList.mem_valid {f : RmFile α} {n : Int} {l : List Int} (h : FreeList f n l) :
    ∀ q ∈ l, ∃ pg, f.getPage q = some pg := by
  induction h with
  | nil => simp
  | cons hpg _ ih =>
    intro q hq
    rcases List.mem_cons.mp hq with hq | hq
    · subst hq; exact ⟨_, hpg⟩
    · exact ih q hq

theorem FreeList.congr {f f' : RmFile α} {n : Int} {l : List Int} (h : FreeList f n l)
    (hsame : ∀ q ∈ l, ∀ pg, f.getPage q = some pg →
      ∃ pg', f'.getPage q = some pg' ∧ pg'.next_free_page_no = pg.next_free_page_no) :
    FreeList f' n l := by
  induction h with
  | nil => exact .nil
  | cons hpg htail ih =>
    rename_i p pg l'
    obtain ⟨pg', hpg', hnext⟩ := hsame p (by simp) pg hpg
    refine .cons hpg' ?_
    rw [hnext]
    exact ih (fun q hq => hsame q (by simp [hq]))

theorem FreeList.head_cases {f : RmFile α} {n : Int} {l : List Int} (h : FreeList f n l) :
    (n = RM_NO_PAGE ∧ l = []) ∨
    ∃ pg rest, f.getPage n = some pg ∧ l = n :: rest ∧ FreeList f pg.next_free_page_no rest := by
  cases h with
  | nil => exact .inl ⟨rfl, rfl⟩
  | cons hpg htail => exact .inr ⟨_, _, hpg, rfl, htail⟩

theorem flatten_map_set {β γ : Type} (g : β → List γ) :
    ∀ (l : List β) (i : Nat) (x old : β), l.get? i = some old →
    (↑(((l.set i x).map g).flatten) : Multiset γ) + (↑(g old) : Multiset γ)
      = (↑((l.map g).flatten) : Multiset γ) + (↑(g x) : Multiset γ)
  | [], i, x, old, hget => by simp at hget
  | q :: qs, 0, x, old, hget => by
    have hq : q = old := by simpa using hget
    subst hq
    rw [List.set_cons_zero, List.map_cons, List.flatten_cons, List.map_cons,
      List.flatten_cons, ← Multiset.coe_add, ← Multiset.coe_add]
    abel
  | q :: qs, m + 1, x, old, hget => by
    have hget' : qs.get? m = some old := by simpa using hget
    have ih := flatten_map_set g qs m x old hget'
    rw [List.set_cons_succ, List.map_cons, List.flatten_cons, List.map_cons,
      List.flatten_cons, ← Multiset.coe_add, ← Multiset.coe_add]
    rw [add_assoc, add_assoc, ih]

theorem liveContents_setPage {f : RmFile α} {p : Int} {pg : RmPage α}
    (h : f.getPage p = some pg) (pg' : RmPage α) :
    liveContents (f.setPage p pg') + (pageLive pg : Multiset α)
      = liveContents f + (pageLive pg' : Multiset α) := by
  have hget := getPage_eq h
  exact flatten_map_set pageLive f.pages (p - 1).toNat pg' pg hget

/-- The page produced by `create_new_page_handle` before any record lands. -/
def freshPage (α : Type) [Inhabited α] (per : Nat) : RmPage α :=
  { next_free_page_no := RM_NO_PAGE
    num_records := 0
    bitmap := List.replicate per false
    slots := List.replicate per default }

theorem create_new_page_handle_eq (f : RmFile α) :
    f.create_new_page_handle =
      ({ hdr :=
           { num_pages := f.hdr.num_pages + 1
             first_free_page_no :=
               if f.hdr.first_free_page_no = RM_NO_PAGE then (f.hdr.num_pages : Int)
               else f.hdr.first_free_page_no
             num_records_per_page := f.hdr.num_records_per_page }
         pages := f.pages ++ [freshPage α f.hdr.num_records_per_page] },
       (f.hdr.num_pages : Int)) := rfl

theorem cnph_getPage_new {f f' : RmFile α} {p : Int}
    (hnp : f.hdr.num_pages = f.pages.length + 1)
    (h : f.create_new_page_handle = (f', p)) :
    f'.getPage p = some (freshPage α f.hdr.num_records_per_page) := by
  rw [create_new_page_handle_eq] at h
  obtain ⟨hf', hp⟩ := Prod.mk.injEq .. ▸ h
  subst hp
  rw [← hf']
  unfold getPage
  have hcond : 1 ≤ (f.hdr.num_pages : Int) ∧
      (f.hdr.num_pages : Int) < ((f.hdr.num_pages + 1 : Nat) : Int) := by
    constructor
    · omega
    · push_cast
      omega
  rw [if_pos hcond]
  have hidx : ((f.hdr.num_pages : Int) - 1).toNat = f.pages.length := by omega
  rw [hidx]
  exact List.get?_concat_length f.pages _

theorem cnph_getPage_old {f f' : RmFile α} {p : Int}
    (hnp : f.hdr.num_pages = f.pages.length + 1)
    (h : f.create_new_page_handle = (f', p)) (q : Int) (hq : q ≠ p) :
    f'.getPage q = f.getPage q := by
  rw [create_new_page_handle_eq] at h
  obtain ⟨hf', hp⟩ := Prod.mk.injEq .. ▸ h
  subst hp
  rw [← hf']
  unfold getPage
  simp only
  by_cases hqv : 1 ≤ q ∧ q < (f.hdr.num_pages : Int)
  · have hcond : 1 ≤ q ∧ q < ((f.hdr.num_pages + 1 : Nat) : Int) := by
      push_cast
      omega
    rw [if_pos hcond, if_pos hqv]
    exact List.get?_append (by omega)
  · have hcond : ¬ (1 ≤ q ∧ q < ((f.hdr.num_pages + 1 : Nat) : Int)) := by
      push_cast at hqv ⊢
      omega
    rw [if_neg hcond, if_neg hqv]

theorem cnph_spec {f f' : RmFile α} {p : Int} (hwf : wf f)
    (hff : f.hdr.first_free_page_no = RM_NO_PAGE)
    (h : f.create_new_page_handle = (f', p)) :
    wf f' ∧ f'.hdr.first_free_page_no = p ∧
    f'.getPage p = some (freshPage α f.hdr.num_records_per_page) ∧
    (∀ r, f'.recordAt r = f.recordAt r) ∧
    liveContents f' = liveContents f ∧
    f'.hdr.num_records_per_page = f.hdr.num_records_per_page ∧
    f'.hdr.num_pages = f.hdr.num_pages + 1 ∧ f'.pages.length = f.pages.length + 1 := by
  obtain ⟨hper, hnp, hpgs, l, hchain, hnd, hiff⟩ := hwf
  have hnew := cnph_getPage_new hnp h
  have hold := cnph_getPage_old hnp h
  have hl : l = [] := by
    rw [hff] at hchain
    exact hchain.no_page
  subst hl
  rw [create_new_page_handle_eq] at h
  obtain ⟨hf', hp⟩ := Prod.mk.injEq .. ▸ h
  have hpval : p = (f.hdr.num_pages : Int) := hp.symm
  have hhdr1 : f'.hdr.first_free_page_no = p := by
    rw [← hf', hp]
    simp [hff]
  have hhdrper : f'.hdr.num_records_per_page = f.hdr.num_records_per_page := by
    rw [← hf']
  have hhdrnp : f'.hdr.num_pages = f.hdr.num_pages + 1 := by
    rw [← hf']
  have hlen : f'.pages.length = f.pages.length + 1 := by
    rw [← hf']
    simp
  have hrec : ∀ r, f'.recordAt r = f.recordAt r := by
    intro r
    unfold recordAt
    by_cases hr : r.page_no = p
    · have hnone : f.getPage p = none := by
        unfold getPage
        rw [if_neg]
        omega
      rw [hr, hnew, hnone]
      simp [bitmapGet, freshPage, getD_replicate_false]
    · rw [hold r.page_no hr]
  have hlive : liveContents f' = liveContents f := by
    unfold liveContents
    rw [← hf']
    simp only [List.map_append, List.flatten_append]
    have : pageLive (freshPage α f.hdr.num_records_per_page) = ([] : List α) := by
      rw [pageLive_eq_live]
      exact live_replicate_false _ _
    simp [this]
  refine ⟨?_, hhdr1, hnew, hrec, hlive, hhdrper, hhdrnp, hlen⟩
  refine ⟨by rw [hhdrper]; exact hper, by rw [hhdrnp, hlen, hnp], ?_, ?_⟩
  · intro pg hpg
    rw [← hf'] at hpg
    simp only [List.mem_append, List.mem_singleton] at hpg
    rcases hpg with hpg | hpg
    · have := hpgs pg hpg
      rwa [hhdrper]
    · subst hpg
      refine ⟨by simp [freshPage, hhdrper], by simp [freshPage, hhdrper], ?_, ?_⟩
      · show (List.replicate f.hdr.num_records_per_page false).count true = 0
        rw [List.count_eq_zero]
        simp
      · simp [freshPage]
  · refine ⟨[p], ?_, by simp, ?_⟩
    · rw [hhdr1]
      refine .cons hnew ?_
      have : (freshPage α f.hdr.num_records_per_page).next_free_page_no = RM_NO_PAGE := rfl
      rw [this]
      exact .nil
    · intro q pg hq
      by_cases hqp : q = p
      · subst hqp
        rw [hnew] at hq
        have hpg : pg = freshPage α f.hdr.num_records_per_page := (Option.some.inj hq).symm
        subst hpg
        constructor
        · intro _
          rw [hhdrper]
          simpa [freshPage] using hper
        · intro _
          exact List.mem_singleton_self _
      · rw [hold q hqp] at hq
        simp only [List.mem_singleton]
        constructor
        · intro hcon
          exact absurd hcon hqp
        · intro hlt
          exfalso
          have := (hiff q pg hq).mpr (by rwa [hhdrper] at hlt)
          simp at this

theorem cph_spec {f : RmFile α} (hwf : wf f) {fuel : Nat} (hfuel : 1 ≤ fuel) :
    ∃ f1 p pg, create_page_handle fuel f = .ok (f1, p) ∧
      wf f1 ∧ f1.hdr.first_free_page_no = p ∧ f1.getPage p = some pg ∧
      pg.num_records < f1.hdr.num_records_per_page ∧
      (∀ r, f1.recordAt r = f.recordAt r) ∧
      liveContents f1 = liveContents f ∧
      f1.hdr.num_records_per_page = f.hdr.num_records_per_page := by
  obtain ⟨n, rfl⟩ : ∃ n, fuel = n + 1 := ⟨fuel - 1, by omega⟩
  by_cases hff : f.hdr.first_free_page_no = RM_NO_PAGE
  · rcases hcn : f.create_new_page_handle with ⟨f', p⟩
    obtain ⟨hwf', hff', hnew, hrec, hlive, hper, _, _⟩ := cnph_spec hwf hff hcn
    refine ⟨f', p, freshPage α f.hdr.num_records_per_page, ?_, hwf', hff', hnew, ?_,
      hrec, hlive, hper⟩
    · unfold create_page_handle
      rw [if_pos hff, hcn]
    · rw [hper]
      have hper1 := hwf.1
      simpa [freshPage] using hper1
  · obtain ⟨hper, hnp, hpgs, l, hchain, hnd, hiff⟩ := hwf
    rcases hchain.head_cases with ⟨hcon, _⟩ | ⟨pg, rest, hpg, hl, htail⟩
    · exact absurd hcon hff
    · have hmem : f.hdr.first_free_page_no ∈ l := by
        rw [hl]
        exact List.mem_cons_self _ _
      have hnonfull : pg.num_records < f.hdr.num_records_per_page :=
        (hiff _ pg hpg).mp hmem
      refine ⟨f, f.hdr.first_free_page_no, pg, ?_, ⟨hper, hnp, hpgs, l, hchain, hnd, hiff⟩,
        rfl, hpg, hnonfull, fun _ => rfl, rfl, rfl⟩
      unfold create_page_handle
      simp only [if_neg hff, hpg]
      rw [if_neg (by omega)]

theorem insert_record_spec {f : RmFile α} (hwf : wf f) (buf : α) :
    ∃ f' rid, f.insert_record buf = .ok (f', rid) ∧ wf f' ∧
      f.recordAt rid = none ∧
      (∀ r, f'.recordAt r = if r = rid then some buf else f.recordAt r) ∧
      liveContents f' = buf ::ₘ liveContents f ∧
      f'.hdr.num_records_per_page = f.hdr.num_records_per_page ∧
      (f'.hdr.first_free_page_no = rid.page_no ↔
        ∃ pg', f'.getPage rid.page_no = some pg' ∧
          pg'.num_records < f'.hdr.num_records_per_page) := by
  obtain ⟨f1, p, pg, hcph, hwf1, hff1, hpg, hnonfull, hrec1, hlive1, hper1⟩ :=
    @cph_spec α _ f hwf (f.pages.length + 2) (by omega)
  obtain ⟨hper, hnp, hpgs, l, hchain, hnd, hiff⟩ := hwf1
  obtain ⟨hbml, hsll, hcount, hle⟩ := hpgs pg (getPage_mem hpg)
  obtain ⟨slot, hslot⟩ := firstClearBit_exists (l := pg.bitmap) (by omega)
  obtain ⟨hslt, hsbit⟩ := firstClearBit_spec hslot
  have hb := getPage_bounds hpg
  set pgN : RmPage α :=
    { pg with
      bitmap := pg.bitmap.set slot true
      slots := pg.slots.set slot buf
      num_records := pg.num_records + 1 } with hpgN
  set f2 : RmFile α := f1.setPage p pgN with hf2
  set f3 : RmFile α :=
    if pgN.num_records = f1.hdr.num_records_per_page then
      { f2 with hdr := { f2.hdr with first_free_page_no := pg.next_free_page_no } }
    else f2 with hf3
  have hrun : f.insert_record buf = .ok (f3, ⟨p, (slot : Int)⟩) := by
    unfold insert_record
    rw [hcph]
    simp only [bind, Except.bind, hpg, hslot]
  have hg2p : f2.getPage p = some pgN := getPage_setPage_self hpg pgN
  have hg2q : ∀ q, q ≠ p → f2.getPage q = f1.getPage q :=
    fun q hq => getPage_setPage_ne pgN hb.1 hq
  have hg3 : ∀ q, f3.getPage q = f2.getPage q := by
    intro q
    rw [hf3]
    by_cases hfull : pgN.num_records = f1.hdr.num_records_per_page
    · rw [if_pos hfull]
      rfl
    · rw [if_neg hfull]
  have hhdr3per : f3.hdr.num_records_per_page = f1.hdr.num_records_per_page := by
    rw [hf3]
    by_cases hfull : pgN.num_records = f1.hdr.num_records_per_page
    · rw [if_pos hfull]
      rfl
    · rw [if_neg hfull]
      rfl
  have hpages3 : f3.pages = f2.pages := by
    rw [hf3]
    by_cases hfull : pgN.num_records = f1.hdr.num_records_per_page
    · rw [if_pos hfull]
    · rw [if_neg hfull]
  have hlen2 : f2.pages.length = f1.pages.length := setPage_pages_length f1 p pgN
  have hslotlt : slot < pg.slots.length := by omega
  have hpoint1 : ∀ r, f3.recordAt r =
      if r = (⟨p, (slot : Int)⟩ : Rid) then some buf else f1.recordAt r := by
    intro r
    by_cases hrp : r.page_no = p
    · unfold recordAt
      simp only [hrp, hg3, hg2p, hpg]
      by_cases hs0 : 0 ≤ r.slot_no
      · by_cases hss : r.slot_no = (slot : Int)
        · have hreq : r = (⟨p, (slot : Int)⟩ : Rid) := by
            cases r
            simp_all
          rw [if_pos hreq]
          have hbit : bitmapGet pgN.bitmap r.slot_no = true := by
            unfold bitmapGet
            rw [if_pos hs0, hss]
            simp only [Int.toNat_natCast, hpgN]
            exact getD_set_self true false hslt
          have hsg : slotGet pgN.slots r.slot_no = buf := by
            unfold slotGet
            rw [if_pos hs0, hss]
            simp only [Int.toNat_natCast, hpgN]
            exact getD_set_self buf default hslotlt
          rw [hbit, hsg]
          simp
        · have hrne : r ≠ (⟨p, (slot : Int)⟩ : Rid) := by
            intro hcon
            rw [hcon] at hss
            exact hss rfl
          rw [if_neg hrne]
          have htne : slot ≠ r.slot_no.toNat := by omega
          have hbit : bitmapGet pgN.bitmap r.slot_no = bitmapGet pg.bitmap r.slot_no := by
            unfold bitmapGet
            rw [if_pos hs0, if_pos hs0]
            simp only [hpgN]
            exact getD_set_ne true false htne
          have hsg : slotGet pgN.slots r.slot_no = slotGet pg.slots r.slot_no := by
            unfold slotGet
            rw [if_pos hs0, if_pos hs0]
            simp only [hpgN]
            exact getD_set_ne buf default htne
          rw [hbit, hsg]
      · have hrne : r ≠ (⟨p, (slot : Int)⟩ : Rid) := by
          intro hcon
          rw [hcon] at hs0
          exact hs0 (Int.natCast_nonneg slot)
        rw [if_neg hrne]
        have hbit : bitmapGet pgN.bitmap r.slot_no = false := by
          unfold bitmapGet
          rw [if_neg hs0]
        have hbit' : bitmapGet pg.bitmap r.slot_no = false := by
          unfold bitmapGet
          rw [if_neg hs0]
        rw [hbit, hbit']
        simp
    · have hrne : r ≠ (⟨p, (slot : Int)⟩ : Rid) := by
        intro hcon
        rw [hcon] at hrp
        exact hrp rfl
      rw [if_neg hrne]
      unfold recordAt
      rw [hg3, hg2q r.page_no hrp]
  have hg3q : ∀ q, q ≠ p → f3.getPage q = f1.getPage q :=
    fun q hq => (hg3 q).trans (hg2q q hq)
  have hg3p : f3.getPage p = some pgN := (hg3 p).trans hg2p
  have hnone : f.recordAt (⟨p, (slot : Int)⟩ : Rid) = none := by
    rw [← hrec1]
    unfold recordAt
    simp only [hpg]
    have hbf : bitmapGet pg.bitmap ((slot : Nat) : Int) = false := by
      unfold bitmapGet
      rw [if_pos (Int.natCast_nonneg slot)]
      simpa [Int.toNat_natCast] using hsbit
    rw [hbf]
    simp
  have hnp3 : f3.hdr.num_pages = f1.hdr.num_pages := by
    rw [hf3]
    by_cases hfull : pgN.num_records = f1.hdr.num_records_per_page
    · rw [if_pos hfull]
      rfl
    · rw [if_neg hfull]
      rfl
  have hpne : p ≠ RM_NO_PAGE := by
    have := hb.1
    unfold RM_NO_PAGE
    omega
  obtain ⟨pgh, rest, hpgh, hl, htail⟩ :
      ∃ pgh rest, f1.getPage p = some pgh ∧ l = p :: rest ∧
        f1.FreeList pgh.next_free_page_no rest := by
    rcases hchain.head_cases with ⟨hc1, _⟩ | ⟨pgh, rest, hpgh, hl, htail⟩
    · rw [hff1] at hc1
      exact absurd hc1 hpne
    · rw [hff1] at hpgh hl
      exact ⟨pgh, rest, hpgh, hl, htail⟩
  have hpgh' : pgh = pg := by
    rw [hpg] at hpgh
    exact (Option.some.inj hpgh).symm
  rw [hpgh'] at htail
  have hndc : (p :: rest).Nodup := hl ▸ hnd
  have hpnotin : p ∉ rest := (List.nodup_cons.mp hndc).1
  have hndrest : rest.Nodup := (List.nodup_cons.mp hndc).2
  have htail3 : f3.FreeList pg.next_free_page_no rest := by
    refine htail.congr ?_
    intro q hq pgq hpgq
    have hqp : q ≠ p := fun hcon => hpnotin (hcon ▸ hq)
    exact ⟨pgq, (hg3q q hqp).trans hpgq, rfl⟩
  have hnext_ne : pg.next_free_page_no ≠ p := by
    rcases htail.head_cases with ⟨hc1, _⟩ | ⟨pgt, rest', hpgt, hl', _⟩
    · rw [hc1]
      exact fun hcon => hpne hcon.symm
    · intro hcon
      apply hpnotin
      rw [hl', hcon]
      exact List.mem_cons_self _ _
  have hwf3 : wf f3 := by
    refine ⟨by rw [hhdr3per]; exact hper, ?_, ?_, ?_⟩
    · rw [hnp3, hpages3, hf2, setPage_pages_length, hnp]
    · intro pg'' hmem
      rw [hpages3] at hmem
      have hmem2 : pg'' ∈ f1.pages.set (p - 1).toNat pgN := hmem
      rcases List.mem_or_eq_of_mem_set hmem2 with h | h
      · rw [hhdr3per]
        exact hpgs pg'' h
      · subst h
        refine ⟨?_, ?_, ?_, ?_⟩
        · rw [hhdr3per, hpgN]
          simpa using hbml
        · rw [hhdr3per, hpgN]
          simpa using hsll
        · rw [hpgN]
          show (pg.bitmap.set slot true).count true = pg.num_records + 1
          rw [count_true_set_true hslt hsbit, hcount]
        · rw [hhdr3per, hpgN]
          show pg.num_records + 1 ≤ f1.hdr.num_records_per_page
          omega
    · by_cases hfull : pgN.num_records = f1.hdr.num_records_per_page
      · have hff3 : f3.hdr.first_free_page_no = pg.next_free_page_no := by
          rw [hf3, if_pos hfull]
        refine ⟨rest, ?_, hndrest, ?_⟩
        · rw [hff3]
          exact htail3
        · intro q pgq hq
          by_cases hqp : q = p
          · subst hqp
            rw [hg3p] at hq
            have hpgq : pgq = pgN := (Option.some.inj hq).symm
            subst hpgq
            constructor
            · intro hcon
              exact absurd hcon hpnotin
            · intro hlt
              rw [hhdr3per] at hlt
              omega
          · rw [hg3q q hqp] at hq
            have := hiff q pgq hq
            rw [hl] at this
            rw [hhdr3per]
            constructor
            · intro hq2
              exact this.mp (List.mem_cons_of_mem _ hq2)
            · intro hlt
              rcases List.mem_cons.mp (this.mpr hlt) with hc | hc
              · exact absurd hc hqp
              · exact hc
      · have hff3 : f3.hdr.first_free_page_no = p := by
          rw [hf3, if_neg hfull]
          exact hff1
        refine ⟨p :: rest, ?_, hndc, ?_⟩
        · rw [hff3]
          refine .cons hg3p ?_
          exact htail3
        · intro q pgq hq
          by_cases hqp : q = p
          · subst hqp
            rw [hg3p] at hq
            have hpgq : pgq = pgN := (Option.some.inj hq).symm
            subst hpgq
            constructor
            · intro _
              rw [hhdr3per, hpgN]
              show pg.num_records + 1 < f1.hdr.num_records_per_page
              have : pgN.num_records = pg.num_records + 1 := rfl
              rw [this] at hfull
              omega
            · intro _
              exact List.mem_cons_self _ _
          · rw [hg3q q hqp] at hq
            have := hiff q pgq hq
            rw [hl] at this
            rw [hhdr3per]
            exact this
  have hpl : (pageLive pgN : Multiset α) = buf ::ₘ (pageLive pg : Multiset α) := by
    rw [pageLive_eq_live, pageLive_eq_live]
    exact live_set_true buf hslt hslotlt hsbit
  have hlc2 : liveContents f2 + (pageLive pg : Multiset α)
      = liveContents f1 + (pageLive pgN : Multiset α) := liveContents_setPage hpg pgN
  have hlc3 : liveContents f3 = liveContents f2 := by
    unfold liveContents
    rw [hpages3]
  have hlive3 : liveContents f3 = buf ::ₘ liveContents f := by
    have key : liveContents f3 + (pageLive pg : Multiset α)
        = (buf ::ₘ liveContents f1) + (pageLive pg : Multiset α) := by
      rw [hlc3, hlc2, hpl, Multiset.add_cons, Multiset.cons_add]
    have := add_right_cancel key
    rw [this, hlive1]
  refine ⟨f3, ⟨p, (slot : Int)⟩, hrun, hwf3, hnone, ?_, hlive3, hhdr3per.trans hper1, ?_⟩
  · intro r
    rw [hpoint1 r, hrec1 r]
  · show f3.hdr.first_free_page_no = p ↔ _
    by_cases hfull : pgN.num_records = f1.hdr.num_records_per_page
    · have hff3 : f3.hdr.first_free_page_no = pg.next_free_page_no := by
        rw [hf3, if_pos hfull]
      constructor
      · intro hcon
        rw [hff3] at hcon
        exact absurd hcon hnext_ne
      · rintro ⟨pg', h1, h2⟩
        have h1' : f3.getPage p = some pg' := h1
        rw [hg3p] at h1'
        have : pg' = pgN := (Option.some.inj h1').symm
        subst this
        rw [hhdr3per] at h2
        omega
    · have hff3 : f3.hdr.first_free_page_no = p := by
        rw [hf3, if_neg hfull]
        exact hff1
      constructor
      · intro _
        refine ⟨pgN, hg3p, ?_⟩
        rw [hhdr3per, hpgN]
        show pg.num_records + 1 < f1.hdr.num_records_per_page
        have heq : pgN.num_records = pg.num_records + 1 := rfl
        rw [heq] at hfull
        omega
      · intro _
        exact hff3

theorem recordAt_bit {f : RmFile α} {rid : Rid} {pg : RmPage α} {a : α}
    (hpg : f.getPage rid.page_no = some pg) (h : f.recordAt rid = some a) :
    0 ≤ rid.slot_no ∧ rid.slot_no.toNat < pg.bitmap.length ∧
      pg.bitmap.getD rid.slot_no.toNat false = true ∧
      pg.slots.getD rid.slot_no.toNat default = a := by
  obtain ⟨pg', hpg', hbit, hsg⟩ := recordAt_some_getPage h
  rw [hpg] at hpg'
  have hpe : pg' = pg := (Option.some.inj hpg').symm
  rw [hpe] at hbit hsg
  unfold bitmapGet at hbit
  by_cases hs0 : 0 ≤ rid.slot_no
  · rw [if_pos hs0] at hbit
    have hlt : rid.slot_no.toNat < pg.bitmap.length := by
      by_contra hge
      rw [List.getD_eq_default _ _ (by omega)] at hbit
      exact Bool.false_ne_true hbit
    refine ⟨hs0, hlt, hbit, ?_⟩
    unfold slotGet at hsg
    rwa [if_pos hs0] at hsg
  · rw [if_neg hs0] at hbit
    exact absurd hbit Bool.false_ne_true

theorem delete_record_spec {f : RmFile α} (hwf : wf f) {rid : Rid} {a : α}
    (h : f.recordAt rid = some a) :
    ∃ f', f.delete_record rid = .ok f' ∧ wf f' ∧
      (∀ r, f'.recordAt r = if r = rid then none else f.recordAt r) ∧
      liveContents f = a ::ₘ liveContents f' ∧
      f'.hdr.num_records_per_page = f.hdr.num_records_per_page ∧
      (∀ pg0, f.getPage rid.page_no = some pg0 →
        (pg0.num_records = f.hdr.num_records_per_page →
          f'.hdr.first_free_page_no = rid.page_no ∧
          ∃ pgx, f'.getPage rid.page_no = some pgx ∧
            pgx.next_free_page_no = f.hdr.first_free_page_no) ∧
        (pg0.num_records ≠ f.hdr.num_records_per_page → f'.hdr = f.hdr)) := by
  obtain ⟨hper, hnp, hpgs, l, hchain, hnd, hiff⟩ := hwf
  obtain ⟨pg, hpg, hbittrue, hsga⟩ := recordAt_some_getPage h
  obtain ⟨hs0, hjlt, hgetD, hgetDa⟩ := recordAt_bit hpg h
  obtain ⟨hbml, hsll, hcount, hle⟩ := hpgs pg (getPage_mem hpg)
  have hb := getPage_bounds hpg
  have hnum1 : 1 ≤ pg.num_records := by
    rw [← hcount]
    rw [count_true_set_false hjlt hgetD]
    omega
  set p := rid.page_no with hp
  set pgD : RmPage α :=
    { pg with
      bitmap := bitmapSet pg.bitmap rid.slot_no false
      num_records := pg.num_records - 1 } with hpgD
  set fD : RmFile α := f.setPage p pgD with hfD
  have hgDp : fD.getPage p = some pgD := getPage_setPage_self hpg pgD
  have hgDq : ∀ q, q ≠ p → fD.getPage q = f.getPage q :=
    fun q hq => getPage_setPage_ne pgD hb.1 hq
  have hrun0 : f.delete_record rid = .ok (fD.release_page_handle p) := by
    unfold delete_record
    simp only [hpg, hbittrue]
    rfl
  have hbml' : pgD.bitmap.length = pg.bitmap.length := by
    rw [hpgD]
    show (bitmapSet pg.bitmap rid.slot_no false).length = pg.bitmap.length
    unfold bitmapSet
    rw [if_pos hs0]
    exact List.length_set _ _ _
  have hcntD : pgD.bitmap.count true = pg.num_records - 1 := by
    rw [hpgD]
    show (bitmapSet pg.bitmap rid.slot_no false).count true = pg.num_records - 1
    unfold bitmapSet
    rw [if_pos hs0]
    have := count_true_set_false hjlt hgetD
    omega
  have hplD : (pageLive pg : Multiset α) = a ::ₘ (pageLive pgD : Multiset α) := by
    rw [pageLive_eq_live, pageLive_eq_live, hpgD]
    show (live pg.bitmap pg.slots : Multiset α)
      = a ::ₘ (live (bitmapSet pg.bitmap rid.slot_no false) pg.slots : Multiset α)
    unfold bitmapSet
    rw [if_pos hs0]
    have hjlt2 : rid.slot_no.toNat < pg.slots.length := by omega
    have := live_set_false (α := α) hjlt hjlt2 hgetD
    rw [← hgetDa]
    exact this
  have hpointD : ∀ r, fD.recordAt r = if r = rid then none else f.recordAt r := by
    intro r
    by_cases hrp : r.page_no = p
    · unfold recordAt
      simp only [hrp, hgDp, hpg]
      by_cases hrs0 : 0 ≤ r.slot_no
      · by_cases hss : r.slot_no = rid.slot_no
        · have hreq : r = rid := by
            cases r
            cases rid
            simp_all
          rw [if_pos hreq]
          have hbitD : bitmapGet pgD.bitmap r.slot_no = false := by
            unfold bitmapGet
            rw [if_pos hrs0, hss, hpgD]
            show (bitmapSet pg.bitmap rid.slot_no false).getD rid.slot_no.toNat false = false
            unfold bitmapSet
            rw [if_pos hs0]
            exact getD_set_self false false hjlt
          rw [hbitD]
          simp
        · have hrne : r ≠ rid := fun hcon => hss (by rw [hcon])
          rw [if_neg hrne]
          have htne : rid.slot_no.toNat ≠ r.slot_no.toNat := by omega
          have hbitD : bitmapGet pgD.bitmap r.slot_no = bitmapGet pg.bitmap r.slot_no := by
            unfold bitmapGet
            rw [if_pos hrs0, if_pos hrs0, hpgD]
            show (bitmapSet pg.bitmap rid.slot_no false).getD r.slot_no.toNat false
              = pg.bitmap.getD r.slot_no.toNat false
            unfold bitmapSet
            rw [if_pos hs0]
            exact getD_set_ne false false htne
          have hsgD : slotGet pgD.slots r.slot_no = slotGet pg.slots r.slot_no := rfl
          rw [hbitD, hsgD]
      · have hrne : r ≠ rid := by
          intro hcon
          rw [hcon] at hrs0
          exact hrs0 hs0
        rw [if_neg hrne]
        have hb1 : bitmapGet pgD.bitmap r.slot_no = false := by
          unfold bitmapGet
          rw [if_neg hrs0]
        have hb2 : bitmapGet pg.bitmap r.slot_no = false := by
          unfold bitmapGet
          rw [if_neg hrs0]
        rw [hb1, hb2]
    · have hrne : r ≠ rid := by
        intro hcon
        rw [hcon] at hrp
        exact hrp rfl
      rw [if_neg hrne]
      unfold recordAt
      rw [hgDq r.page_no hrp]
  have hlcD : liveContents f = a ::ₘ liveContents fD := by
    have key := liveContents_setPage hpg pgD
    rw [hplD, Multiset.add_cons, ← Multiset.cons_add] at key
    exact (add_right_cancel key).symm
  by_cases hfull : pg.num_records = f.hdr.num_records_per_page
  · -- the page was full: release_page_handle relinks it at the free-list head
    have hcond : pgD.num_records = f.hdr.num_records_per_page - 1 := by
      rw [hpgD]
      show pg.num_records - 1 = f.hdr.num_records_per_page - 1
      omega
    set pgD2 : RmPage α := { pgD with next_free_page_no := f.hdr.first_free_page_no } with hpgD2
    set fR : RmFile α :=
      { fD.setPage p pgD2 with
        hdr := { (fD.setPage p pgD2).hdr with first_free_page_no := p } } with hfR
    have hrel : fD.release_page_handle p = fR := by
      unfold release_page_handle
      simp only [hgDp]
      rw [if_pos (show pgD.num_records = fD.hdr.num_records_per_page - 1 from hcond)]
      rfl
    have hgRp : fR.getPage p = some pgD2 := by
      have h1 : (fD.setPage p pgD2).getPage p = some pgD2 := getPage_setPage_self hgDp pgD2
      exact h1
    have hgRq : ∀ q, q ≠ p → fR.getPage q = f.getPage q := by
      intro q hq
      have h1 : (fD.setPage p pgD2).getPage q = fD.getPage q := getPage_setPage_ne pgD2 hb.1 hq
      exact h1.trans (hgDq q hq)
    have hrecR : ∀ r, fR.recordAt r = fD.recordAt r := by
      intro r
      unfold recordAt
      by_cases hrp : r.page_no = p
      · rw [hrp, hgRp, hgDp]
      · have h1 : (fD.setPage p pgD2).getPage r.page_no = fD.getPage r.page_no :=
          getPage_setPage_ne pgD2 hb.1 hrp
        rw [show fR.getPage r.page_no = (fD.setPage p pgD2).getPage r.page_no from rfl, h1]
    have hlcR : liveContents fR = liveContents fD := by
      have key := liveContents_setPage hgDp pgD2
      have hplsame : (pageLive pgD2 : Multiset α) = (pageLive pgD : Multiset α) := rfl
      rw [hplsame] at key
      have h2 : liveContents (fD.setPage p pgD2) = liveContents fD := add_right_cancel key
      exact h2
    have hpnotin : p ∉ l := by
      intro hmem
      have := (hiff p pg hpg).mp hmem
      omega
    have hRper : fR.hdr.num_records_per_page = f.hdr.num_records_per_page := rfl
    have hRnp : fR.hdr.num_pages = f.hdr.num_pages := rfl
    have hRpages : fR.pages = fD.pages.set (p - 1).toNat pgD2 := rfl
    have hRff : fR.hdr.first_free_page_no = p := rfl
    have hnumD : pgD.num_records = pg.num_records - 1 := rfl
    have hnum2 : pgD2.num_records = pg.num_records - 1 := rfl
    have hslD : pgD.slots = pg.slots := rfl
    have hsl2 : pgD2.slots = pg.slots := rfl
    have hbm2 : pgD2.bitmap = pgD.bitmap := rfl
    refine ⟨fR, by rw [hrun0, hrel], ?_, ?_, ?_, hRper, ?_⟩
    · -- wf fR
      refine ⟨by rw [hRper]; exact hper, ?_, ?_, ?_⟩
      · rw [hRnp, hRpages, List.length_set, hfD, setPage_pages_length, hnp]
      · intro pg'' hmem
        rw [hRpages] at hmem
        rcases List.mem_or_eq_of_mem_set hmem with h2 | h2
        · have hmem3 : pg'' ∈ f.pages.set (p - 1).toNat pgD := h2
          rcases List.mem_or_eq_of_mem_set hmem3 with h3 | h3
          · rw [hRper]
            exact hpgs pg'' h3
          · subst h3
            exact ⟨by rw [hRper, hbml', hbml], by rw [hRper, hslD]; exact hsll,
              by rw [hcntD, hnumD], by rw [hRper, hnumD]; omega⟩
        · subst h2
          refine ⟨by rw [hRper, hbm2, hbml', hbml], by rw [hRper, hsl2]; exact hsll, ?_, ?_⟩
          · rw [hbm2, hcntD, hnum2]
          · rw [hRper, hnum2]
            omega
      · refine ⟨p :: l, ?_, List.nodup_cons.mpr ⟨hpnotin, hnd⟩, ?_⟩
        · rw [hRff]
          refine .cons hgRp ?_
          have hnx : pgD2.next_free_page_no = f.hdr.first_free_page_no := rfl
          rw [hnx]
          refine hchain.congr ?_
          intro q hq pgq hpgq
          have hqp : q ≠ p := fun hcon => hpnotin (hcon ▸ hq)
          exact ⟨pgq, (hgRq q hqp).trans hpgq, rfl⟩
        · intro q pgq hq
          by_cases hqp : q = p
          · subst hqp
            rw [hgRp] at hq
            have hpge : pgq = pgD2 := (Option.some.inj hq).symm
            subst hpge
            constructor
            · intro _
              rw [hRper, hnum2]
              omega
            · intro _
              exact List.mem_cons_self _ _
          · rw [hgRq q hqp] at hq
            have := hiff q pgq hq
            rw [hRper]
            constructor
            · intro hq2
              rcases List.mem_cons.mp hq2 with hc | hc
              · exact absurd hc hqp
              · exact this.mp hc
            · intro hlt
              exact List.mem_cons_of_mem _ (this.mpr hlt)
    · intro r
      rw [hrecR r, hpointD r]
    · rw [hlcD, hlcR]
    · intro pg0 hpg0
      rw [hpg] at hpg0
      have hpge : pg0 = pg := (Option.some.inj hpg0).symm
      subst hpge
      constructor
      · intro _
        exact ⟨hRff, pgD2, hgRp, rfl⟩
      · intro hcon
        exact absurd hfull hcon
  · -- the page stays on (or was already on) the free list: no relink happens
    have hnumD : pgD.num_records = pg.num_records - 1 := rfl
    have hslD : pgD.slots = pg.slots := rfl
    have hDper : fD.hdr.num_records_per_page = f.hdr.num_records_per_page := rfl
    have hDnp : fD.hdr.num_pages = f.hdr.num_pages := rfl
    have hDpages : fD.pages = f.pages.set (p - 1).toNat pgD := rfl
    have hcond : ¬ pgD.num_records = fD.hdr.num_records_per_page - 1 := by
      rw [hnumD, hDper]
      omega
    have hrel : fD.release_page_handle p = fD := by
      unfold release_page_handle
      simp only [hgDp]
      rw [if_neg hcond]
    have hmem : p ∈ l := (hiff p pg hpg).mpr (by omega)
    refine ⟨fD, by rw [hrun0, hrel], ?_, hpointD, hlcD, hDper, ?_⟩
    · refine ⟨by rw [hDper]; exact hper, ?_, ?_, ?_⟩
      · rw [hDnp, hDpages, List.length_set, hnp]
      · intro pg'' hmem2
        rw [hDpages] at hmem2
        rcases List.mem_or_eq_of_mem_set hmem2 with h3 | h3
        · rw [hDper]
          exact hpgs pg'' h3
        · subst h3
          exact ⟨by rw [hDper, hbml', hbml], by rw [hDper, hslD]; exact hsll,
            by rw [hcntD, hnumD], by rw [hDper, hnumD]; omega⟩
      · refine ⟨l, ?_, hnd, ?_⟩
        · have hffD : fD.hdr.first_free_page_no = f.hdr.first_free_page_no := rfl
          rw [hffD]
          refine hchain.congr ?_
          intro q hq pgq hpgq
          by_cases hqp : q = p
          · subst hqp
            rw [hpg] at hpgq
            have : pgq = pg := (Option.some.inj hpgq).symm
            subst this
            exact ⟨pgD, hgDp, rfl⟩
          · exact ⟨pgq, (hgDq q hqp).trans hpgq, rfl⟩
        · intro q pgq hq
          by_cases hqp : q = p
          · subst hqp
            rw [hgDp] at hq
            have hpge : pgq = pgD := (Option.some.inj hq).symm
            subst hpge
            constructor
            · intro _
              rw [hDper, hnumD]
              omega
            · intro _
              exact hmem
          · rw [hgDq q hqp] at hq
            rw [hDper]
            exact hiff q pgq hq
    · intro pg0 hpg0
      rw [hpg] at hpg0
      have : pg0 = pg := (Option.some.inj hpg0).symm
      subst this
      constructor
      · intro hcon
        exact absurd hcon hfull
      · intro _
        rfl

theorem update_record_spec [DecidableEq α] {f : RmFile α} (hwf : wf f) {rid : Rid} {a : α}
    (h : f.recordAt rid = some a) (buf : α) :
    ∃ f', f.update_record rid buf = .ok f' ∧ wf f' ∧
      (∀ r, f'.recordAt r = if r = rid then some buf else f.recordAt r) ∧
      (∃ m : Multiset α, liveContents f = a ::ₘ m ∧ liveContents f' = buf ::ₘ m) ∧
      f'.hdr = f.hdr := by
  obtain ⟨hper, hnp, hpgs, l, hchain, hnd, hiff⟩ := hwf
  obtain ⟨pg, hpg, hbittrue, hsga⟩ := recordAt_some_getPage h
  obtain ⟨hs0, hjlt, hgetD, hgetDa⟩ := recordAt_bit hpg h
  obtain ⟨hbml, hsll, hcount, hle⟩ := hpgs pg (getPage_mem hpg)
  have hb := getPage_bounds hpg
  set p := rid.page_no with hp
  set pgU : RmPage α := { pg with slots := slotSet pg.slots rid.slot_no buf } with hpgU
  set fU : RmFile α := f.setPage p pgU with hfU
  have hgUp : fU.getPage p = some pgU := getPage_setPage_self hpg pgU
  have hgUq : ∀ q, q ≠ p → fU.getPage q = f.getPage q :=
    fun q hq => getPage_setPage_ne pgU hb.1 hq
  have hrun : f.update_record rid buf = .ok fU := by
    unfold update_record
    simp only [hpg, hbittrue]
    rfl
  have hjlt2 : rid.slot_no.toNat < pg.slots.length := by omega
  have hslU : pgU.slots = pg.slots.set rid.slot_no.toNat buf := by
    rw [hpgU]
    show slotSet pg.slots rid.slot_no buf = pg.slots.set rid.slot_no.toNat buf
    unfold slotSet
    rw [if_pos hs0]
  have hbmU : pgU.bitmap = pg.bitmap := rfl
  have hnumU : pgU.num_records = pg.num_records := rfl
  have hUhdr : fU.hdr = f.hdr := rfl
  have hpoint : ∀ r, fU.recordAt r = if r = rid then some buf else f.recordAt r := by
    intro r
    by_cases hrp : r.page_no = p
    · unfold recordAt
      simp only [hrp, hgUp, hpg]
      by_cases hrs0 : 0 ≤ r.slot_no
      · by_cases hss : r.slot_no = rid.slot_no
        · have hreq : r = rid := by
            cases r
            cases rid
            simp_all
          rw [if_pos hreq]
          have hbitU : bitmapGet pgU.bitmap r.slot_no = true := by
            rw [hbmU]
            rw [hreq]
            exact hbittrue
          rw [hbitU]
          have hsgU : slotGet pgU.slots r.slot_no = buf := by
            unfold slotGet
            rw [if_pos hrs0, hss, hslU]
            exact getD_set_self buf default hjlt2
          rw [hsgU]
          simp
        · have hrne : r ≠ rid := fun hcon => hss (by rw [hcon])
          rw [if_neg hrne]
          have htne : rid.slot_no.toNat ≠ r.slot_no.toNat := by omega
          have hbitU : bitmapGet pgU.bitmap r.slot_no = bitmapGet pg.bitmap r.slot_no := by
            rw [hbmU]
          have hsgU : slotGet pgU.slots r.slot_no = slotGet pg.slots r.slot_no := by
            unfold slotGet
            rw [if_pos hrs0, if_pos hrs0, hslU]
            exact getD_set_ne buf default htne
          rw [hbitU, hsgU]
      · have hrne : r ≠ rid := by
          intro hcon
          rw [hcon] at hrs0
          exact hrs0 hs0
        rw [if_neg hrne]
        have hb1 : bitmapGet pgU.bitmap r.slot_no = false := by
          unfold bitmapGet
          rw [if_neg hrs0]
        have hb2 : bitmapGet pg.bitmap r.slot_no = false := by
          unfold bitmapGet
          rw [if_neg hrs0]
        simp [hb1, hb2]
    · have hrne : r ≠ rid := by
        intro hcon
        rw [hcon] at hrp
        exact hrp rfl
      rw [if_neg hrne]
      unfold recordAt
      rw [hgUq r.page_no hrp]
  obtain ⟨m, hm1, hm2⟩ := live_set_slot (α := α) buf hjlt hjlt2 hgetD
  have hplm1 : (pageLive pg : Multiset α) = a ::ₘ m := by
    rw [pageLive_eq_live, ← hgetDa]
    exact hm1
  have hplm2 : (pageLive pgU : Multiset α) = buf ::ₘ m := by
    rw [pageLive_eq_live, hbmU, hslU]
    exact hm2
  have key := liveContents_setPage hpg pgU
  refine ⟨fU, hrun, ?_, hpoint, ?_, hUhdr⟩
  · refine ⟨by rw [hUhdr]; exact hper, ?_, ?_, ?_⟩
    · rw [hUhdr, hfU, setPage_pages_length, hnp]
    · intro pg'' hmem
      have hmem2 : pg'' ∈ f.pages.set (p - 1).toNat pgU := hmem
      rcases List.mem_or_eq_of_mem_set hmem2 with h3 | h3
      · rw [hUhdr]
        exact hpgs pg'' h3
      · subst h3
        exact ⟨by rw [hUhdr, hbmU, hbml], by rw [hUhdr, hslU]; simpa using hsll,
          by rw [hbmU, hcount, hnumU], by rw [hUhdr, hnumU]; exact hle⟩
    · refine ⟨l, ?_, hnd, ?_⟩
      · have hffU : fU.hdr.first_free_page_no = f.hdr.first_free_page_no := rfl
        rw [hffU]
        refine hchain.congr ?_
        intro q hq pgq hpgq
        by_cases hqp : q = p
        · subst hqp
          rw [hpg] at hpgq
          have hpge : pgq = pg := (Option.some.inj hpgq).symm
          subst hpge
          exact ⟨pgU, hgUp, rfl⟩
        · exact ⟨pgq, (hgUq q hqp).trans hpgq, rfl⟩
      · intro q pgq hq
        by_cases hqp : q = p
        · subst hqp
          rw [hgUp] at hq
          have hpge : pgq = pgU := (Option.some.inj hq).symm
          subst hpge
          rw [hUhdr, hnumU]
          have hmemp := hiff p pg hpg
          constructor
          · intro hq2
            exact hmemp.mp hq2
          · intro hlt
            exact hmemp.mpr hlt
        · rw [hgUq q hqp] at hq
          rw [hUhdr]
          exact hiff q pgq hq
  · have hap : a ∈ (pageLive pg : Multiset α) := by
      rw [hplm1]
      exact Multiset.mem_cons_self _ _
    have hap' : a ∈ pageLive pg := by exact_mod_cast hap
    have hamem : a ∈ liveContents f := by
      unfold liveContents
      rw [Multiset.mem_coe]
      exact List.mem_flatten.mpr ⟨pageLive pg, List.mem_map_of_mem _ (getPage_mem hpg), hap'⟩
    have hY : liveContents f = a ::ₘ (liveContents f).erase a := (Multiset.cons_erase hamem).symm
    refine ⟨(liveContents f).erase a, hY, ?_⟩
    have key2 : liveContents fU + (a ::ₘ m) = liveContents f + (buf ::ₘ m) := by
      rw [← hplm1, ← hplm2]
      exact key
    rw [hY, Multiset.add_cons, Multiset.cons_add] at key2
    have key3 : liveContents fU + m = (liveContents f).erase a + (buf ::ₘ m) :=
      (Multiset.cons_inj_right a).mp key2
    rw [Multiset.add_cons, ← Multiset.cons_add] at key3
    exact add_right_cancel key3

theorem recordAt_none_cases {f : RmFile α} {rid : Rid} (h : f.recordAt rid = none) :
    f.getPage rid.page_no = none ∨
    ∃ pg, f.getPage rid.page_no = some pg ∧ bitmapGet pg.bitmap rid.slot_no = false := by
  unfold recordAt at h
  rcases hpg : f.getPage rid.page_no with _ | pg
  · exact .inl rfl
  · simp only [hpg] at h
    refine .inr ⟨pg, rfl, ?_⟩
    rcases hbb : bitmapGet pg.bitmap rid.slot_no
    · rfl
    · rw [hbb] at h
      simp at h

theorem delete_record_err {f : RmFile α} {rid : Rid} (h : f.recordAt rid = none) :
    ∃ e, f.delete_record rid = .error e := by
  rcases recordAt_none_cases h with hpg | ⟨pg, hpg, hbit⟩
  · exact ⟨.pageNotExist, by unfold delete_record; simp only [hpg]⟩
  · exact ⟨.recordNotFound, by unfold delete_record; simp [hpg, hbit]⟩

theorem update_record_err {f : RmFile α} {rid : Rid} (h : f.recordAt rid = none) (buf : α) :
    ∃ e, f.update_record rid buf = .error e := by
  rcases recordAt_none_cases h with hpg | ⟨pg, hpg, hbit⟩
  · exact ⟨.pageNotExist, by unfold update_record; simp only [hpg]⟩
  · exact ⟨.recordNotFound, by unfold update_record; simp [hpg, hbit]⟩

theorem get_record_ok {f : RmFile α} {rid : Rid} {a : α} (h : f.recordAt rid = some a) :
    f.get_record rid = .ok a := by
  obtain ⟨pg, hpg, hbit, hsg⟩ := recordAt_some_getPage h
  unfold get_record
  simp only [hpg]
  rw [if_pos (by simpa using hbit), hsg]

theorem get_record_err {f : RmFile α} {rid : Rid} (h : f.recordAt rid = none) :
    ∃ e, f.get_record rid = .error e := by
  rcases recordAt_none_cases h with hpg | ⟨pg, hpg, hbit⟩
  · exact ⟨.pageNotExist, by unfold get_record; simp only [hpg]⟩
  · exact ⟨.recordNotFound, by unfold get_record; simp [hpg, hbit]⟩

/-! The free-list invariant over operation sequences (claim C3).  An `Op`
is one call into the record manager's mutating interface; `runOp` applies
it, and — matching the engine, where a thrown error aborts the statement
before any page mutation — an operation that fails leaves the file
unchanged (every throw in the three functions happens before the first
page write). -/

/-- One mutating record-manager call. -/
inductive Op (α : Type) where
  | ins (buf : α)
  | del (rid : Rid)
  | insAt (rid : Rid) (buf : α)
deriving DecidableEq, Repr

/-- Whether an operation is the recovery-path insert at a fixed rid. -/
def Op.isInsAt {α : Type} : Op α → Bool
  | .insAt _ _ => true
  | _ => false

/-- Applying one operation; a failing call leaves the state unchanged. -/
def runOp (f : RmFile α) : Op α → RmFile α
  | .ins buf =>
    match f.insert_record buf with
    | .ok (f', _) => f'
    | .error _ => f
  | .del rid =>
    match f.delete_record rid with
    | .ok f' => f'
    | .error _ => f
  | .insAt rid buf =>
    match f.insert_record_at rid buf with
    | .ok f' => f'
    | .error _ => f

/-- Applying a sequence of operations from left to right. -/
def runOps (f : RmFile α) : List (Op α) → RmFile α
  | [] => f
  | op :: ops => runOps (runOp f op) ops

theorem wf_runOp {f : RmFile α} (hwf : wf f) {op : Op α} (hop : op.isInsAt = false) :
    wf (runOp f op) := by
  cases op with
  | ins buf =>
    obtain ⟨f', rid, hrun, hwf', _⟩ := insert_record_spec hwf buf
    simp only [runOp, hrun]
    exact hwf'
  | del rid =>
    match hrec : f.recordAt rid with
    | some a =>
      obtain ⟨f', hrun, hwf', _⟩ := delete_record_spec hwf hrec
      simp only [runOp, hrun]
      exact hwf'
    | none =>
      obtain ⟨e, hrun⟩ := delete_record_err hrec
      simp only [runOp, hrun]
      exact hwf
  | insAt rid buf => simp [Op.isInsAt] at hop

theorem wf_runOps {f : RmFile α} (hwf : wf f) {ops : List (Op α)}
    (hops : ∀ op ∈ ops, op.isInsAt = false) : wf (runOps f ops) := by
  induction ops generalizing f with
  | nil => exact hwf
  | cons op ops ih =>
    exact ih (wf_runOp hwf (hops op (by simp))) (fun o ho => hops o (by simp [ho]))

end RmFile

open RmFile in
/-- Claim C3, amended.  Starting from an empty table file, after any sequence
of `insert_record` and `delete_record` operations the chain
`first_free_page_no → next_free_page_no → … → NO_PAGE` contains exactly the
data pages with `num_records < num_records_per_page`, each exactly once;
`delete_record` links a page at the chain's head (head pointer moved to the
page, the page's `next_free_page_no` now holding the old head, the page not
previously the head) if and only if the delete drops `num_records` from
`num_records_per_page` to `num_records_per_page - 1`; and `insert_record`
leaves the target page at the head exactly when the insert did not fill it.
The amendment drops `insert_record_at` from the operation sequence: the
source's fixed-rid insert does not maintain the free list, so a sequence
containing it can leave a full page on the chain (see the counterexample). -/
theorem claim_C3 (α : Type) [Inhabited α] :
    (∀ per : Nat, 1 ≤ per → ∀ ops : List (Op α), (∀ op ∈ ops, op.isInsAt = false) →
      ∃ l, (runOps (emptyFile α per) ops).FreeList
            (runOps (emptyFile α per) ops).hdr.first_free_page_no l ∧
        l.Nodup ∧
        ∀ p pg, (runOps (emptyFile α per) ops).getPage p = some pg →
          (p ∈ l ↔ pg.num_records < (runOps (emptyFile α per) ops).hdr.num_records_per_page)) ∧
    (∀ (f f' : RmFile α) (rid : Rid) (pg0 : RmPage α), wf f →
      f.delete_record rid = .ok f' → f.getPage rid.page_no = some pg0 →
      ((f'.hdr.first_free_page_no = rid.page_no ∧
        rid.page_no ≠ f.hdr.first_free_page_no ∧
        ∃ pgx, f'.getPage rid.page_no = some pgx ∧
          pgx.next_free_page_no = f.hdr.first_free_page_no) ↔
        pg0.num_records = f.hdr.num_records_per_page)) ∧
    (∀ (f f' : RmFile α) (buf : α) (rid : Rid), wf f →
      f.insert_record buf = .ok (f', rid) →
      (f'.hdr.first_free_page_no = rid.page_no ↔
        ∃ pg', f'.getPage rid.page_no = some pg' ∧
          pg'.num_records < f'.hdr.num_records_per_page)) := by
  refine ⟨?_, ?_, ?_⟩
  · intro per hper ops hops
    exact (wf_runOps (wf_emptyFile per hper) hops).2.2.2
  · intro f f' rid pg0 hwf hdel hpg0
    obtain ⟨a, hrec⟩ : ∃ a, f.recordAt rid = some a := by
      match hr : f.recordAt rid with
      | some a => exact ⟨a, rfl⟩
      | none =>
        obtain ⟨e, he⟩ := delete_record_err hr
        rw [he] at hdel
        exact absurd hdel (by simp)
    obtain ⟨f'', hrun, hwf'', hpoint, hlc, hperq, hchr⟩ := delete_record_spec hwf hrec
    have hfe : f'' = f' := by
      rw [hrun] at hdel
      exact (Except.ok.inj hdel)
    subst hfe
    have hch := hchr pg0 hpg0
    constructor
    · rintro ⟨h1, h4, pgx, h2, h3⟩
      by_contra hnotfull
      have hhdr := hch.2 hnotfull
      rw [hhdr] at h1
      exact h4 h1.symm
    · intro hfull
      obtain ⟨h1, pgx, h2, h3⟩ := hch.1 hfull
      refine ⟨h1, ?_, pgx, h2, h3⟩
      obtain ⟨hper', hnp, hpgs, l, hchain, hnd, hiff⟩ := hwf
      have hnotmem : rid.page_no ∉ l := by
        intro hm
        have := (hiff _ pg0 hpg0).mp hm
        omega
      rcases hchain.head_cases with ⟨hc1, _⟩ | ⟨pgh, rest, hpgh, hl, _⟩
      · rw [hc1]
        have hbb := getPage_bounds hpg0
        unfold RM_NO_PAGE
        omega
      · intro hcon
        apply hnotmem
        rw [hl, hcon]
        exact List.mem_cons_self _ _
  · intro f f' buf rid hwf hins
    obtain ⟨f'', rid'', hrun, hwf'', hnone, hpoint, hlc, hperq, hiff2⟩ :=
      insert_record_spec hwf buf
    rw [hrun] at hins
    have hpair := Except.ok.inj hins
    have hf : f'' = f' := congrArg Prod.fst hpair
    have hr : rid'' = rid := congrArg Prod.snd hpair
    subst hf
    subst hr
    exact hiff2

/-- The final state of the C3 counterexample run: insert one record, then
use the fixed-rid insert to fill the page.  The fixed-rid insert does not
unlink the now-full page, so the free list still holds page 1. -/
def cexC3 : RmFile Nat :=
  RmFile.runOps (RmFile.emptyFile Nat 2) [RmFile.Op.ins 5, RmFile.Op.insAt ⟨1, 1⟩ 6]

open RmFile in
/-- Claim C3 as stated is false: with `insert_record_at` among the
operations, the free-page chain can retain a full page.  After `ins 5;
insAt (1,1) 6` from an empty two-slot-per-page file, page 1 is full yet
`first_free_page_no = 1`, so no duplicate-free chain containing exactly the
non-full pages exists. -/
theorem claim_C3_counterexample :
    cexC3.hdr.first_free_page_no = 1 ∧
    cexC3.getPage 1 = some ⟨RM_NO_PAGE, 2, [true, true], [5, 6]⟩ ∧
    ¬ ∃ l, cexC3.FreeList cexC3.hdr.first_free_page_no l ∧ l.Nodup ∧
      ∀ p pg, cexC3.getPage p = some pg →
        (p ∈ l ↔ pg.num_records < cexC3.hdr.num_records_per_page) := by
  have hff : cexC3.hdr.first_free_page_no = 1 := by decide
  have hpg : cexC3.getPage 1 = some ⟨RM_NO_PAGE, 2, [true, true], [5, 6]⟩ := by decide
  have hp2 : cexC3.hdr.num_records_per_page = 2 := by decide
  refine ⟨hff, hpg, ?_⟩
  rintro ⟨l, hchain, hnd, hiff⟩
  have hnotmem : (1 : Int) ∉ l := by
    intro hm
    have hlt := (hiff 1 _ hpg).mp hm
    rw [hp2] at hlt
    have hnr : (⟨RM_NO_PAGE, 2, [true, true], [5, 6]⟩ : RmPage Nat).num_records = 2 := rfl
    rw [hnr] at hlt
    omega
  rw [hff] at hchain
  rcases hchain.head_cases with ⟨hc1, _⟩ | ⟨pg2, rest2, _, hl2, _⟩
  · exact absurd hc1 (by decide)
  · exact hnotmem (hl2 ▸ List.mem_cons_self _ _)

/-- A two-slot page filled by two inserts (input state of the C3 witness's
delete instance). -/
def fwC3 : RmFile Nat :=
  RmFile.runOps (RmFile.emptyFile Nat 2) [RmFile.Op.ins 5, RmFile.Op.ins 6]

/-- The state after deleting slot `(1,0)` from `fwC3`. -/
def fwC3d : RmFile Nat :=
  ⟨⟨2, 1, 2⟩, [⟨-1, 1, [false, true], [5, 6]⟩]⟩

/-- The state after inserting `7` into an empty two-slot-per-page file. -/
def fwC3i : RmFile Nat :=
  ⟨⟨2, 1, 2⟩, [⟨-1, 1, [true, false], [7, 0]⟩]⟩

open RmFile in
/-- Witness for claim C3: the three parts of `claim_C3` applied at concrete
inputs, with every hypothesis discharged by computation. -/
theorem claim_C3_witness :
    (∃ l, (runOps (emptyFile Nat 2) [Op.ins 5, Op.del ⟨1, 0⟩]).FreeList
        (runOps (emptyFile Nat 2) [Op.ins 5, Op.del ⟨1, 0⟩]).hdr.first_free_page_no l ∧
      l.Nodup ∧
      ∀ p pg, (runOps (emptyFile Nat 2) [Op.ins 5, Op.del ⟨1, 0⟩]).getPage p = some pg →
        (p ∈ l ↔ pg.num_records <
          (runOps (emptyFile Nat 2) [Op.ins 5, Op.del ⟨1, 0⟩]).hdr.num_records_per_page)) ∧
    ((fwC3d.hdr.first_free_page_no = (⟨1, 0⟩ : Rid).page_no ∧
      (⟨1, 0⟩ : Rid).page_no ≠ fwC3.hdr.first_free_page_no ∧
      ∃ pgx, fwC3d.getPage (⟨1, 0⟩ : Rid).page_no = some pgx ∧
        pgx.next_free_page_no = fwC3.hdr.first_free_page_no) ↔
      (⟨-1, 2, [true, true], [5, 6]⟩ : RmPage Nat).num_records
        = fwC3.hdr.num_records_per_page) ∧
    (fwC3i.hdr.first_free_page_no = (⟨1, 0⟩ : Rid).page_no ↔
      ∃ pg', fwC3i.getPage (⟨1, 0⟩ : Rid).page_no = some pg' ∧
        pg'.num_records < fwC3i.hdr.num_records_per_page) := by
  refine ⟨(claim_C3 Nat).1 2 (by decide) _ (by decide),
    (claim_C3 Nat).2.1 fwC3 fwC3d ⟨1, 0⟩ ⟨-1, 2, [true, true], [5, 6]⟩
      (wf_runOps (wf_emptyFile 2 (by decide)) (by decide)) rfl (by decide),
    (claim_C3 Nat).2.2 (emptyFile Nat 2) fwC3i 7 ⟨1, 0⟩
      (wf_emptyFile 2 (by decide)) rfl⟩

namespace RmFile

variable {α : Type} [Inhabited α]

/-! The transaction manager's rollback loop (claim C1).  A `WriteRecord`
mirrors the source's `WriteRecord` (a `WType`, the rid, and — for deletes
and updates — the saved record bytes); `undoWrite` is one arm of the
`switch` in `TransactionManager::abort`, and `rollbackWriteSet` is the
reverse iteration over the write set.  `JStep`/`Journal` state that the
write set is a faithful journal of the forward mutations the transaction
performed (each entry records the mutation that produced it, with the
before-image captured at that time). -/

/-- One entry of a transaction's write set (`WType` plus payload). -/
inductive WriteRecord (α : Type) where
  | insert_tuple (rid : Rid)
  | delete_tuple (rid : Rid) (rec : α)
  | update_tuple (rid : Rid) (before : α)
deriving DecidableEq, Repr

/-- The rid an entry refers to. -/
def WriteRecord.rid {α : Type} : WriteRecord α → Rid
  | .insert_tuple rid => rid
  | .delete_tuple rid _ => rid
  | .update_tuple rid _ => rid

/-- One arm of the rollback `switch` in `TransactionManager::abort`:
an INSERT is undone by `delete_record`, a DELETE by re-inserting the saved
bytes through `insert_record` (into whatever slot is free — the returned rid
is discarded, exactly as in the source), an UPDATE by rewriting the rid with
the saved before-image.  All three run with a null context. -/
def undoWrite (f : RmFile α) : WriteRecord α → Except DbErr (RmFile α)
  | .insert_tuple rid => f.delete_record rid
  | .delete_tuple _ rec =>
    match f.insert_record rec with
    | .ok (f', _) => .ok f'
    | .error e => .error e
  | .update_tuple rid before => f.update_record rid before

/-- The rollback loop of `TransactionManager::abort`: iterate the write set
in reverse, applying `undoWrite`; an exception aborts the loop. -/
def rollbackWriteSet (f : RmFile α) (ws : List (WriteRecord α)) : Except DbErr (RmFile α) :=
  ws.reverse.foldlM undoWrite f

/-- One forward mutation together with the write-set entry it appends. -/
inductive JStep : RmFile α → WriteRecord α → RmFile α → Prop where
  | ins {f f' : RmFile α} {buf : α} {rid : Rid} :
      f.insert_record buf = .ok (f', rid) → JStep f (.insert_tuple rid) f'
  | del {f f' : RmFile α} {rid : Rid} {rec : α} :
      f.recordAt rid = some rec → f.delete_record rid = .ok f' →
      JStep f (.delete_tuple rid rec) f'
  | upd {f f' : RmFile α} {rid : Rid} {before buf : α} :
      f.recordAt rid = some before → f.update_record rid buf = .ok f' →
      JStep f (.update_tuple rid before) f'

/-- The write set `ws` is a faithful journal taking state `f` to state `f1`. -/
inductive Journal : RmFile α → List (WriteRecord α) → RmFile α → Prop where
  | nil {f : RmFile α} : Journal f [] f
  | step {f f' f1 : RmFile α} {w : WriteRecord α} {ws : List (WriteRecord α)} :
      JStep f w f' → Journal f' ws f1 → Journal f (w :: ws) f1

/-- The rids of the delete entries of a write set. -/
def delRids {α : Type} (ws : List (WriteRecord α)) : List Rid :=
  ws.filterMap fun w => match w with
    | .delete_tuple rid _ => some rid
    | _ => none

theorem mem_delRids_mem_rids {α : Type} {ws : List (WriteRecord α)} {r : Rid}
    (h : r ∈ delRids ws) : r ∈ ws.map WriteRecord.rid := by
  induction ws with
  | nil => simp [delRids] at h
  | cons w ws ih =>
    unfold delRids at h
    rw [List.filterMap_cons] at h
    match hw : w with
    | .delete_tuple rid rec =>
      simp only at h
      rcases List.mem_cons.mp h with h | h
      · subst h
        simp [WriteRecord.rid]
      · exact List.mem_cons_of_mem _ (ih h)
    | .insert_tuple rid =>
      simp only at h
      exact List.mem_cons_of_mem _ (ih h)
    | .update_tuple rid b =>
      simp only at h
      exact List.mem_cons_of_mem _ (ih h)

theorem foldlM_concat {β γ : Type} (g : β → γ → Except DbErr β) (l : List γ) (x : γ) (b : β) :
    (l ++ [x]).foldlM g b = (l.foldlM g b) >>= fun b' => g b' x := by
  induction l generalizing b with
  | nil => simp
  | cons a l ih =>
    rw [List.cons_append, List.foldlM_cons, List.foldlM_cons]
    match g b a with
    | .ok b' => simp [ih]
    | .error e => simp

theorem rollbackWriteSet_cons (f : RmFile α) (w : WriteRecord α) (ws : List (WriteRecord α)) :
    rollbackWriteSet f (w :: ws) =
      (rollbackWriteSet f ws) >>= fun f2 => undoWrite f2 w := by
  unfold rollbackWriteSet
  rw [List.reverse_cons, foldlM_concat]

theorem JStep.preserve [DecidableEq α] {f f' : RmFile α} {w : WriteRecord α}
    (hwf : wf f) (h : JStep f w f') :
    wf f' ∧ (∀ r, r ≠ w.rid → f'.recordAt r = f.recordAt r) := by
  cases h with
  | ins hins =>
    rename_i buf rid
    obtain ⟨f'', rid'', hrun, hwf'', _, hpoint, _, _, _⟩ := insert_record_spec hwf buf
    rw [hrun] at hins
    have hpair := Except.ok.inj hins
    have hf : f'' = f' := congrArg Prod.fst hpair
    have hr : rid'' = rid := congrArg Prod.snd hpair
    subst hf
    subst hr
    refine ⟨hwf'', ?_⟩
    intro r hr
    simp only [WriteRecord.rid] at hr
    rw [hpoint r, if_neg hr]
  | del hrec hdel =>
    rename_i rid rec
    obtain ⟨f'', hrun, hwf'', hpoint, _, _, _⟩ := delete_record_spec hwf hrec
    rw [hrun] at hdel
    have hf : f'' = f' := Except.ok.inj hdel
    subst hf
    refine ⟨hwf'', ?_⟩
    intro r hr
    simp only [WriteRecord.rid] at hr
    rw [hpoint r, if_neg hr]
  | upd hrec hupd =>
    rename_i rid before buf
    obtain ⟨f'', hrun, hwf'', hpoint, _, _⟩ := update_record_spec hwf hrec buf
    rw [hrun] at hupd
    have hf : f'' = f' := Except.ok.inj hupd
    subst hf
    refine ⟨hwf'', ?_⟩
    intro r hr
    simp only [WriteRecord.rid] at hr
    rw [hpoint r, if_neg hr]

theorem Journal.wf_end [DecidableEq α] {f0 f1 : RmFile α} {ws : List (WriteRecord α)}
    (hj : Journal f0 ws f1) (hwf : wf f0) : wf f1 := by
  induction hj with
  | nil => exact hwf
  | step hstep _ ih => exact ih (hstep.preserve hwf).1

theorem Journal.recordAt_untouched [DecidableEq α] {f0 f1 : RmFile α}
    {ws : List (WriteRecord α)} (hj : Journal f0 ws f1) (hwf : wf f0) {r : Rid}
    (hr : ∀ w ∈ ws, w.rid ≠ r) : f1.recordAt r = f0.recordAt r := by
  induction hj with
  | nil => rfl
  | step hstep htail ih =>
    rename_i f f' f1 w ws
    have hp := hstep.preserve hwf
    rw [ih hp.1 (fun w' hw' => hr w' (by simp [hw']))]
    exact hp.2 r (fun hcon => hr w (by simp) (by rw [hcon]))

theorem Journal.update_before [DecidableEq α] {f0 f1 : RmFile α}
    {ws : List (WriteRecord α)} (hj : Journal f0 ws f1) (hwf : wf f0)
    (hnd : (ws.map WriteRecord.rid).Nodup) {rid : Rid} {b : α}
    (hmem : WriteRecord.update_tuple rid b ∈ ws) : f0.recordAt rid = some b := by
  induction hj with
  | nil => simp at hmem
  | step hstep htail ih =>
    rename_i f f' f1 w ws
    rcases List.mem_cons.mp hmem with hw | hw
    · cases hstep with
      | ins hins => exact absurd hw.symm (by simp)
      | del hrec hdel => exact absurd hw.symm (by simp)
      | upd hrec hupd =>
        rename_i rid' before buf
        have : rid' = rid ∧ before = b := by
          injection hw.symm with h1 h2
          exact ⟨h1, h2⟩
        rw [← this.1, ← this.2]
        exact hrec
    · have hp := hstep.preserve hwf
      have hndt : (ws.map WriteRecord.rid).Nodup := (List.nodup_cons.mp hnd).2
      have hmaphead : w.rid ∉ ws.map WriteRecord.rid := (List.nodup_cons.mp hnd).1
      have hne : rid ≠ w.rid := by
        intro hcon
        apply hmaphead
        rw [← hcon]
        have hmm := List.mem_map_of_mem WriteRecord.rid hw
        simpa [WriteRecord.rid] using hmm
      rw [← hp.2 rid hne]
      exact ih hp.1 hndt hw

theorem JStep.cases_eq {f f' : RmFile α} {w : WriteRecord α} (h : JStep f w f') :
    (∃ buf rid, w = .insert_tuple rid ∧ f.insert_record buf = .ok (f', rid)) ∨
    (∃ rid rec, w = .delete_tuple rid rec ∧ f.recordAt rid = some rec ∧
      f.delete_record rid = .ok f') ∨
    (∃ rid before buf, w = .update_tuple rid before ∧ f.recordAt rid = some before ∧
      f.update_record rid buf = .ok f') := by
  cases h with
  | ins hins => exact .inl ⟨_, _, rfl, hins⟩
  | del h1 h2 => exact .inr (.inl ⟨_, _, rfl, h1, h2⟩)
  | upd h1 h2 => exact .inr (.inr ⟨_, _, _, rfl, h1, h2⟩)

theorem rollback_restores [DecidableEq α] {f0 f1 : RmFile α} {ws : List (WriteRecord α)}
    (hj : Journal f0 ws f1) :
    wf f0 → (ws.map WriteRecord.rid).Nodup →
    ∃ f2, rollbackWriteSet f1 ws = .ok f2 ∧ wf f2 ∧
      liveContents f2 = liveContents f0 ∧
      ∀ r, f2.recordAt r ≠ f0.recordAt r → r ∈ delRids ws ∨ f0.recordAt r = none := by
  induction hj with
  | nil =>
    intro hwf _
    exact ⟨_, rfl, hwf, rfl, fun r hne => absurd rfl hne⟩
  | step hstep htail ih =>
    rename_i f f' ff1 w ws
    intro hwf hnd
    have hnd' : (w.rid :: ws.map WriteRecord.rid).Nodup := by simpa using hnd
    have hheadnot : w.rid ∉ ws.map WriteRecord.rid := (List.nodup_cons.mp hnd').1
    have hndt : (ws.map WriteRecord.rid).Nodup := (List.nodup_cons.mp hnd').2
    have hwf' := (hstep.preserve hwf).1
    obtain ⟨f2, hroll, hwf2, hlc2, hpw2⟩ := ih hwf' hndt
    rw [rollbackWriteSet_cons, hroll]
    rcases hstep.cases_eq with ⟨buf, rid, hw, hins⟩ | ⟨rid, rec, hw, hrecf, hdelf⟩ |
      ⟨rid, before, buf, hw, hrecf, hupdf⟩
    · subst hw
      obtain ⟨f'', rid'', hrun, _h1, hnone, hpoint, hlcf, _h2, _h3⟩ := insert_record_spec hwf buf
      rw [hrun] at hins
      have hpair := Except.ok.inj hins
      have hfe : f' = f'' := (congrArg Prod.fst hpair).symm
      have hre : rid = rid'' := (congrArg Prod.snd hpair).symm
      subst hfe
      subst hre
      have hrid_not_del : rid ∉ delRids ws := by
        intro hm
        apply hheadnot
        simpa [WriteRecord.rid] using mem_delRids_mem_rids hm
      have hf2rid : f2.recordAt rid = some buf := by
        by_cases he : f2.recordAt rid = f'.recordAt rid
        · rw [he, hpoint rid, if_pos rfl]
        · rcases hpw2 rid he with hm | hm
          · exact absurd hm hrid_not_del
          · rw [hpoint rid, if_pos rfl] at hm
            exact absurd hm (by simp)
      obtain ⟨f3, hdrun, hwf3, hpoint3, hlc3, _h4, _h5⟩ := delete_record_spec hwf2 hf2rid
      refine ⟨f3, ?_, hwf3, ?_, ?_⟩
      · show (Except.ok f2 >>= fun x => undoWrite x (WriteRecord.insert_tuple rid)) = .ok f3
        simp only [bind, Except.bind, undoWrite]
        exact hdrun
      · have hkey : buf ::ₘ liveContents f3 = buf ::ₘ liveContents f := by
          rw [← hlc3, hlc2, hlcf]
        exact (Multiset.cons_inj_right buf).mp hkey
      · intro r hne
        have hdel_eq : delRids (WriteRecord.insert_tuple rid :: ws) = delRids ws := by
          simp [delRids]
        rw [hdel_eq]
        by_cases hr : r = rid
        · subst hr
          exact .inr hnone
        · have h3 : f3.recordAt r = f2.recordAt r := by rw [hpoint3 r, if_neg hr]
          have hforward : f'.recordAt r = f.recordAt r := by rw [hpoint r, if_neg hr]
          rw [h3] at hne
          by_cases he : f2.recordAt r = f'.recordAt r
          · rw [he, hforward] at hne
            exact absurd rfl hne
          · rcases hpw2 r he with hm | hm
            · exact .inl hm
            · rw [hforward] at hm
              exact .inr hm
    · subst hw
      obtain ⟨f'', hrun, _h1, hpointf, hlcf, _h2, _h3⟩ := delete_record_spec hwf hrecf
      rw [hrun] at hdelf
      have hfe : f' = f'' := (Except.ok.inj hdelf).symm
      subst hfe
      obtain ⟨f3, rid3, hirun, hwf3, hnone3, hpoint3, hlc3, _h4, _h5⟩ :=
        insert_record_spec hwf2 rec
      refine ⟨f3, ?_, hwf3, ?_, ?_⟩
      · show (Except.ok f2 >>= fun x => undoWrite x (WriteRecord.delete_tuple rid rec)) = .ok f3
        simp only [bind, Except.bind, undoWrite, hirun]
      · rw [hlc3, hlc2, ← hlcf]
      · intro r hne
        have hdelcons : delRids (WriteRecord.delete_tuple rid rec :: ws) = rid :: delRids ws := by
          simp [delRids]
        rw [hdelcons]
        by_cases hr : r = rid
        · subst hr
          exact .inl (List.mem_cons_self _ _)
        · have hforward : f'.recordAt r = f.recordAt r := by
            have hp := hpointf r
            rw [if_neg hr] at hp
            exact hp
          by_cases hr3 : r = rid3
          · subst hr3
            by_cases he : f2.recordAt r = f'.recordAt r
            · have hn1 : f'.recordAt r = none := by
                rw [← he]
                exact hnone3
              rw [hforward] at hn1
              exact .inr hn1
            · rcases hpw2 r he with hm | hm
              · exact .inl (List.mem_cons_of_mem _ hm)
              · rw [hforward] at hm
                exact .inr hm
          · have h3 : f3.recordAt r = f2.recordAt r := by rw [hpoint3 r, if_neg hr3]
            rw [h3] at hne
            by_cases he : f2.recordAt r = f'.recordAt r
            · rw [he, hforward] at hne
              exact absurd rfl hne
            · rcases hpw2 r he with hm | hm
              · exact .inl (List.mem_cons_of_mem _ hm)
              · rw [hforward] at hm
                exact .inr hm
    · subst hw
      obtain ⟨f'', hrun, _h1, hpointf, hmf, hhdrf⟩ := update_record_spec hwf hrecf buf
      rw [hrun] at hupdf
      have hfe : f' = f'' := (Except.ok.inj hupdf).symm
      subst hfe
      obtain ⟨m, hm1, hm2⟩ := hmf
      have hrid_not_del : rid ∉ delRids ws := by
        intro hm
        apply hheadnot
        simpa [WriteRecord.rid] using mem_delRids_mem_rids hm
      have hf2rid : f2.recordAt rid = some buf := by
        by_cases he : f2.recordAt rid = f'.recordAt rid
        · rw [he, hpointf rid, if_pos rfl]
        · rcases hpw2 rid he with hm | hm
          · exact absurd hm hrid_not_del
          · rw [hpointf rid, if_pos rfl] at hm
            exact absurd hm (by simp)
      obtain ⟨f3, hurun, hwf3, hpoint3, hm3, hhdr3⟩ := update_record_spec hwf2 hf2rid before
      obtain ⟨m2, hm21, hm22⟩ := hm3
      refine ⟨f3, ?_, hwf3, ?_, ?_⟩
      · show (Except.ok f2 >>= fun x => undoWrite x (WriteRecord.update_tuple rid before)) = .ok f3
        simp only [bind, Except.bind, undoWrite]
        exact hurun
      · have hmeq : m2 = m := by
          have hkey : buf ::ₘ m2 = buf ::ₘ m := by rw [← hm21, hlc2, hm2]
          exact (Multiset.cons_inj_right buf).mp hkey
        rw [hm22, hmeq, ← hm1]
      · intro r hne
        have hdel_eq : delRids (WriteRecord.update_tuple rid before :: ws) = delRids ws := by
          simp [delRids]
        rw [hdel_eq]
        by_cases hr : r = rid
        · subst hr
          exfalso
          apply hne
          rw [hpoint3 r, if_pos rfl, hrecf]
        · have h3 : f3.recordAt r = f2.recordAt r := by rw [hpoint3 r, if_neg hr]
          have hforward : f'.recordAt r = f.recordAt r := by rw [hpointf r, if_neg hr]
          rw [h3] at hne
          by_cases he : f2.recordAt r = f'.recordAt r
          · rw [he, hforward] at hne
            exact absurd rfl hne
          · rcases hpw2 r he with hm | hm
            · exact .inl hm
            · rw [hforward] at hm
              exact .inr hm

end RmFile

namespace RmFile

theorem mem_delRids_exists {α : Type} {ws : List (WriteRecord α)} {r : Rid}
    (h : r ∈ delRids ws) : ∃ rec, WriteRecord.delete_tuple r rec ∈ ws := by
  unfold delRids at h
  rcases List.mem_filterMap.mp h with ⟨w, hw, hr⟩
  cases w with
  | delete_tuple rid rec =>
    simp only [Option.some.injEq] at hr
    rw [← hr]
    exact ⟨rec, hw⟩
  | insert_tuple rid => simp at hr
  | update_tuple rid b => simp at hr

theorem upd_rid_not_delRids {α : Type} {ws : List (WriteRecord α)}
    (hnd : (ws.map WriteRecord.rid).Nodup) {rid : Rid} {b : α}
    (hmem : WriteRecord.update_tuple rid b ∈ ws) : rid ∉ delRids ws := by
  intro hd
  obtain ⟨rec, hdel⟩ := mem_delRids_exists hd
  have heq : WriteRecord.delete_tuple rid rec = WriteRecord.update_tuple rid b :=
    List.inj_on_of_nodup_map hnd hdel hmem rfl
  exact absurd heq (by simp)

end RmFile

open RmFile in
/-- Claim C1, amended: if a transaction's write set touches each rid at most
once, then replaying it in reverse with the inverse operations (insert undone
by `delete_record`, delete by `insert_record` into some free slot, update by
rewriting the before-image) succeeds and restores the begin-time state: the
multiset of live record contents is restored, every updated rid again holds
its before-image (which is its begin-time content), and any rid whose content
changed is either a re-inserted delete rid or was empty at begin. The
distinct-rid hypothesis is necessary: the original claim, quantified over all
write sets, is refuted by `claim_C1_counterexample`. -/
theorem claim_C1 {α : Type} [Inhabited α] [DecidableEq α] {f0 f1 : RmFile α}
    {ws : List (WriteRecord α)} (hj : Journal f0 ws f1) (hwf : wf f0)
    (hnd : (ws.map WriteRecord.rid).Nodup) :
    ∃ f2, rollbackWriteSet f1 ws = .ok f2 ∧ wf f2 ∧
      liveContents f2 = liveContents f0 ∧
      (∀ rid b, WriteRecord.update_tuple rid b ∈ ws →
        f0.recordAt rid = some b ∧ f2.recordAt rid = some b) ∧
      ∀ r, f2.recordAt r ≠ f0.recordAt r → r ∈ delRids ws ∨ f0.recordAt r = none := by
  obtain ⟨f2, hroll, hwf2, hlc, hpw⟩ := rollback_restores hj hwf hnd
  refine ⟨f2, hroll, hwf2, hlc, ?_, hpw⟩
  intro rid b hmem
  have h0 : f0.recordAt rid = some b := hj.update_before hwf hnd hmem
  refine ⟨h0, ?_⟩
  by_cases he : f2.recordAt rid = f0.recordAt rid
  · rw [he, h0]
  · rcases hpw rid he with hm | hm
    · exact absurd hm (upd_rid_not_delRids hnd hmem)
    · rw [h0] at hm
      exact absurd hm (by simp)

/-- Begin-time state of the C1 counterexample: one full two-slot page holding
`10` and `20`. -/
def s0C1 : RmFile Nat := ⟨⟨2, -1, 2⟩, [⟨-1, 2, [true, true], [10, 20]⟩]⟩

/-- After updating slot `(1,0)` of `s0C1` to `11`. -/
def s1C1 : RmFile Nat := ⟨⟨2, -1, 2⟩, [⟨-1, 2, [true, true], [11, 20]⟩]⟩

/-- After additionally deleting slot `(1,0)`. -/
def s2C1 : RmFile Nat := ⟨⟨2, 1, 2⟩, [⟨-1, 1, [false, true], [11, 20]⟩]⟩

/-- After additionally deleting slot `(1,1)`: the end state of the forward
run of the C1 counterexample. -/
def s3C1 : RmFile Nat := ⟨⟨2, 1, 2⟩, [⟨-1, 0, [false, false], [11, 20]⟩]⟩

/-- The C1 counterexample write set, in mutation order: update `(1,0)` with
before-image `10`, delete `(1,0)` holding `11`, delete `(1,1)` holding `20`. -/
def wsC1 : List (RmFile.WriteRecord Nat) :=
  [.update_tuple ⟨1, 0⟩ 10, .delete_tuple ⟨1, 0⟩ 11, .delete_tuple ⟨1, 1⟩ 20]

/-- The state abort leaves behind in the counterexample: the re-inserted `20`
landed in slot `(1,0)` and was then overwritten by the update's before-image,
so the begin-time content `20` is gone. -/
def rbC1 : RmFile Nat := ⟨⟨2, -1, 2⟩, [⟨-1, 2, [true, true], [10, 11]⟩]⟩

open RmFile in
/-- Claim C1 as stated is false: from the well-formed state `s0C1`, the
faithfully journalled write set `wsC1` (update, then delete of the same rid,
then another delete) rolls back without error, yet the record content `20`
held at begin time is absent from the resulting state — not merely at a
reassigned rid, but from the whole file. -/
theorem claim_C1_counterexample :
    wf s0C1 ∧ Journal s0C1 wsC1 s3C1 ∧
    rollbackWriteSet s3C1 wsC1 = .ok rbC1 ∧
    (20 : Nat) ∈ liveContents s0C1 ∧ (20 : Nat) ∉ liveContents rbC1 := by
  refine ⟨?_, ?_, rfl, by decide, by decide⟩
  · refine ⟨by decide, by decide, ?_, [], ?_, List.nodup_nil, ?_⟩
    · intro pg hpg
      have hpg' : pg = ⟨-1, 2, [true, true], [10, 20]⟩ := by
        simpa [s0C1] using hpg
      rw [hpg']
      exact ⟨rfl, rfl, rfl, by decide⟩
    · have h : s0C1.hdr.first_free_page_no = RM_NO_PAGE := by decide
      rw [h]
      exact .nil
    · intro p pg hp
      have hb := getPage_bounds hp
      have hnp : s0C1.hdr.num_pages = 2 := by decide
      rw [hnp] at hb
      have hp1 : p = 1 := by omega
      subst hp1
      have h1 : s0C1.getPage 1 = some (⟨-1, 2, [true, true], [10, 20]⟩ : RmPage Nat) := by
        decide
      rw [h1] at hp
      injection hp with hpg
      rw [← hpg]
      decide
  · exact .step (@JStep.upd Nat _ s0C1 s1C1 ⟨1, 0⟩ 10 11 rfl rfl)
      (.step (@JStep.del Nat _ s1C1 s2C1 ⟨1, 0⟩ 11 rfl rfl)
        (.step (@JStep.del Nat _ s2C1 s3C1 ⟨1, 1⟩ 20 rfl rfl) .nil))

/-- The state after inserting `5` into an empty two-slot-per-page file (the
forward state of the C1 witness's journal). -/
def fwC1 : RmFile Nat := ⟨⟨2, 1, 2⟩, [⟨-1, 1, [true, false], [5, 0]⟩]⟩

/-- The one-entry write set of the C1 witness. -/
def wsC1w : List (RmFile.WriteRecord Nat) := [.insert_tuple ⟨1, 0⟩]

open RmFile in
/-- Witness for claim C1: the amended theorem applied to the one-step journal
that inserted `5` into an empty file, whose rid list is trivially
duplicate-free. -/
theorem claim_C1_witness :
    ∃ f2, rollbackWriteSet fwC1 wsC1w = .ok f2 ∧ wf f2 ∧
      liveContents f2 = liveContents (emptyFile Nat 2) ∧
      (∀ rid b, WriteRecord.update_tuple rid b ∈ wsC1w →
        (emptyFile Nat 2).recordAt rid = some b ∧ f2.recordAt rid = some b) ∧
      ∀ r, f2.recordAt r ≠ (emptyFile Nat 2).recordAt r →
        r ∈ delRids wsC1w ∨ (emptyFile Nat 2).recordAt r = none :=
  claim_C1 (Journal.step (@JStep.ins Nat _ (emptyFile Nat 2) fwC1 5 ⟨1, 0⟩ rfl) Journal.nil)
    (wf_emptyFile 2 (by decide)) (by decide)

/-- Transaction states (`TransactionState` in the source headers). -/
inductive TxnState where
  | default_state
  | growing
  | shrinking
  | committed
  | aborted
deriving DecidableEq

/-- Modelled from the spec: `Transaction = {id, state, start_ts, prev_lsn,
write_set (ordered append), lock_set, index_page_sets}` (§4 State).  Write-set
entries and lock ids are abstracted to `Nat` tokens; the two index page sets
are merged into one list since the claims only mention that they are cleared
or unchanged. -/
structure Txn where
  txn_id : Nat
  state : TxnState
  start_ts : Int
  prev_lsn : Int
  write_set : List Nat
  lock_set : List Nat
  index_page_sets : List Nat
deriving DecidableEq

/-- The kind tag of a log record (`LogType` variants listed in the spec). -/
inductive LogKind where
  | begin_rec
  | commit_rec
  | abort_rec
  | other_rec
deriving DecidableEq

/-- Modelled from the spec: a log record carries `{lsn, prev_lsn, txn_id,
log_tot_len}` and a self-delimiting payload; the payload is abstracted away
and `log_tot_len` is kept as `len`. -/
structure LogRec where
  lsn : Int
  prev_lsn : Int
  txn_id : Nat
  kind : LogKind
  len : Nat
deriving DecidableEq

/-- `INVALID_LSN` sentinel used for the head of a transaction's log chain. -/
def INVALID_LSN : Int := -1

/-- State of `LogManager` together with its disk file: the non-reentrant
`latch_`, `global_lsn_`, `persist_lsn_`, the in-memory buffer (`buf` lists the
records serialized since the last flush, `offset` is `log_buffer_.offset_`,
`cap` is `LOG_BUFFER_SIZE`), the records already written to the log file, and
a `disk_fails` oracle deciding whether the next `write_log` call raises a
disk error (the `DiskManager` is not part of the source under verification;
modelled from the spec's rule that log flush failures are errors that unwind
out of the caller). -/
structure LogState where
  latch : Bool
  global_lsn : Int
  persist_lsn : Int
  buf : List LogRec
  offset : Nat
  cap : Nat
  disk : List LogRec
  disk_fails : Bool
deriving DecidableEq

namespace LogManager

/-- `LogManager::flush_log_to_disk` (log_manager.cpp:43-58).  The outer
`Option` models termination: `none` means the call blocks forever acquiring
`latch_` (a `std::mutex` is not reentrant).  The inner `Except` models the
disk-write exception unwinding out (the `unique_lock` releases the latch on
unwind, and neither the buffer nor `persist_lsn_` has been touched yet, so
the carried state is the entry state). -/
def flush_log_to_disk (s : LogState) : Option (Except DbErr LogState) :=
  if s.latch then none
  else
    if s.offset = 0 then some (.ok s)
    else if s.disk_fails then some (.error .diskFailed)
    else some (.ok { s with
      disk := s.disk ++ s.buf
      persist_lsn := s.global_lsn
      buf := []
      offset := 0 })

/-- `LogManager::add_log_to_buffer` (log_manager.cpp:19-37).  Takes the
record to append (its `lsn` field is overwritten, as in the source) and
returns the assigned LSN.  On the buffer-full path the source calls
`flush_log_to_disk()` while already holding `latch_`; the recursive acquire
of the non-reentrant latch is modelled by passing the latch-held state to
`flush_log_to_disk`, and the code after that call is translated as in the
source even though it is unreachable. -/
def add_log_to_buffer (r : LogRec) (s : LogState) : Option (Except DbErr (Int × LogState)) :=
  if s.latch then none
  else
    let lsn := s.global_lsn + 1
    let s1 := { s with global_lsn := lsn, latch := true }
    if s1.cap < s1.offset + r.len then
      match flush_log_to_disk s1 with
      | none => none
      | some (.error e) => some (.error e)
      | some (.ok s2) =>
        let s3 := { s2 with offset := 0 }
        some (.ok (lsn, { s3 with
          buf := s3.buf ++ [{ r with lsn := lsn }]
          offset := s3.offset + r.len
          latch := false }))
    else
      some (.ok (lsn, { s1 with
        buf := s1.buf ++ [{ r with lsn := lsn }]
        offset := s1.offset + r.len
        latch := false }))

end LogManager

/-- Modelled from the spec: serialized log records are self-delimiting and
carry their headers, so a COMMIT record's `log_tot_len` is positive; the
concrete value is irrelevant to the claims. -/
def commitLogLen : Nat := 20

/-- Modelled from the spec: positive serialized length of a BEGIN record. -/
def beginLogLen : Nat := 20

/-- State owned by `TransactionManager`: the global transaction table and the
id/timestamp counters.  The table is an association list keyed by
transaction id. -/
structure TmState where
  txn_map : List (Nat × Txn)
  next_txn_id : Nat
  next_timestamp : Int
deriving DecidableEq

/-- Insert-or-overwrite on the association list, the effect of
`txn_map[id] = txn` on an `unordered_map`. -/
def assocSet (m : List (Nat × Txn)) (k : Nat) (v : Txn) : List (Nat × Txn) :=
  match m with
  | [] => [(k, v)]
  | (k', v') :: rest => if k' = k then (k, v) :: rest else (k', v') :: assocSet rest k v

/-- Lookup in the association list. -/
def assocGet (m : List (Nat × Txn)) (k : Nat) : Option Txn :=
  match m with
  | [] => none
  | (k', v') :: rest => if k' = k then some v' else assocGet rest k

/-- Modelled from the spec: the `Transaction(txn_id)` constructor produces a
fresh transaction with empty sets, no log chain and default state. -/
def newTxn (id : Nat) : Txn :=
  { txn_id := id, state := .default_state, start_ts := 0, prev_lsn := INVALID_LSN
    write_set := [], lock_set := [], index_page_sets := [] }

namespace TransactionManager

/-- `TransactionManager::begin` (transaction_manager.cpp:23-56).  `txn? =
none` is the null-pointer case that creates a fresh transaction and emits a
BEGIN log record when `withLog` (a non-null log manager) is set; otherwise
the passed transaction is only registered in `txn_map`.  `none` as overall
result means the call never returns (blocked inside `add_log_to_buffer`). -/
def tmBegin (txn? : Option Txn) (withLog : Bool) (tm : TmState) (ls : LogState) :
    Option (Txn × TmState × LogState) :=
  match txn? with
  | some txn =>
    some (txn, { tm with txn_map := assocSet tm.txn_map txn.txn_id txn }, ls)
  | none =>
    let txn_id := tm.next_txn_id
    let tm1 := { tm with next_txn_id := tm.next_txn_id + 1 }
    let txn1 := { newTxn txn_id with state := .growing, start_ts := tm1.next_timestamp }
    let tm2 := { tm1 with next_timestamp := tm1.next_timestamp + 1 }
    if withLog then
      match LogManager.add_log_to_buffer
          ⟨0, INVALID_LSN, txn_id, .begin_rec, beginLogLen⟩ ls with
      | none => none
      | some (.error _) => none
      | some (.ok (lsn, ls1)) =>
        let txn2 := { txn1 with prev_lsn := lsn }
        some (txn2, { tm2 with txn_map := assocSet tm2.txn_map txn_id txn2 }, ls1)
    else
      some (txn1, { tm2 with txn_map := assocSet tm2.txn_map txn_id txn1 }, ls)

/-- `TransactionManager::commit` (transaction_manager.cpp:63-102).  The
`assert` on an already-committed transaction aborts the process (`none`);
lock release always succeeds (the spec's unlock on held locks); the scratch
sets are cleared; with a non-null log manager a COMMIT record chained via
`prev_lsn` is appended and the log is flushed before the state transition.
The transaction object is mutated in place in the source, so the error case
carries the transaction and log state as they are when the flush error
unwinds. -/
def commit (txn : Txn) (withLog : Bool) (ls : LogState) :
    Option (Except (DbErr × Txn × LogState) (Txn × LogState)) :=
  if txn.state = .committed then none
  else
    let txn1 := { txn with write_set := [], lock_set := [], index_page_sets := [] }
    if withLog then
      match LogManager.add_log_to_buffer
          ⟨0, txn.prev_lsn, txn.txn_id, .commit_rec, commitLogLen⟩ ls with
      | none => none
      | some (.error e) => some (.error (e, txn1, ls))
      | some (.ok (lsn, ls1)) =>
        let txn2 := { txn1 with prev_lsn := lsn }
        match LogManager.flush_log_to_disk ls1 with
        | none => none
        | some (.error e) => some (.error (e, txn2, ls1))
        | some (.ok ls2) => some (.ok ({ txn2 with state := .committed }, ls2))
    else
      some (.ok ({ txn1 with state := .committed }, ls))

end TransactionManager

namespace LogManager

theorem add_log_none_of_full (r : LogRec) (s : LogState) (hl : s.latch = false)
    (hfull : s.cap < s.offset + r.len) : add_log_to_buffer r s = none := by
  simp [add_log_to_buffer, flush_log_to_disk, hl, hfull]

theorem add_log_ok_of_room (r : LogRec) (s : LogState) (hl : s.latch = false)
    (hle : s.offset + r.len ≤ s.cap) :
    add_log_to_buffer r s = some (.ok (s.global_lsn + 1,
      { s with global_lsn := s.global_lsn + 1,
               buf := s.buf ++ [{ r with lsn := s.global_lsn + 1 }],
               offset := s.offset + r.len,
               latch := false })) := by
  simp [add_log_to_buffer, hl, Nat.not_lt.mpr hle]

theorem flush_ok (s : LogState) (hl : s.latch = false) (hoff : s.offset ≠ 0)
    (hdf : s.disk_fails = false) :
    flush_log_to_disk s = some (.ok
      { s with disk := s.disk ++ s.buf, persist_lsn := s.global_lsn,
               buf := [], offset := 0 }) := by
  simp [flush_log_to_disk, hl, hoff, hdf]

theorem flush_err (s : LogState) (hl : s.latch = false) (hoff : s.offset ≠ 0)
    (hdf : s.disk_fails = true) :
    flush_log_to_disk s = some (.error .diskFailed) := by
  simp [flush_log_to_disk, hl, hoff, hdf]

end LogManager

theorem assocGet_assocSet (m : List (Nat × Txn)) (k : Nat) (v : Txn) :
    assocGet (assocSet m k v) k = some v := by
  induction m with
  | nil => simp [assocSet, assocGet]
  | cons kv rest ih =>
    obtain ⟨k', v'⟩ := kv
    by_cases h : k' = k <;> simp [assocSet, assocGet, h, ih]

/-- Claim C9 is false of the source: on the path where the buffer cannot
hold the serialized record, `add_log_to_buffer` invokes `flush_log_to_disk`
while already holding the non-reentrant `latch_`, so the call blocks forever
(result `none`) instead of flushing, resetting and returning the fresh LSN;
only on the path with room does it return the freshly incremented
`global_lsn` with the record serialized into the buffer. -/
theorem claim_C9 (r : LogRec) (s : LogState) (hl : s.latch = false) :
    (s.cap < s.offset + r.len → LogManager.add_log_to_buffer r s = none) ∧
    (s.offset + r.len ≤ s.cap →
      LogManager.add_log_to_buffer r s = some (.ok (s.global_lsn + 1,
        { s with global_lsn := s.global_lsn + 1,
                 buf := s.buf ++ [{ r with lsn := s.global_lsn + 1 }],
                 offset := s.offset + r.len,
                 latch := false }))) :=
  ⟨LogManager.add_log_none_of_full r s hl, LogManager.add_log_ok_of_room r s hl⟩

/-- A record that does not fit in the remaining buffer space of `sFullC9`. -/
def rC9 : LogRec := ⟨0, -1, 7, .commit_rec, 30⟩

/-- A latch-free log state whose buffer has 20 bytes of space left. -/
def sFullC9 : LogState := ⟨false, 4, 2, [⟨3, 1, 7, .other_rec, 40⟩], 80, 100, [], false⟩

/-- A latch-free log state with an empty buffer. -/
def sRoomC9 : LogState := ⟨false, 0, 0, [], 0, 100, [], false⟩

/-- Witness for claim C9: the appended record of length 30 does not fit into
the 20 free bytes of `sFullC9`, and the call never returns; on `sRoomC9` the
same record is assigned LSN 1 and buffered. -/
theorem claim_C9_witness :
    (LogManager.add_log_to_buffer rC9 sFullC9 = none) ∧
    (LogManager.add_log_to_buffer rC9 sRoomC9 = some (.ok (sRoomC9.global_lsn + 1,
      { sRoomC9 with global_lsn := sRoomC9.global_lsn + 1,
                     buf := sRoomC9.buf ++ [{ rC9 with lsn := sRoomC9.global_lsn + 1 }],
                     offset := sRoomC9.offset + rC9.len,
                     latch := false }))) :=
  ⟨(claim_C9 rC9 sFullC9 rfl).1 (by decide),
   (claim_C9 rC9 sRoomC9 rfl).2 (by decide)⟩

/-- Claim C10: calling `begin` with a non-null transaction pointer only
registers that transaction in the global table — the transaction object is
returned unchanged, the log state is untouched whatever the log-manager
argument, the id and timestamp counters are unchanged, and afterwards the
table maps the transaction's id to it. -/
theorem claim_C10 (txn : Txn) (withLog : Bool) (tm : TmState) (ls : LogState) :
    ∃ tm', TransactionManager.tmBegin (some txn) withLog tm ls = some (txn, tm', ls) ∧
      tm'.txn_map = assocSet tm.txn_map txn.txn_id txn ∧
      tm'.next_txn_id = tm.next_txn_id ∧
      tm'.next_timestamp = tm.next_timestamp ∧
      assocGet tm'.txn_map txn.txn_id = some txn :=
  ⟨{ tm with txn_map := assocSet tm.txn_map txn.txn_id txn },
    rfl, rfl, rfl, rfl, assocGet_assocSet tm.txn_map txn.txn_id txn⟩

theorem LogManager.add_log_none_of_latch (r : LogRec) (s : LogState)
    (hl : s.latch = true) : LogManager.add_log_to_buffer r s = none := by
  simp [LogManager.add_log_to_buffer, hl]

/-- Claim C2: a commit with a non-null log manager that returns appends a
COMMIT record chained to the transaction's previous LSN, flushes, and only
then transitions to COMMITTED; on return `persist_lsn = global_lsn`, the
COMMIT record is on disk, and (given that every assigned LSN so far is on
disk or in the buffer) every record with LSN at most the transaction's final
LSN is on disk; a flush failure unwinds before the state transition, so the
carried transaction is not COMMITTED. -/
theorem claim_C2 (txn : Txn) (ls : LogState)
    (hcomplete : ∀ l : Int, 1 ≤ l → l ≤ ls.global_lsn →
      (∃ c ∈ ls.disk, c.lsn = l) ∨ (∃ c ∈ ls.buf, c.lsn = l))
    {res : Except (DbErr × Txn × LogState) (Txn × LogState)}
    (hrun : TransactionManager.commit txn true ls = some res) :
    (∀ txn' ls', res = .ok (txn', ls') →
      txn'.state = .committed ∧
      txn'.prev_lsn = ls'.global_lsn ∧
      ls'.persist_lsn = ls'.global_lsn ∧
      (∃ c ∈ ls'.disk, c.kind = .commit_rec ∧ c.txn_id = txn.txn_id ∧
        c.prev_lsn = txn.prev_lsn ∧ c.lsn = txn'.prev_lsn) ∧
      (∀ l : Int, 1 ≤ l → l ≤ txn'.prev_lsn → ∃ c ∈ ls'.disk, c.lsn = l)) ∧
    (∀ e txn' ls', res = .error (e, txn', ls') → txn'.state ≠ .committed) := by
  by_cases hstate : txn.state = .committed
  · rw [TransactionManager.commit, if_pos hstate] at hrun
    cases hrun
  · rw [TransactionManager.commit, if_neg hstate, if_pos rfl] at hrun
    by_cases hl : ls.latch = true
    · rw [LogManager.add_log_none_of_latch _ ls hl] at hrun
      cases hrun
    · have hl' : ls.latch = false := by simpa using hl
      by_cases hfull : ls.cap < ls.offset + commitLogLen
      · rw [LogManager.add_log_none_of_full _ ls hl' hfull] at hrun
        cases hrun
      · have hroom : ls.offset + commitLogLen ≤ ls.cap := Nat.not_lt.mp hfull
        rw [LogManager.add_log_ok_of_room _ ls hl' hroom] at hrun
        dsimp only at hrun
        set ls1 : LogState :=
          { latch := false, global_lsn := ls.global_lsn + 1,
            persist_lsn := ls.persist_lsn,
            buf := ls.buf ++ [⟨ls.global_lsn + 1, txn.prev_lsn, txn.txn_id,
              .commit_rec, commitLogLen⟩],
            offset := ls.offset + commitLogLen, cap := ls.cap,
            disk := ls.disk, disk_fails := ls.disk_fails } with hls1
        have hoff1 : ls1.offset ≠ 0 := by
          show ls.offset + commitLogLen ≠ 0
          simp [commitLogLen]
        by_cases hdf : ls.disk_fails = true
        · rw [LogManager.flush_err ls1 rfl hoff1 hdf] at hrun
          dsimp only at hrun
          cases hrun
          constructor
          · intro txn' ls' heq
            cases heq
          · intro e txn' ls' heq
            injection heq with h
            have htx : txn' =
                { txn with
                    write_set := [], lock_set := [],
                    index_page_sets := [], prev_lsn := ls.global_lsn + 1 } :=
              (congrArg (fun p => p.2.1) h).symm
            rw [htx]
            exact hstate
        · have hdf' : ls.disk_fails = false := by simpa using hdf
          rw [LogManager.flush_ok ls1 rfl hoff1 hdf'] at hrun
          dsimp only at hrun
          cases hrun
          constructor
          · intro txn' ls' heq
            injection heq with h
            have htx : txn' =
                { txn with
                    write_set := [], lock_set := [],
                    index_page_sets := [], prev_lsn := ls.global_lsn + 1,
                    state := .committed } := (congrArg Prod.fst h).symm
            have hls : ls' =
                { ls1 with
                    disk := ls1.disk ++ ls1.buf, persist_lsn := ls1.global_lsn,
                    buf := [], offset := 0 } := (congrArg Prod.snd h).symm
            subst htx
            subst hls
            refine ⟨rfl, rfl, rfl, ?_, ?_⟩
            · exact ⟨⟨ls.global_lsn + 1, txn.prev_lsn, txn.txn_id, .commit_rec,
                commitLogLen⟩, by simp [hls1], rfl, rfl, rfl, rfl⟩
            · intro l h1 h2
              have h2' : l ≤ ls.global_lsn + 1 := h2
              by_cases hle : l ≤ ls.global_lsn
              · rcases hcomplete l h1 hle with ⟨c, hc, hcl⟩ | ⟨c, hc, hcl⟩
                · exact ⟨c, by simp [hls1, hc], hcl⟩
                · exact ⟨c, by simp [hls1, hc], hcl⟩
              · have hleq : l = ls.global_lsn + 1 := by omega
                exact ⟨⟨ls.global_lsn + 1, txn.prev_lsn, txn.txn_id,
                  .commit_rec, commitLogLen⟩, by simp [hls1], hleq.symm⟩
          · intro e txn' ls' heq
            cases heq

/-- A growing transaction used as the C2 witness input. -/
def txnC2 : Txn := ⟨3, .growing, 5, -1, [1], [2], [9]⟩

/-- An idle latch-free log state with an empty buffer and empty file. -/
def lsC2 : LogState := ⟨false, 0, 0, [], 0, 100, [], false⟩

/-- The value `commit` returns on the C2 witness input. -/
def resC2 : Except (DbErr × Txn × LogState) (Txn × LogState) :=
  .ok (⟨3, .committed, 5, 1, [], [], []⟩,
    ⟨false, 1, 1, [], 0, 100, [⟨1, -1, 3, .commit_rec, 20⟩], false⟩)

/-- Witness for claim C2: committing `txnC2` with a log manager against
`lsC2` yields `resC2`, and the theorem's guarantees hold of it. -/
theorem claim_C2_witness :
    (∀ txn' ls', resC2 = .ok (txn', ls') →
      txn'.state = .committed ∧
      txn'.prev_lsn = ls'.global_lsn ∧
      ls'.persist_lsn = ls'.global_lsn ∧
      (∃ c ∈ ls'.disk, c.kind = .commit_rec ∧ c.txn_id = txnC2.txn_id ∧
        c.prev_lsn = txnC2.prev_lsn ∧ c.lsn = txn'.prev_lsn) ∧
      (∀ l : Int, 1 ≤ l → l ≤ txn'.prev_lsn → ∃ c ∈ ls'.disk, c.lsn = l)) ∧
    (∀ e txn' ls', resC2 = .error (e, txn', ls') → txn'.state ≠ .committed) :=
  claim_C2 txnC2 lsC2 (by intro l h1 h2; simp [lsC2] at h2; omega) rfl

/-- One buffer-pool pin event: a page fetch, a page allocation, or an unpin
carrying the dirty flag. -/
inductive PinEv where
  | fetch (page_no : Int)
  | newp (page_no : Int)
  | unpin (page_no : Int) (dirty : Bool)
deriving DecidableEq

/-- The page a pin event refers to. -/
def PinEv.page : PinEv → Int
  | .fetch p => p
  | .newp p => p
  | .unpin p _ => p

/-- Whether the event takes a pin (fetch or new page) rather than releasing
one. -/
def PinEv.isPin : PinEv → Bool
  | .fetch _ => true
  | .newp _ => true
  | .unpin _ _ => false

/-- How many pins of page `p` a trace takes. -/
def fetchCount (tr : List PinEv) (p : Int) : Nat :=
  tr.countP fun e => e.isPin && (e.page == p)

/-- How many pins of page `p` a trace releases. -/
def unpinCount (tr : List PinEv) (p : Int) : Nat :=
  tr.countP fun e => (!e.isPin) && (e.page == p)

namespace RmFile

variable {α : Type} [Inhabited α]

/-- Inner `while (next_slot < num_records_per_page)` loop of `RmScan::next`,
structurally recursing on the `gas = per - k` slots left to inspect. -/
def findSetFromAux (bm : List Bool) : Nat → Nat → Option Nat
  | _, 0 => none
  | k, gas + 1 => if bm.getD k false then some k else findSetFromAux bm (k + 1) gas

/-- First slot index at or after `k` (and below `per`) whose bitmap bit is
set. -/
def findSetFrom (bm : List Bool) (per k : Nat) : Option Nat :=
  findSetFromAux bm k (per - k)

/-- `RmScan::is_end` (rm_scan.cpp:63-66). -/
def rmScanIsEnd (f : RmFile α) (r : Rid) : Bool :=
  (f.hdr.num_pages : Int) ≤ r.page_no

/-- Outer page loop of `RmScan::next`, structurally recursing on the number
of pages left to visit. -/
def rmScanNextAux (f : RmFile α) : Nat → Rid → Except DbErr Rid
  | 0, _ => .ok ⟨(f.hdr.num_pages : Int), 0⟩
  | gas + 1, r =>
    if r.page_no < (f.hdr.num_pages : Int) then
      match f.getPage r.page_no with
      | none => .error .pageNotExist
      | some pg =>
        match findSetFrom pg.bitmap f.hdr.num_records_per_page (r.slot_no + 1).toNat with
        | some s => .ok ⟨r.page_no, (s : Int)⟩
        | none => rmScanNextAux f gas ⟨r.page_no + 1, -1⟩
    else .ok ⟨(f.hdr.num_pages : Int), 0⟩

/-- `RmScan::next` (rm_scan.cpp:31-58): starting from the current position,
search the current page from `slot_no + 1` on, then later pages from slot 0,
for the next set bit; when no page is left, park at `(num_pages, 0)`.
`pageNotExist` marks the exception `fetch_page_handle` would raise on an
invalid page number (unreachable from the scan's own positions on a
well-formed file). -/
def rmScanNext (f : RmFile α) (r : Rid) : Except DbErr Rid :=
  rmScanNextAux f ((f.hdr.num_pages : Int) - r.page_no).toNat r

/-- Outer page loop of `RmScan::next` with its pin trace. -/
def rmScanNextAux_tr (f : RmFile α) : Nat → Rid → Except DbErr Rid × List PinEv
  | 0, _ => (.ok ⟨(f.hdr.num_pages : Int), 0⟩, [])
  | gas + 1, r =>
    if r.page_no < (f.hdr.num_pages : Int) then
      match f.getPage r.page_no with
      | none => (.error .pageNotExist, [])
      | some pg =>
        match findSetFrom pg.bitmap f.hdr.num_records_per_page (r.slot_no + 1).toNat with
        | some s => (.ok ⟨r.page_no, (s : Int)⟩, [.fetch r.page_no])
        | none =>
          let rest := rmScanNextAux_tr f gas ⟨r.page_no + 1, -1⟩
          (rest.1, .fetch r.page_no :: rest.2)
    else (.ok ⟨(f.hdr.num_pages : Int), 0⟩, [])

/-- `RmScan::next` with its buffer-pool pin trace: each visited page is
fetched through `fetch_page_handle` and never unpinned. -/
def rmScanNext_tr (f : RmFile α) (r : Rid) : Except DbErr Rid × List PinEv :=
  rmScanNextAux_tr f ((f.hdr.num_pages : Int) - r.page_no).toNat r

/-- `RmFileHandle::get_record` with its pin trace (`hasCtx` is whether the
`context` argument is non-null): the page is fetched unconditionally, the
missing-record exception propagates without an unpin, and the final clean
unpin happens only under a non-null context. -/
def get_record_tr (f : RmFile α) (rid : Rid) (hasCtx : Bool) :
    Except DbErr α × List PinEv :=
  match f.getPage rid.page_no with
  | none => (.error .pageNotExist, [])
  | some pg =>
    if bitmapGet pg.bitmap rid.slot_no then
      (.ok (slotGet pg.slots rid.slot_no),
        .fetch rid.page_no :: if hasCtx then [.unpin rid.page_no false] else [])
    else (.error .recordNotFound, [.fetch rid.page_no])

/-- `RmFileHandle::create_page_handle` with its pin trace: a fresh page is
allocated via `new_page`; a full free-list head is fetched, unpinned clean
and skipped; the returned page stays pinned for the caller. -/
def create_page_handle_tr : Nat → RmFile α → Except DbErr (RmFile α × Int) × List PinEv
  | 0, _ => (.error .fuelExhausted, [])
  | fuel + 1, f =>
    if f.hdr.first_free_page_no = RM_NO_PAGE then
      (.ok f.create_new_page_handle, [.newp (f.hdr.num_pages : Int)])
    else
      match f.getPage f.hdr.first_free_page_no with
      | none => (.error .pageNotExist, [])
      | some pg =>
        if pg.num_records = f.hdr.num_records_per_page then
          let rest := create_page_handle_tr fuel
            { f with hdr := { f.hdr with first_free_page_no := pg.next_free_page_no } }
          (rest.1, .fetch f.hdr.first_free_page_no ::
            .unpin f.hdr.first_free_page_no false :: rest.2)
        else
          (.ok (f, f.hdr.first_free_page_no), [.fetch f.hdr.first_free_page_no])

/-- `Rid RmFileHandle::insert_record(char*, Context*)` with its pin trace:
the target page comes back pinned from `create_page_handle` and is unpinned
dirty only under a non-null context. -/
def insert_record_tr (f : RmFile α) (buf : α) (hasCtx : Bool) :
    Except DbErr (RmFile α × Rid) × List PinEv :=
  let cph := create_page_handle_tr (f.pages.length + 2) f
  match cph.1 with
  | .error e => (.error e, cph.2)
  | .ok (f1, p) =>
    match f1.getPage p with
    | none => (.error .internalErr, cph.2)
    | some pg =>
      match firstClearBit pg.bitmap with
      | none => (.error .internalErr, cph.2)
      | some slot =>
        let pg' : RmPage α :=
          { pg with
            bitmap := pg.bitmap.set slot true
            slots := pg.slots.set slot buf
            num_records := pg.num_records + 1 }
        let f2 := f1.setPage p pg'
        let f3 :=
          if pg'.num_records = f1.hdr.num_records_per_page then
            { f2 with hdr := { f2.hdr with first_free_page_no := pg.next_free_page_no } }
          else f2
        (.ok (f3, ⟨p, (slot : Int)⟩),
          cph.2 ++ if hasCtx then [.unpin p true] else [])

/-- `void RmFileHandle::insert_record(const Rid&, char*)` with its pin
trace: this overload unpins dirty unconditionally (it takes no context), but
the occupied-slot exception still propagates without an unpin. -/
def insert_record_at_tr (f : RmFile α) (rid : Rid) (buf : α) :
    Except DbErr (RmFile α) × List PinEv :=
  match f.getPage rid.page_no with
  | none => (.error .pageNotExist, [])
  | some pg =>
    if bitmapGet pg.bitmap rid.slot_no then (.error .internalErr, [.fetch rid.page_no])
    else
      (.ok (f.setPage rid.page_no
        { pg with
          bitmap := bitmapSet pg.bitmap rid.slot_no true
          slots := slotSet pg.slots rid.slot_no buf
          num_records := pg.num_records + 1 }),
        [.fetch rid.page_no, .unpin rid.page_no true])

/-- `RmFileHandle::release_page_handle` emits a dirty unpin exactly when the
delete that just ran made the page drop from full to one-below-full. -/
def release_page_handle_tr (f : RmFile α) (p : Int) : RmFile α × List PinEv :=
  match f.getPage p with
  | none => (f, [])
  | some pg =>
    if pg.num_records = f.hdr.num_records_per_page - 1 then
      let f1 := f.setPage p { pg with next_free_page_no := f.hdr.first_free_page_no }
      ({ f1 with hdr := { f1.hdr with first_free_page_no := p } }, [.unpin p true])
    else (f, [])

/-- `RmFileHandle::delete_record` with its pin trace: one fetch, a possible
dirty unpin from `release_page_handle`, and another dirty unpin under a
non-null context. -/
def delete_record_tr (f : RmFile α) (rid : Rid) (hasCtx : Bool) :
    Except DbErr (RmFile α) × List PinEv :=
  match f.getPage rid.page_no with
  | none => (.error .pageNotExist, [])
  | some pg =>
    if ¬ bitmapGet pg.bitmap rid.slot_no then
      (.error .recordNotFound, [.fetch rid.page_no])
    else
      let pg' : RmPage α :=
        { pg with
          bitmap := bitmapSet pg.bitmap rid.slot_no false
          num_records := pg.num_records - 1 }
      let rel := (f.setPage rid.page_no pg').release_page_handle_tr rid.page_no
      (.ok rel.1,
        .fetch rid.page_no :: rel.2 ++ if hasCtx then [.unpin rid.page_no true] else [])

/-- `RmFileHandle::update_record` with its pin trace: one fetch, one dirty
unpin only under a non-null context. -/
def update_record_tr (f : RmFile α) (rid : Rid) (buf : α) (hasCtx : Bool) :
    Except DbErr (RmFile α) × List PinEv :=
  match f.getPage rid.page_no with
  | none => (.error .pageNotExist, [])
  | some pg =>
    if ¬ bitmapGet pg.bitmap rid.slot_no then
      (.error .recordNotFound, [.fetch rid.page_no])
    else
      (.ok (f.setPage rid.page_no { pg with slots := slotSet pg.slots rid.slot_no buf }),
        .fetch rid.page_no :: if hasCtx then [.unpin rid.page_no true] else [])

end RmFile

open RmFile in
/-- Claim C4 is false of the source: on a two-record page, `get_record` with
a null context fetches the page and never unpins it (the unpin is guarded by
`context != nullptr`), `delete_record` on a full page with a context unpins
the fetched page twice (once inside `release_page_handle`, once itself),
`RmScan::next` fetches the visited page and contains no unpin at all, and
`update_record` with a null context also leaks its fetch — all while the
operations themselves succeed. -/
theorem claim_C4 :
    ((get_record_tr fwC3 ⟨1, 0⟩ false).1 = .ok 5 ∧
      fetchCount (get_record_tr fwC3 ⟨1, 0⟩ false).2 1 = 1 ∧
      unpinCount (get_record_tr fwC3 ⟨1, 0⟩ false).2 1 = 0) ∧
    ((delete_record_tr fwC3 ⟨1, 0⟩ true).1 = .ok fwC3d ∧
      fetchCount (delete_record_tr fwC3 ⟨1, 0⟩ true).2 1 = 1 ∧
      unpinCount (delete_record_tr fwC3 ⟨1, 0⟩ true).2 1 = 2) ∧
    ((rmScanNext_tr fwC3 ⟨1, -1⟩).1 = .ok ⟨1, 0⟩ ∧
      fetchCount (rmScanNext_tr fwC3 ⟨1, -1⟩).2 1 = 1 ∧
      unpinCount (rmScanNext_tr fwC3 ⟨1, -1⟩).2 1 = 0) ∧
    ((update_record_tr fwC3 ⟨1, 0⟩ 9 false).1 =
        .ok ⟨⟨2, -1, 2⟩, [⟨-1, 2, [true, true], [9, 6]⟩]⟩ ∧
      fetchCount (update_record_tr fwC3 ⟨1, 0⟩ 9 false).2 1 = 1 ∧
      unpinCount (update_record_tr fwC3 ⟨1, 0⟩ 9 false).2 1 = 0) :=
  ⟨⟨rfl, by decide, by decide⟩, ⟨rfl, by decide, by decide⟩,
   ⟨rfl, by decide, by decide⟩, ⟨rfl, by decide, by decide⟩⟩

namespace RmFile

variable {α : Type} [Inhabited α]
/-- State of a `SeqScanExecutor`: the rid of the last positioned tuple and
the underlying `RmScan` position. -/
structure SeqState where
  rid_ : Rid
  scan_ : Rid
deriving DecidableEq

/-- The conjunctive condition check of `nextTuple` (the `for (auto &cond :
conds_)` loop); the typed per-condition comparison against the record bytes
is abstracted into a boolean function of the record. -/
def satisfiesConds {α : Type} (conds : List (α → Bool)) (a : α) : Bool :=
  conds.all fun c => c a

/-- `SeqScanExecutor::nextTuple` (executor_seq_scan.h:56-97): while the scan
has not ended, set `rid_` to the scan position, read the record, stop if it
satisfies every condition, otherwise advance the scan.  The while loop is
run on fuel; `fuelExhausted` is returned when it runs out (never, given
enough fuel). -/
def nextTuple (f : RmFile α) (conds : List (α → Bool)) :
    Nat → SeqState → Except DbErr SeqState
  | 0, _ => .error .fuelExhausted
  | fuel + 1, s =>
    if rmScanIsEnd f s.scan_ then .ok s
    else
      let s1 : SeqState := { s with rid_ := s.scan_ }
      match f.get_record s1.rid_ with
      | .error e => .error e
      | .ok rec =>
        if satisfiesConds conds rec then .ok s1
        else
          match f.rmScanNext s1.scan_ with
          | .error e => .error e
          | .ok sc => nextTuple f conds fuel { s1 with scan_ := sc }

/-- `SeqScanExecutor::beginTuple` (executor_seq_scan.h:50-54): construct the
`RmScan` (whose constructor starts at `(1,-1)` and advances once) and run
`nextTuple`.  The executor's `rid_` is default-initialized in the source;
`(0,0)` stands for that indeterminate initial value. -/
def beginTuple (f : RmFile α) (conds : List (α → Bool)) (fuel : Nat) :
    Except DbErr SeqState :=
  match f.rmScanNext ⟨1, -1⟩ with
  | .error e => .error e
  | .ok sc => nextTuple f conds fuel ⟨⟨0, 0⟩, sc⟩

/-- `SeqScanExecutor::Next` (executor_seq_scan.h:99-110): `none` once the
scan has ended; otherwise read the record at `rid_` — which `Next` itself
never updates — and advance the raw scan by exactly one position, without
re-checking any condition. -/
def seqNext (f : RmFile α) (s : SeqState) : Except DbErr (Option (α × SeqState)) :=
  if rmScanIsEnd f s.scan_ then .ok none
  else
    match f.get_record s.rid_ with
    | .error e => .error e
    | .ok rec =>
      match f.rmScanNext s.scan_ with
      | .error e => .error e
      | .ok sc => .ok (some (rec, { s with scan_ := sc }))

/-- Strict scan order on rids: earlier page, or same page and earlier slot. -/
def scanLt (q r : Rid) : Prop :=
  q.page_no < r.page_no ∨ (q.page_no = r.page_no ∧ q.slot_no < r.slot_no)

/-- Reflexive scan order. -/
def scanLe (q r : Rid) : Prop := q = r ∨ scanLt q r

instance (q r : Rid) : Decidable (scanLt q r) := by
  unfold scanLt; infer_instance

instance (q r : Rid) : Decidable (scanLe q r) := by
  unfold scanLe; infer_instance

/-- A position the scan can stand on: inside the data-page range with a slot
between `-1` (before the first slot) and `per`. -/
def validPos (f : RmFile α) (r : Rid) : Prop :=
  1 ≤ r.page_no ∧ r.page_no ≤ (f.hdr.num_pages : Int) ∧
    -1 ≤ r.slot_no ∧ r.slot_no ≤ (f.hdr.num_records_per_page : Int)

/-- Termination measure for the scan: how many positions lie at or after
`r`. -/
def scanMeasure (f : RmFile α) (r : Rid) : Nat :=
  ((f.hdr.num_pages : Int) + 1 - r.page_no).toNat * (f.hdr.num_records_per_page + 2) +
    ((f.hdr.num_records_per_page : Int) + 1 - (r.slot_no + 1)).toNat

end RmFile

namespace RmFile

variable {α : Type} [Inhabited α]

theorem findSetFromAux_some {bm : List Bool} :
    ∀ {gas k s : Nat}, findSetFromAux bm k gas = some s →
      k ≤ s ∧ s < k + gas ∧ bm.getD s false = true ∧
        ∀ j, k ≤ j → j < s → bm.getD j false = false := by
  intro gas
  induction gas with
  | zero => intro k s h; simp [findSetFromAux] at h
  | succ gas ih =>
    intro k s h
    unfold findSetFromAux at h
    by_cases hb : bm.getD k false = true
    · rw [if_pos hb] at h
      injection h with h
      subst h
      exact ⟨Nat.le_refl k, by omega, hb, fun j hj1 hj2 => absurd hj2 (by omega)⟩
    · rw [if_neg hb] at h
      obtain ⟨h1, h2, h3, h4⟩ := ih h
      refine ⟨by omega, by omega, h3, ?_⟩
      intro j hj1 hj2
      by_cases hjk : j = k
      · subst hjk
        simpa using hb
      · exact h4 j (by omega) hj2

theorem findSetFromAux_none {bm : List Bool} :
    ∀ {gas k : Nat}, findSetFromAux bm k gas = none →
      ∀ j, k ≤ j → j < k + gas → bm.getD j false = false := by
  intro gas
  induction gas with
  | zero => intro k _ j hj1 hj2; exact absurd hj2 (by omega)
  | succ gas ih =>
    intro k h j hj1 hj2
    unfold findSetFromAux at h
    by_cases hb : bm.getD k false = true
    · rw [if_pos hb] at h
      cases h
    · rw [if_neg hb] at h
      by_cases hjk : j = k
      · subst hjk
        simpa using hb
      · exact ih h j (by omega) (by omega)

theorem findSetFrom_some {bm : List Bool} {per k s : Nat}
    (h : findSetFrom bm per k = some s) :
    k ≤ s ∧ s < per ∧ bm.getD s false = true ∧
      ∀ j, k ≤ j → j < s → bm.getD j false = false := by
  obtain ⟨h1, h2, h3, h4⟩ := findSetFromAux_some h
  exact ⟨h1, by omega, h3, h4⟩

theorem findSetFrom_none {bm : List Bool} {per k : Nat}
    (h : findSetFrom bm per k = none) :
    ∀ j, k ≤ j → j < per → bm.getD j false = false :=
  fun j hj1 hj2 => findSetFromAux_none h j hj1 (by omega)

theorem getPage_isSome_of_bounds {f : RmFile α} (hwf : wf f) {p : Int}
    (h1 : 1 ≤ p) (h2 : p < (f.hdr.num_pages : Int)) :
    ∃ pg, f.getPage p = some pg := by
  unfold getPage
  rw [if_pos ⟨h1, h2⟩]
  cases hg : f.pages.get? (p - 1).toNat with
  | some pg => exact ⟨pg, rfl⟩
  | none =>
    have hlen := List.get?_eq_none.mp hg
    have hnp : f.hdr.num_pages = f.pages.length + 1 := hwf.2.1
    omega

theorem getPage_none_of_oob {f : RmFile α} {p : Int}
    (h : ¬(1 ≤ p ∧ p < (f.hdr.num_pages : Int))) : f.getPage p = none := by
  unfold getPage
  rw [if_neg h]

theorem recordAt_none_of_page {f : RmFile α} {q : Rid}
    (h : f.getPage q.page_no = none) : f.recordAt q = none := by
  unfold recordAt
  simp [h]

theorem recordAt_none_of_bit {f : RmFile α} {q : Rid} {pg : RmPage α}
    (hpg : f.getPage q.page_no = some pg)
    (hbit : bitmapGet pg.bitmap q.slot_no = false) : f.recordAt q = none := by
  unfold recordAt
  simp [hpg, hbit]

theorem recordAt_eq_some {f : RmFile α} {q : Rid} {pg : RmPage α}
    (hpg : f.getPage q.page_no = some pg)
    (hbit : bitmapGet pg.bitmap q.slot_no = true) :
    f.recordAt q = some (slotGet pg.slots q.slot_no) := by
  unfold recordAt
  simp [hpg, hbit]

theorem slot_nonneg_of_recordAt_some {f : RmFile α} {q : Rid} {a : α}
    (h : f.recordAt q = some a) : 0 ≤ q.slot_no := by
  obtain ⟨pg, _, hbit, _⟩ := recordAt_some_getPage h
  unfold bitmapGet at hbit
  by_contra hneg
  rw [if_neg hneg] at hbit
  cases hbit

theorem scanLt_trichot (q r : Rid) : scanLt q r ∨ q = r ∨ scanLt r q := by
  obtain ⟨qp, qs⟩ := q
  obtain ⟨rp, rs⟩ := r
  simp only [scanLt, Rid.mk.injEq]
  omega

end RmFile

namespace RmFile

variable {α : Type} [Inhabited α]

theorem recordAt_none_of_scan_end {f : RmFile α} {r q : Rid}
    (hr : (f.hdr.num_pages : Int) ≤ r.page_no) (hq : scanLt r q) :
    f.recordAt q = none := by
  apply recordAt_none_of_page
  apply getPage_none_of_oob
  rcases hq with h | ⟨h1, h2⟩
  · rintro ⟨_, hlt⟩; omega
  · rintro ⟨_, hlt⟩; omega

theorem rmScanNextAux_spec {f : RmFile α} (hwf : wf f) :
    ∀ (gas : Nat) (r : Rid), 1 ≤ r.page_no → -1 ≤ r.slot_no →
      (f.hdr.num_pages : Int) ≤ r.page_no + gas →
      ∃ r', rmScanNextAux f gas r = .ok r' ∧
        ((r' = ⟨(f.hdr.num_pages : Int), 0⟩ ∧
            ∀ q, scanLt r q → f.recordAt q = none) ∨
          ((f.recordAt r').isSome ∧ scanLt r r' ∧
            ∀ q, scanLt r q → scanLt q r' → f.recordAt q = none)) := by
  intro gas
  induction gas with
  | zero =>
    intro r h1 h2 hgas
    refine ⟨⟨(f.hdr.num_pages : Int), 0⟩, rfl, .inl ⟨rfl, ?_⟩⟩
    intro q hq
    exact recordAt_none_of_scan_end (by simpa using hgas) hq
  | succ gas ih =>
    intro r h1 h2 hgas
    by_cases hpage : r.page_no < (f.hdr.num_pages : Int)
    case neg =>
      refine ⟨⟨(f.hdr.num_pages : Int), 0⟩, ?_, .inl ⟨rfl, ?_⟩⟩
      · simp only [rmScanNextAux]
        rw [if_neg hpage]
      · intro q hq
        exact recordAt_none_of_scan_end (by omega) hq
    case pos =>
      obtain ⟨pg, hpg⟩ := getPage_isSome_of_bounds hwf h1 hpage
      cases hfs : findSetFrom pg.bitmap f.hdr.num_records_per_page (r.slot_no + 1).toNat with
      | some s =>
        obtain ⟨hs1, hs2, hs3, hs4⟩ := findSetFrom_some hfs
        refine ⟨⟨r.page_no, (s : Int)⟩, ?_, .inr ⟨?_, ?_, ?_⟩⟩
        · simp only [rmScanNextAux]
          rw [if_pos hpage]
          simp only [hpg, hfs]
        · have hbit : bitmapGet pg.bitmap ((s : Nat) : Int) = true := by
            unfold bitmapGet
            rw [if_pos (by omega)]
            simpa using hs3
          rw [recordAt_eq_some (q := ⟨r.page_no, (s : Int)⟩) hpg hbit]
          simp
        · refine .inr ⟨rfl, ?_⟩
          show r.slot_no < ((s : Nat) : Int)
          omega
        · rintro ⟨qp, qs⟩ hq1 hq2
          simp only [scanLt] at hq1 hq2
          have hcomp : qp = r.page_no ∧ r.slot_no < qs ∧ qs < (s : Int) := by
            rcases hq1 with h | ⟨hh1, hh2⟩ <;> rcases hq2 with h' | ⟨hh1', hh2'⟩ <;>
              refine ⟨by omega, by omega, by omega⟩
          obtain ⟨hqp, hqs1, hqs2⟩ := hcomp
          have hbitq : bitmapGet pg.bitmap qs = false := by
            unfold bitmapGet
            rw [if_pos (by omega)]
            exact hs4 qs.toNat (by omega) (by omega)
          refine recordAt_none_of_bit ?_ hbitq
          show f.getPage qp = some pg
          rw [hqp]
          exact hpg
      | none =>
        obtain ⟨r'', heq, hcase⟩ :=
          ih ⟨r.page_no + 1, -1⟩ (by simp; omega) (by simp) (by simp; omega)
        have hA : ∀ q, scanLt r q → f.recordAt q ≠ none →
            scanLt ⟨r.page_no + 1, -1⟩ q := by
          intro q hq hlive
          obtain ⟨a, ha⟩ := Option.ne_none_iff_exists'.mp hlive
          have hslot0 : 0 ≤ q.slot_no := slot_nonneg_of_recordAt_some ha
          rcases hq with h | ⟨hh1, hh2⟩
          · by_cases hqp : q.page_no = r.page_no + 1
            · exact .inr ⟨by simp [hqp], by simp; omega⟩
            · exact .inl (by simp; omega)
          · exfalso
            have hwfpg := hwf.2.2.1 pg (getPage_mem hpg)
            obtain ⟨pg', hpg', hbit', _⟩ := recordAt_some_getPage ha
            rw [← hh1, hpg] at hpg'
            injection hpg' with hpg'
            subst hpg'
            unfold bitmapGet at hbit'
            rw [if_pos hslot0] at hbit'
            by_cases hin : q.slot_no.toNat < f.hdr.num_records_per_page
            · have hfalse := findSetFrom_none hfs q.slot_no.toNat (by omega) hin
              rw [hfalse] at hbit'
              cases hbit'
            · have hlen : pg.bitmap.length = f.hdr.num_records_per_page := hwfpg.1
              rw [List.getD_eq_default _ _ (by omega)] at hbit'
              cases hbit'
        have hrun : rmScanNextAux f (gas + 1) r =
            rmScanNextAux f gas ⟨r.page_no + 1, -1⟩ := by
          simp only [rmScanNextAux]
          rw [if_pos hpage]
          simp only [hpg, hfs]
        rcases hcase with ⟨hend1, hend2⟩ | ⟨hlive, hlt, hbetween⟩
        · refine ⟨r'', by rw [hrun]; exact heq, .inl ⟨hend1, ?_⟩⟩
          intro q hq
          by_contra hne
          exact hne (hend2 q (hA q hq hne))
        · refine ⟨r'', by rw [hrun]; exact heq, .inr ⟨hlive, ?_, ?_⟩⟩
          · rcases hlt with h | ⟨h, _⟩
            · exact .inl (by simp at h; omega)
            · exact .inl (by simp at h; omega)
          · intro q hq1 hq2
            by_contra hne
            exact hne (hbetween q (hA q hq1 hne) hq2)

end RmFile

namespace RmFile

variable {α : Type} [Inhabited α]

theorem live_bounds {f : RmFile α} (hwf : wf f) {q : Rid} {a : α}
    (h : f.recordAt q = some a) :
    1 ≤ q.page_no ∧ q.page_no < (f.hdr.num_pages : Int) ∧ 0 ≤ q.slot_no ∧
      q.slot_no < (f.hdr.num_records_per_page : Int) := by
  obtain ⟨pg, hpg, hbit, _⟩ := recordAt_some_getPage h
  have hb := getPage_bounds hpg
  have hslot0 : 0 ≤ q.slot_no := slot_nonneg_of_recordAt_some h
  have hwfpg := hwf.2.2.1 pg (getPage_mem hpg)
  unfold bitmapGet at hbit
  rw [if_pos hslot0] at hbit
  have hlt : q.slot_no.toNat < pg.bitmap.length := by
    by_contra hge
    rw [List.getD_eq_default _ _ (by omega)] at hbit
    cases hbit
  have hlen : pg.bitmap.length = f.hdr.num_records_per_page := hwfpg.1
  exact ⟨hb.1, hb.2, hslot0, by omega⟩

theorem validPos_end {f : RmFile α} (hwf : wf f) :
    validPos f ⟨(f.hdr.num_pages : Int), 0⟩ := by
  have hnp : f.hdr.num_pages = f.pages.length + 1 := hwf.2.1
  have hper : 1 ≤ f.hdr.num_records_per_page := hwf.1
  exact ⟨by simp; omega, by simp, by simp, by simp⟩

theorem rmScanNext_spec {f : RmFile α} (hwf : wf f) {r : Rid} (hv : validPos f r)
    (hok : r.page_no < (f.hdr.num_pages : Int) ∨ r.slot_no = -1) :
    ∃ r', rmScanNext f r = .ok r' ∧ validPos f r' ∧ scanLt r r' ∧
      ((rmScanIsEnd f r' = true ∧ ∀ q, scanLt r q → f.recordAt q = none) ∨
        ((f.recordAt r').isSome ∧
          ∀ q, scanLt r q → scanLt q r' → f.recordAt q = none)) := by
  obtain ⟨hv1, hv2, hv3, hv4⟩ := hv
  obtain ⟨r', heq, hcase⟩ := rmScanNextAux_spec hwf
    ((f.hdr.num_pages : Int) - r.page_no).toNat r hv1 hv3 (by omega)
  rcases hcase with ⟨hend, hnone⟩ | ⟨hlive, hlt, hbet⟩
  · subst hend
    refine ⟨_, heq, validPos_end hwf, ?_, .inl ⟨by simp [rmScanIsEnd], hnone⟩⟩
    rcases hok with h | h
    · exact .inl (by simpa using h)
    · by_cases hpage : r.page_no < (f.hdr.num_pages : Int)
      · exact .inl (by simpa using hpage)
      · exact .inr ⟨by simp; omega, by simp; omega⟩
  · obtain ⟨a, ha⟩ := Option.isSome_iff_exists.mp hlive
    have hb := live_bounds hwf ha
    exact ⟨r', heq, ⟨hb.1, by omega, by omega, by omega⟩, hlt, .inr ⟨hlive, hbet⟩⟩

theorem scanMeasure_lt {f : RmFile α} {r r' : Rid} (hv : validPos f r)
    (hv' : validPos f r') (hlt : scanLt r r') :
    scanMeasure f r' < scanMeasure f r := by
  obtain ⟨a1, a2, a3, a4⟩ := hv
  obtain ⟨b1, b2, b3, b4⟩ := hv'
  unfold scanMeasure
  rcases hlt with h | ⟨h1, h2⟩
  · have hA : ((f.hdr.num_pages : Int) + 1 - r'.page_no).toNat <
        ((f.hdr.num_pages : Int) + 1 - r.page_no).toNat := by omega
    calc ((f.hdr.num_pages : Int) + 1 - r'.page_no).toNat *
            (f.hdr.num_records_per_page + 2) +
          ((f.hdr.num_records_per_page : Int) + 1 - (r'.slot_no + 1)).toNat
        ≤ ((f.hdr.num_pages : Int) + 1 - r'.page_no).toNat *
            (f.hdr.num_records_per_page + 2) +
          (f.hdr.num_records_per_page + 1) := by omega
      _ < (((f.hdr.num_pages : Int) + 1 - r'.page_no).toNat + 1) *
            (f.hdr.num_records_per_page + 2) := by
          rw [Nat.succ_mul]; omega
      _ ≤ ((f.hdr.num_pages : Int) + 1 - r.page_no).toNat *
            (f.hdr.num_records_per_page + 2) := Nat.mul_le_mul_right _ hA
      _ ≤ ((f.hdr.num_pages : Int) + 1 - r.page_no).toNat *
            (f.hdr.num_records_per_page + 2) +
          ((f.hdr.num_records_per_page : Int) + 1 - (r.slot_no + 1)).toNat :=
          Nat.le_add_right _ _
  · rw [h1]
    exact Nat.add_lt_add_left (by omega) _

end RmFile

namespace RmFile

variable {α : Type} [Inhabited α]

theorem scanLt_trans {a b c : Rid} (h1 : scanLt a b) (h2 : scanLt b c) :
    scanLt a c := by
  unfold scanLt at h1 h2 ⊢
  omega

theorem scanLt_asymm {a b : Rid} (h1 : scanLt a b) (h2 : scanLt b a) : False := by
  unfold scanLt at h1 h2
  omega

theorem scanLt_irrefl {a : Rid} (h : scanLt a a) : False := by
  unfold scanLt at h
  omega

theorem nextTuple_spec {f : RmFile α} (hwf : wf f) (conds : List (α → Bool)) :
    ∀ (fuel : Nat) (s : SeqState), validPos f s.scan_ →
      (rmScanIsEnd f s.scan_ = true ∨ (f.recordAt s.scan_).isSome) →
      scanMeasure f s.scan_ < fuel →
      ∃ s', nextTuple f conds fuel s = .ok s' ∧
        ((rmScanIsEnd f s'.scan_ = true ∧
            ∀ q b, scanLe s.scan_ q → f.recordAt q = some b →
              satisfiesConds conds b = false) ∨
          (s'.rid_ = s'.scan_ ∧ validPos f s'.scan_ ∧ scanLe s.scan_ s'.scan_ ∧
            ∃ a, f.recordAt s'.scan_ = some a ∧ satisfiesConds conds a = true ∧
              ∀ q b, scanLe s.scan_ q → scanLt q s'.scan_ → f.recordAt q = some b →
                satisfiesConds conds b = false)) := by
  intro fuel
  induction fuel with
  | zero =>
    intro s _ _ hm
    exact absurd hm (by omega)
  | succ fuel ih =>
    intro s hv hgood hm
    by_cases hend : rmScanIsEnd f s.scan_ = true
    · refine ⟨s, ?_, .inl ⟨hend, ?_⟩⟩
      · simp only [nextTuple]
        rw [if_pos hend]
      · intro q b hle hq
        have hb := live_bounds hwf hq
        simp only [rmScanIsEnd, decide_eq_true_eq] at hend
        exfalso
        rcases hle with heq | hlt
        · rw [← heq] at hb
          omega
        · rcases hlt with h | ⟨h, _⟩ <;> omega
    · have hlive : (f.recordAt s.scan_).isSome := by
        rcases hgood with h | h
        · exact absurd h hend
        · exact h
      obtain ⟨a, ha⟩ := Option.isSome_iff_exists.mp hlive
      have hget : f.get_record s.scan_ = .ok a := get_record_ok ha
      by_cases hsat : satisfiesConds conds a = true
      · refine ⟨{ s with rid_ := s.scan_ }, ?_, .inr ⟨rfl, hv, .inl rfl, a, ha, hsat, ?_⟩⟩
        · simp only [nextTuple]
          rw [if_neg hend]
          rw [hget]
          dsimp only
          rw [if_pos hsat]
        · intro q b hle hqlt _
          exfalso
          rcases hle with heq | hlt
          · rw [← heq] at hqlt
            exact scanLt_irrefl hqlt
          · exact scanLt_asymm hlt hqlt
      · have hsat' : satisfiesConds conds a = false := by
          simpa using hsat
        have hb := live_bounds hwf ha
        obtain ⟨sc, hscan, hvsc, hsclt, hsccase⟩ :=
          rmScanNext_spec hwf hv (.inl hb.2.1)
        have hgood' : rmScanIsEnd f sc = true ∨ (f.recordAt sc).isSome := by
          rcases hsccase with ⟨h, _⟩ | ⟨h, _⟩
          · exact .inl h
          · exact .inr h
        have hm' : scanMeasure f sc < fuel := by
          have := scanMeasure_lt hv hvsc hsclt
          omega
        obtain ⟨s2, hrun2, hcase2⟩ :=
          ih { s with rid_ := s.scan_, scan_ := sc } hvsc hgood' hm'
        refine ⟨s2, ?_, ?_⟩
        · simp only [nextTuple]
          rw [if_neg hend]
          rw [hget]
          dsimp only
          rw [if_neg hsat, hscan]
          dsimp only
          exact hrun2
        · have htrans : ∀ q, scanLe s.scan_ q →
              q = s.scan_ ∨ f.recordAt q = none ∨ scanLe sc q := by
            intro q hle
            rcases hle with heq | hlt
            · exact .inl heq.symm
            · rcases scanLt_trichot q sc with h | h | h
              · rcases hsccase with ⟨_, hnone⟩ | ⟨_, hbet⟩
                · exact .inr (.inl (hnone q hlt))
                · exact .inr (.inl (hbet q hlt h))
              · exact .inr (.inr (.inl h.symm))
              · exact .inr (.inr (.inr h))
          rcases hcase2 with ⟨hend2, hprop2⟩ | ⟨hr2, hv2, hle2, a2, ha2, hsat2, hmin2⟩
          · refine .inl ⟨hend2, ?_⟩
            intro q b hle hq
            rcases htrans q hle with heq | hnone | hle'
            · rw [heq, ha] at hq
              injection hq with hq
              rw [← hq]
              exact hsat'
            · rw [hnone] at hq
              cases hq
            · exact hprop2 q b hle' hq
          · refine .inr ⟨hr2, hv2, ?_, a2, ha2, hsat2, ?_⟩
            · refine .inr ?_
              rcases hle2 with heq | hlt2
              · rw [← heq]
                exact hsclt
              · exact scanLt_trans hsclt hlt2
            · intro q b hle hqlt hq
              rcases htrans q hle with heq | hnone | hle'
              · rw [heq, ha] at hq
                injection hq with hq
                rw [← hq]
                exact hsat'
              · rw [hnone] at hq
                cases hq
              · exact hmin2 q b hle' hqlt hq

end RmFile

namespace RmFile

variable {α : Type} [Inhabited α]

/-- The executor invariant the execution manager's
`beginTuple / Next / nextTuple` protocol maintains: `rid_` equals the scan
position, which holds a live record satisfying every condition. -/
def seqInv (f : RmFile α) (conds : List (α → Bool)) (s : SeqState) : Prop :=
  s.rid_ = s.scan_ ∧ validPos f s.scan_ ∧
    ∃ a, f.recordAt s.scan_ = some a ∧ satisfiesConds conds a = true

instance (f : RmFile α) (r : Rid) : Decidable (validPos f r) := by
  unfold validPos
  infer_instance

theorem scanLt_start_of_live {f : RmFile α} (hwf : wf f) {q : Rid} {b : α}
    (hq : f.recordAt q = some b) : scanLt ⟨1, -1⟩ q := by
  have hb := live_bounds hwf hq
  by_cases hp : q.page_no = 1
  · exact .inr ⟨by simp [hp], by simp; omega⟩
  · exact .inl (by simp; omega)

end RmFile

open RmFile in
/-- Claim C5, amended.  Under the protocol the execution manager actually
uses — `beginTuple()` once, then alternately `Next()` and `nextTuple()` until
`is_end()` — the executor enumerates exactly the live records satisfying all
conditions, each at most once, in scan order: (a) `beginTuple` either ends
the scan (and then no live record satisfies the conditions) or establishes
the invariant at the first satisfying record; (b) from an invariant state,
`Next` returns the record at `rid_` and advances the raw scan by exactly one
live position — it does not advance to the next satisfying row and does not
update `rid_` — and the following `nextTuple` re-establishes the invariant
at the next satisfying record, every live record strictly in between failing
the conditions; (c) once `is_end()` holds, `Next` yields nothing.  The
original claim, which asserts that repeated `Next()` calls alone enumerate
the satisfying records each at most once, is refuted by
`claim_C5_counterexample`. -/
theorem claim_C5 {α : Type} [Inhabited α] (f : RmFile α) (conds : List (α → Bool))
    (hwf : RmFile.wf f) :
    (∀ fuel : Nat, scanMeasure f ⟨1, -1⟩ ≤ fuel →
      ∃ s, beginTuple f conds fuel = .ok s ∧
        ((rmScanIsEnd f s.scan_ = true ∧
            ∀ q b, f.recordAt q = some b → satisfiesConds conds b = false) ∨
          (seqInv f conds s ∧
            ∀ q b, scanLt q s.scan_ → f.recordAt q = some b →
              satisfiesConds conds b = false))) ∧
    (∀ s : SeqState, seqInv f conds s →
      ∃ a sc, f.recordAt s.rid_ = some a ∧ rmScanNext f s.scan_ = .ok sc ∧
        seqNext f s = .ok (some (a, { s with scan_ := sc })) ∧
        ∀ fuel : Nat, scanMeasure f sc < fuel →
          ∃ s2, nextTuple f conds fuel { s with scan_ := sc } = .ok s2 ∧
            ((rmScanIsEnd f s2.scan_ = true ∧
                ∀ q b, scanLt s.rid_ q → f.recordAt q = some b →
                  satisfiesConds conds b = false) ∨
              (seqInv f conds s2 ∧ scanLt s.rid_ s2.scan_ ∧
                ∀ q b, scanLt s.rid_ q → scanLt q s2.scan_ →
                  f.recordAt q = some b → satisfiesConds conds b = false))) ∧
    (∀ s : SeqState, rmScanIsEnd f s.scan_ = true → seqNext f s = .ok none) := by
  have hnp : f.hdr.num_pages = f.pages.length + 1 := hwf.2.1
  have hper : 1 ≤ f.hdr.num_records_per_page := hwf.1
  refine ⟨?_, ?_, ?_⟩
  · -- (a) beginTuple
    intro fuel hfuel
    have hv0 : validPos f (⟨1, -1⟩ : Rid) :=
      ⟨by simp, by simp; omega, by simp, by simp; omega⟩
    obtain ⟨sc, hscan, hvsc, hlt0, hcase0⟩ :=
      rmScanNext_spec hwf hv0 (.inr rfl)
    have hgood : rmScanIsEnd f sc = true ∨ (f.recordAt sc).isSome := by
      rcases hcase0 with ⟨h, _⟩ | ⟨h, _⟩
      · exact .inl h
      · exact .inr h
    have hm : scanMeasure f sc < fuel := by
      have := scanMeasure_lt hv0 hvsc hlt0
      omega
    obtain ⟨s2, hrun2, hcase2⟩ :=
      nextTuple_spec hwf conds fuel ⟨⟨0, 0⟩, sc⟩ hvsc hgood hm
    have hrun : beginTuple f conds fuel = nextTuple f conds fuel ⟨⟨0, 0⟩, sc⟩ := by
      unfold beginTuple
      rw [hscan]
    have htrans : ∀ q (b : α), f.recordAt q = some b →
        f.recordAt q = none ∨ scanLe sc q := by
      intro q b hq
      have hstart := scanLt_start_of_live hwf hq
      rcases scanLt_trichot q sc with h | h | h
      · rcases hcase0 with ⟨_, hnone⟩ | ⟨_, hbet⟩
        · exact .inl (hnone q hstart)
        · exact .inl (hbet q hstart h)
      · exact .inr (.inl h.symm)
      · exact .inr (.inr h)
    rcases hcase2 with ⟨hend2, hprop2⟩ | ⟨hr2, hv2, _, a2, ha2, hsat2, hmin2⟩
    · refine ⟨s2, hrun ▸ hrun2, .inl ⟨hend2, ?_⟩⟩
      intro q b hq
      rcases htrans q b hq with hnone | hle
      · rw [hnone] at hq
        cases hq
      · exact hprop2 q b hle hq
    · refine ⟨s2, hrun ▸ hrun2, .inr ⟨⟨hr2, hv2, a2, ha2, hsat2⟩, ?_⟩⟩
      intro q b hqlt hq
      rcases htrans q b hq with hnone | hle
      · rw [hnone] at hq
        cases hq
      · exact hmin2 q b hle hqlt hq
  · -- (b) Next then nextTuple
    rintro s ⟨hrs, hv, a, ha, hsat⟩
    have hb := live_bounds hwf ha
    have hnotend : ¬ rmScanIsEnd f s.scan_ = true := by
      simp only [rmScanIsEnd, decide_eq_true_eq]
      omega
    obtain ⟨sc, hscan, hvsc, hsclt, hsccase⟩ :=
      rmScanNext_spec hwf hv (.inl hb.2.1)
    have hgetr : f.get_record s.rid_ = .ok a := get_record_ok (by rw [hrs]; exact ha)
    refine ⟨a, sc, by rw [hrs]; exact ha, hscan, ?_, ?_⟩
    · unfold seqNext
      rw [if_neg hnotend, hgetr]
      dsimp only
      rw [hscan]
    · intro fuel hf
      have hgood : rmScanIsEnd f sc = true ∨ (f.recordAt sc).isSome := by
        rcases hsccase with ⟨h, _⟩ | ⟨h, _⟩
        · exact .inl h
        · exact .inr h
      obtain ⟨s2, hrun2, hcase2⟩ :=
        nextTuple_spec hwf conds fuel { s with scan_ := sc } hvsc hgood hf
      have htrans : ∀ q (b : α), scanLt s.rid_ q → f.recordAt q = some b →
          f.recordAt q = none ∨ scanLe sc q := by
        intro q b hqlt hq
        rw [hrs] at hqlt
        rcases scanLt_trichot q sc with h | h | h
        · rcases hsccase with ⟨_, hnone⟩ | ⟨_, hbet⟩
          · exact .inl (hnone q hqlt)
          · exact .inl (hbet q hqlt h)
        · exact .inr (.inl h.symm)
        · exact .inr (.inr h)
      rcases hcase2 with ⟨hend2, hprop2⟩ | ⟨hr2, hv2, hle2, a2, ha2, hsat2, hmin2⟩
      · refine ⟨s2, hrun2, .inl ⟨hend2, ?_⟩⟩
        intro q b hqlt hq
        rcases htrans q b hqlt hq with hnone | hle
        · rw [hnone] at hq
          cases hq
        · exact hprop2 q b hle hq
      · refine ⟨s2, hrun2, .inr ⟨⟨hr2, hv2, a2, ha2, hsat2⟩, ?_, ?_⟩⟩
        · rw [hrs]
          rcases hle2 with heq | hlt2
          · rw [← heq]
            exact hsclt
          · exact scanLt_trans hsclt hlt2
        · intro q b hqlt hqlt2 hq
          rcases htrans q b hqlt hq with hnone | hle
          · rw [hnone] at hq
            cases hq
          · exact hmin2 q b hle hqlt2 hq
  · -- (c) is_end
    intro s h
    unfold seqNext
    rw [if_pos h]

open RmFile in
/-- Claim C5 as stated is false: on a table with two live records `5` at
`(1,0)` and `6` at `(1,1)` and an empty condition list, `beginTuple`
positions on `(1,0)`, but two consecutive `Next()` calls — with no
`nextTuple()` in between, as the claim's "repeated Next() calls yield
exactly the records satisfying all conditions" requires — both return record
`5`: `Next` advances the raw scan yet never updates `rid_` nor re-filters,
so the same live record is yielded twice and `6` is never yielded at its
position. -/
theorem claim_C5_counterexample :
    beginTuple fwC3 ([] : List (Nat → Bool)) 100 = .ok ⟨⟨1, 0⟩, ⟨1, 0⟩⟩ ∧
    seqNext fwC3 ⟨⟨1, 0⟩, ⟨1, 0⟩⟩ = .ok (some (5, ⟨⟨1, 0⟩, ⟨1, 1⟩⟩)) ∧
    seqNext fwC3 ⟨⟨1, 0⟩, ⟨1, 1⟩⟩ = .ok (some (5, ⟨⟨1, 0⟩, ⟨2, 0⟩⟩)) ∧
    fwC3.recordAt ⟨1, 1⟩ = some 6 :=
  ⟨rfl, rfl, rfl, rfl⟩

open RmFile in
/-- Witness for claim C5: the three parts of `claim_C5` applied to the
two-record table `fwC3` with no conditions — `beginTuple` with fuel `100`,
the `Next`/`nextTuple` step from the invariant state positioned at `(1,0)`,
and `Next` at an ended scan position. -/
theorem claim_C5_witness :
    (∃ s, beginTuple fwC3 ([] : List (Nat → Bool)) 100 = .ok s ∧
      ((rmScanIsEnd fwC3 s.scan_ = true ∧
          ∀ q b, fwC3.recordAt q = some b →
            satisfiesConds ([] : List (Nat → Bool)) b = false) ∨
        (seqInv fwC3 ([] : List (Nat → Bool)) s ∧
          ∀ q b, scanLt q s.scan_ → fwC3.recordAt q = some b →
            satisfiesConds ([] : List (Nat → Bool)) b = false))) ∧
    (∃ a sc, fwC3.recordAt (⟨⟨1, 0⟩, ⟨1, 0⟩⟩ : SeqState).rid_ = some a ∧
      rmScanNext fwC3 (⟨⟨1, 0⟩, ⟨1, 0⟩⟩ : SeqState).scan_ = .ok sc ∧
      seqNext fwC3 ⟨⟨1, 0⟩, ⟨1, 0⟩⟩ =
        .ok (some (a, { (⟨⟨1, 0⟩, ⟨1, 0⟩⟩ : SeqState) with scan_ := sc })) ∧
      ∀ fuel : Nat, scanMeasure fwC3 sc < fuel →
        ∃ s2, nextTuple fwC3 ([] : List (Nat → Bool)) fuel
            { (⟨⟨1, 0⟩, ⟨1, 0⟩⟩ : SeqState) with scan_ := sc } = .ok s2 ∧
          ((rmScanIsEnd fwC3 s2.scan_ = true ∧
              ∀ q b, scanLt (⟨⟨1, 0⟩, ⟨1, 0⟩⟩ : SeqState).rid_ q →
                fwC3.recordAt q = some b →
                  satisfiesConds ([] : List (Nat → Bool)) b = false) ∨
            (seqInv fwC3 ([] : List (Nat → Bool)) s2 ∧
              scanLt (⟨⟨1, 0⟩, ⟨1, 0⟩⟩ : SeqState).rid_ s2.scan_ ∧
              ∀ q b, scanLt (⟨⟨1, 0⟩, ⟨1, 0⟩⟩ : SeqState).rid_ q →
                scanLt q s2.scan_ → fwC3.recordAt q = some b →
                  satisfiesConds ([] : List (Nat → Bool)) b = false))) ∧
    seqNext fwC3 (⟨⟨0, 0⟩, ⟨5, 0⟩⟩ : SeqState) = .ok none :=
  have hwf : RmFile.wf fwC3 :=
    wf_runOps (wf_emptyFile 2 (by decide)) (by decide)
  ⟨(claim_C5 fwC3 [] hwf).1 100 (by decide),
   (claim_C5 fwC3 [] hwf).2.1 ⟨⟨1, 0⟩, ⟨1, 0⟩⟩ ⟨rfl, by decide, 5, rfl, rfl⟩,
   (claim_C5 fwC3 [] hwf).2.2 ⟨⟨0, 0⟩, ⟨5, 0⟩⟩ (by decide)⟩

namespace RmFile

/-- The lock-manager stub seen by `UpdateExecutor::Next`: whether the
context carries a transaction, and which shared / exclusive record locks the
lock manager grants (a refused lock raises the lock-conflict error). -/
structure LockOracle where
  hasTxn : Bool
  grantS : Rid → Bool
  grantX : Rid → Bool

/-- One analyzed SET clause as `UpdateExecutor::Next` consumes it: the field
index of the target column, whether the value's type matches the column's
(the executor re-checks and throws `IncompatibleTypeError` on mismatch), and
the new field value.  Records are modelled as lists of field values. -/
structure SetClauseE where
  col_idx : Nat
  type_matches : Bool
  new_val : Int

/-- A secondary index: the field indices forming the key, and the current
entries. -/
structure IndexE where
  cols : List Nat
  entries : List (List Int × Rid)

/-- The per-row construction of `new_rec` (executor_update.h:52-69): copy
the old record, then apply each SET clause, throwing on a type mismatch. -/
def applySet : List SetClauseE → List Int → Except DbErr (List Int)
  | [], rec => .ok rec
  | sc :: rest, rec =>
    if sc.type_matches then applySet rest (rec.set sc.col_idx sc.new_val)
    else .error .incompatibleType

/-- The key an index extracts from a record (executor_update.h:74-87). -/
def keyOf (ix : IndexE) (rec : List Int) : List Int :=
  ix.cols.map fun c => rec.getD c 0

/-- Index maintenance for one row (executor_update.h:72-100): delete the
entry with the old key, insert the new key at the same rid. -/
def updateIndexes (indexes : List IndexE) (oldRec newRec : List Int) (rid : Rid) :
    List IndexE :=
  indexes.map fun ix =>
    { ix with entries :=
        (ix.entries.eraseP fun e => e.1 == keyOf ix oldRec) ++ [(keyOf ix newRec, rid)] }

/-- `RmFileHandle::get_record` under a context: the shared record lock is
taken when the context carries a transaction, and a refusal raises the
lock-conflict error before the record is read. -/
def get_record_ctx (f : RmFile (List Int)) (rid : Rid) (ctx : LockOracle) :
    Except DbErr (List Int) :=
  match f.getPage rid.page_no with
  | none => .error .pageNotExist
  | some pg =>
    if bitmapGet pg.bitmap rid.slot_no then
      if ctx.hasTxn && !ctx.grantS rid then .error .lockConflict
      else .ok (slotGet pg.slots rid.slot_no)
    else .error .recordNotFound

/-- `RmFileHandle::update_record` under a context: the exclusive record lock
is taken after the existence check and before the write; a refusal raises
the lock-conflict error with the page untouched. -/
def update_record_ctx (f : RmFile (List Int)) (rid : Rid) (buf : List Int)
    (ctx : LockOracle) : Except DbErr (RmFile (List Int)) :=
  match f.getPage rid.page_no with
  | none => .error .pageNotExist
  | some pg =>
    if ¬ bitmapGet pg.bitmap rid.slot_no then .error .recordNotFound
    else if ctx.hasTxn && !ctx.grantX rid then .error .lockConflict
    else .ok (f.setPage rid.page_no { pg with slots := slotSet pg.slots rid.slot_no buf })

/-- `UpdateExecutor::Next` (executor_update.h:40-110): for each rid, read
the old record (shared lock), build the new record from the SET clauses
(type re-check), update every secondary index (old key deleted, new key
inserted), and only then rewrite the record bytes (exclusive lock).  An
exception aborts the statement; the third component carries it, and the
returned table file and index states are whatever the executor had mutated
by that point — in particular the indexes of the failing row when
`update_record` refuses the exclusive lock. -/
def updateNext (f : RmFile (List Int)) (set_clauses : List SetClauseE)
    (indexes : List IndexE) (ctx : LockOracle) :
    List Rid → RmFile (List Int) × List IndexE × Option DbErr
  | [] => (f, indexes, none)
  | rid :: rest =>
    match get_record_ctx f rid ctx with
    | .error e => (f, indexes, some e)
    | .ok rec =>
      match applySet set_clauses rec with
      | .error e => (f, indexes, some e)
      | .ok newRec =>
        let indexes' := updateIndexes indexes rec newRec rid
        match update_record_ctx f rid newRec ctx with
        | .error e => (f, indexes', some e)
        | .ok f' => updateNext f' set_clauses indexes' ctx rest

end RmFile

/-- A one-row table whose record has fields `[1, 7]`, used for claim C6. -/
def fC6 : RmFile (List Int) := ⟨⟨2, -1, 2⟩, [⟨-1, 2, [true, false], [[1, 7], []]⟩]⟩

/-- The single SET clause of the C6 run: set field 1 to 9. -/
def scC6 : List RmFile.SetClauseE := [⟨1, true, 9⟩]

/-- A secondary index on field 1, currently holding the old key `[7]`. -/
def ixC6 : List RmFile.IndexE := [⟨[1], [([7], ⟨1, 0⟩)]⟩]

open RmFile in
/-- Claim C6 is false of the source: with the shared lock granted and the
exclusive lock refused, `UpdateExecutor::Next` aborts the row with the
lock-conflict error only after it has already rewritten the secondary index
— the old key `[7]` is gone and the new key `[9]` is present — while the
record bytes still hold the old values, a partial row update the claim rules
out.  A SET-clause type mismatch and a shared-lock refusal, by contrast,
abort before anything is touched, and a fully granted run updates record and
index together. -/
theorem claim_C6 :
    (updateNext fC6 scC6 ixC6 ⟨true, fun _ => true, fun _ => false⟩ [⟨1, 0⟩] =
      (fC6, [⟨[1], [([9], ⟨1, 0⟩)]⟩], some .lockConflict) ∧
      fC6.recordAt ⟨1, 0⟩ = some [1, 7]) ∧
    updateNext fC6 [⟨1, false, 9⟩] ixC6 ⟨true, fun _ => true, fun _ => true⟩ [⟨1, 0⟩] =
      (fC6, ixC6, some .incompatibleType) ∧
    updateNext fC6 scC6 ixC6 ⟨true, fun _ => false, fun _ => false⟩ [⟨1, 0⟩] =
      (fC6, ixC6, some .lockConflict) ∧
    updateNext fC6 scC6 ixC6 ⟨true, fun _ => true, fun _ => true⟩ [⟨1, 0⟩] =
      (⟨⟨2, -1, 2⟩, [⟨-1, 2, [true, false], [[1, 9], []]⟩]⟩,
        [⟨[1], [([9], ⟨1, 0⟩)]⟩], none) :=
  ⟨⟨rfl, rfl⟩, rfl, rfl, rfl⟩

/-- Column types (`ColType` in the source). -/
inductive ColType where
  | TYPE_INT
  | TYPE_FLOAT
  | TYPE_STRING
deriving DecidableEq

/-- A possibly table-qualified column reference; an empty `tab_name` means
no qualifier. -/
structure TabCol where
  tab_name : String
  col_name : String
deriving DecidableEq

/-- Column metadata as the analyzer sees it. -/
structure ColMeta where
  tab_name : String
  name : String
  type : ColType
  len : Nat
  offset : Nat
deriving DecidableEq

/-- Modelled from the spec: a literal `Value` carries its type tag, the
typed payloads, and the lazily allocated raw buffer; C++ `float` is modelled
as `ℚ` and the raw buffer by its byte width, which is all the claims
mention. -/
structure Value where
  type : ColType
  int_val : Int
  float_val : ℚ
  str_val : String
  raw : Option Nat
deriving DecidableEq

/-- Modelled from the spec: `Value::set_int` retags the value as INT. -/
def Value.set_int (v : Value) (i : Int) : Value :=
  { v with type := .TYPE_INT, int_val := i }

/-- Modelled from the spec: `Value::set_float` retags the value as FLOAT. -/
def Value.set_float (v : Value) (q : ℚ) : Value :=
  { v with type := .TYPE_FLOAT, float_val := q }

/-- Modelled from the spec: `Value::init_raw(len)` allocates the raw buffer
at the target column's width and serializes the value into it. -/
def Value.init_raw (v : Value) (len : Nat) : Value :=
  { v with raw := some len }

/-- `static_cast<int>` applied to a floating value: truncation toward
zero. -/
def truncTowardZero (q : ℚ) : Int :=
  if 0 ≤ q then ⌊q⌋ else ⌈q⌉

/-- Table metadata: name and columns. -/
structure TabMeta where
  name : String
  cols : List ColMeta
deriving DecidableEq

/-- `SmManager::db_.get_table`, failing with `TableNotFoundError`. -/
def get_table (db : List TabMeta) (name : String) : Except DbErr TabMeta :=
  match db with
  | [] => .error .tableNotFound
  | t :: rest => if t.name = name then .ok t else get_table rest name

/-- Scan of a column list for a name, failing with `ColumnNotFoundError`
(the body of `TabMeta::get_col`, modelled from the spec). -/
def get_col_aux : List ColMeta → String → Except DbErr ColMeta
  | [], _ => .error .columnNotFound
  | c :: rest, cname => if c.name = cname then .ok c else get_col_aux rest cname

/-- `TabMeta::get_col`. -/
def TabMeta.get_col (t : TabMeta) (cname : String) : Except DbErr ColMeta :=
  get_col_aux t.cols cname

namespace Analyze

/-- The owner-inference loop of `Analyze::check_column`
(analyze.cpp:130-138): scan all candidate columns, remembering the owning
table of the first name match and failing with `AmbiguousColumnError` on a
second match. -/
def findOwner : List ColMeta → String → String → Except DbErr String
  | [], _, acc => .ok acc
  | col :: rest, cname, acc =>
    if col.name = cname then
      if acc ≠ "" then .error .ambiguousColumn
      else findOwner rest cname col.tab_name
    else findOwner rest cname acc

/-- `Analyze::check_column` (analyze.cpp:127-148): with no qualifier, infer
the unique owning table (`AmbiguousColumn` on several matches,
`ColumnNotFound` on none); with a qualifier, the source returns the target
unchecked — the `TODO: Make sure target column exists` at analyze.cpp:144 is
unimplemented. -/
def check_column (all_cols : List ColMeta) (target : TabCol) : Except DbErr TabCol :=
  if target.tab_name = "" then
    match findOwner all_cols target.col_name "" with
    | .error e => .error e
    | .ok tn =>
      if tn = "" then .error .columnNotFound
      else .ok { target with tab_name := tn }
  else .ok target

/-- An analyzed WHERE condition.  The comparison operator is carried through
`check_clause` untouched and is omitted from the model. -/
structure Condition where
  lhs_col : TabCol
  is_rhs_val : Bool
  rhs_val : Value
  rhs_col : TabCol
deriving DecidableEq

/-- `Analyze::get_all_cols` (analyze.cpp:150-156). -/
def get_all_cols (db : List TabMeta) : List String → Except DbErr (List ColMeta)
  | [] => .ok []
  | n :: rest => do
    let t ← get_table db n
    let more ← get_all_cols db rest
    .ok (t.cols ++ more)

/-- The per-condition body of `Analyze::check_clause` (analyze.cpp:180-215):
resolve the column references, coerce a literal right-hand side between INT
and FLOAT to the left column's type (truncating toward zero in the FLOAT to
INT direction), allocate its raw buffer at the left column's width, and
reject every remaining type mismatch other than the allowed INT/FLOAT
mixing. -/
def check_clause_one (db : List TabMeta) (all_cols : List ColMeta)
    (cond : Condition) : Except DbErr Condition := do
  let lhs ← check_column all_cols cond.lhs_col
  let cond1 := { cond with lhs_col := lhs }
  let cond2 ←
    if cond1.is_rhs_val then pure cond1
    else do
      let r ← check_column all_cols cond1.rhs_col
      pure { cond1 with rhs_col := r }
  let lhs_tab ← get_table db cond2.lhs_col.tab_name
  let lhs_col ← lhs_tab.get_col cond2.lhs_col.col_name
  let lhs_type := lhs_col.type
  if cond2.is_rhs_val then
    let v1 :=
      if lhs_type = .TYPE_FLOAT ∧ cond2.rhs_val.type = .TYPE_INT then
        cond2.rhs_val.set_float (cond2.rhs_val.int_val : ℚ)
      else if lhs_type = .TYPE_INT ∧ cond2.rhs_val.type = .TYPE_FLOAT then
        cond2.rhs_val.set_int (truncTowardZero cond2.rhs_val.float_val)
      else cond2.rhs_val
    let v2 := v1.init_raw lhs_col.len
    if lhs_type ≠ v2.type ∧
        ¬((lhs_type = .TYPE_INT ∧ v2.type = .TYPE_FLOAT) ∨
          (lhs_type = .TYPE_FLOAT ∧ v2.type = .TYPE_INT)) then
      .error .incompatibleType
    else .ok { cond2 with rhs_val := v2 }
  else do
    let rhs_tab ← get_table db cond2.rhs_col.tab_name
    let rhs_col ← rhs_tab.get_col cond2.rhs_col.col_name
    if lhs_type ≠ rhs_col.type ∧
        ¬((lhs_type = .TYPE_INT ∧ rhs_col.type = .TYPE_FLOAT) ∨
          (lhs_type = .TYPE_FLOAT ∧ rhs_col.type = .TYPE_INT)) then
      .error .incompatibleType
    else .ok cond2

/-- `Analyze::check_clause` (analyze.cpp:175-216). -/
def check_clause (db : List TabMeta) (tab_names : List String)
    (conds : List Condition) : Except DbErr (List Condition) := do
  let all_cols ← get_all_cols db tab_names
  conds.mapM (check_clause_one db all_cols)

/-- An analyzed UPDATE SET clause. -/
structure SetClauseA where
  lhs : TabCol
  rhs : Value
deriving DecidableEq

/-- The SET-clause analysis of `Analyze::do_analyze` for `UpdateStmt`
(analyze.cpp:67-106, constant right-hand side): resolve the column, coerce
the literal between INT and FLOAT toward the column's type (truncating
toward zero in the FLOAT to INT direction), reject other mismatches, and
allocate the raw buffer at the column's width. -/
def analyzeSetClause (db : List TabMeta) (tab_name : String)
    (all_cols : List ColMeta) (col_name : String) (v : Value) :
    Except DbErr SetClauseA := do
  let lhs ← check_column all_cols ⟨tab_name, col_name⟩
  let tab ← get_table db lhs.tab_name
  let col ← tab.get_col lhs.col_name
  let rhs ←
    if col.type = .TYPE_FLOAT ∧ v.type = .TYPE_INT then
      .ok (v.set_float (v.int_val : ℚ))
    else if col.type = .TYPE_INT ∧ v.type = .TYPE_FLOAT then
      .ok (v.set_int (truncTowardZero v.float_val))
    else if col.type ≠ v.type then
      .error .incompatibleType
    else
      .ok v
  .ok ⟨lhs, rhs.init_raw col.len⟩

end Analyze

namespace Analyze

theorem analyzeSetClause_eq (db : List TabMeta) (tab_name : String)
    (all_cols : List ColMeta) (col_name : String) (v : Value) (lhs : TabCol)
    (tab : TabMeta) (col : ColMeta)
    (hcc : check_column all_cols ⟨tab_name, col_name⟩ = .ok lhs)
    (hgt : get_table db lhs.tab_name = .ok tab)
    (hgc : tab.get_col lhs.col_name = .ok col) :
    analyzeSetClause db tab_name all_cols col_name v =
      if col.type = .TYPE_FLOAT ∧ v.type = .TYPE_INT then
        .ok ⟨lhs, (v.set_float (v.int_val : ℚ)).init_raw col.len⟩
      else if col.type = .TYPE_INT ∧ v.type = .TYPE_FLOAT then
        .ok ⟨lhs, (v.set_int (truncTowardZero v.float_val)).init_raw col.len⟩
      else if col.type ≠ v.type then .error .incompatibleType
      else .ok ⟨lhs, v.init_raw col.len⟩ := by
  unfold analyzeSetClause
  rw [hcc]
  simp only [bind, Except.bind]
  rw [hgt]
  simp only [bind, Except.bind]
  rw [hgc]

end Analyze

namespace Analyze

theorem check_clause_one_eq (db : List TabMeta) (all_cols : List ColMeta)
    (lc : TabCol) (rv : Value) (rc : TabCol) (lhs : TabCol) (tab : TabMeta)
    (col : ColMeta)
    (hcc : check_column all_cols lc = .ok lhs)
    (hgt : get_table db lhs.tab_name = .ok tab)
    (hgc : tab.get_col lhs.col_name = .ok col) :
    check_clause_one db all_cols ⟨lc, true, rv, rc⟩ =
      (if col.type ≠ ((if col.type = .TYPE_FLOAT ∧ rv.type = .TYPE_INT then
              rv.set_float (rv.int_val : ℚ)
            else if col.type = .TYPE_INT ∧ rv.type = .TYPE_FLOAT then
              rv.set_int (truncTowardZero rv.float_val)
            else rv).init_raw col.len).type ∧
          ¬((col.type = .TYPE_INT ∧ ((if col.type = .TYPE_FLOAT ∧
                  rv.type = .TYPE_INT then rv.set_float (rv.int_val : ℚ)
                else if col.type = .TYPE_INT ∧ rv.type = .TYPE_FLOAT then
                  rv.set_int (truncTowardZero rv.float_val)
                else rv).init_raw col.len).type = .TYPE_FLOAT) ∨
            (col.type = .TYPE_FLOAT ∧ ((if col.type = .TYPE_FLOAT ∧
                  rv.type = .TYPE_INT then rv.set_float (rv.int_val : ℚ)
                else if col.type = .TYPE_INT ∧ rv.type = .TYPE_FLOAT then
                  rv.set_int (truncTowardZero rv.float_val)
                else rv).init_raw col.len).type = .TYPE_INT)) then
        .error .incompatibleType
      else
        .ok ⟨lhs, true, (if col.type = .TYPE_FLOAT ∧ rv.type = .TYPE_INT then
              rv.set_float (rv.int_val : ℚ)
            else if col.type = .TYPE_INT ∧ rv.type = .TYPE_FLOAT then
              rv.set_int (truncTowardZero rv.float_val)
            else rv).init_raw col.len, rc⟩) := by
  unfold check_clause_one
  rw [hcc]
  simp only [bind, Except.bind]
  simp only [reduceIte, pure, Except.pure]
  rw [hgt]
  simp only [bind, Except.bind]
  rw [hgc]

end Analyze

open Analyze in
/-- Claim C8: in UPDATE SET clauses and in WHERE conditions with a literal
right-hand side, an INT literal against a FLOAT column is widened to float,
a FLOAT literal against an INT column is truncated toward zero to int
(`truncTowardZero` maps `q` to the integer of the same sign with
`|t| ≤ |q| < |t| + 1`), the resulting literal is raw-encoded into a buffer
of the target column's width, matching types pass through with only the raw
buffer allocated, and every other mismatch fails with `IncompatibleType`. -/
theorem claim_C8 :
    (∀ (db : List TabMeta) (tab_name : String) (all_cols : List ColMeta)
        (col_name : String) (v : Value) (lhs : TabCol) (tab : TabMeta)
        (col : ColMeta),
      check_column all_cols ⟨tab_name, col_name⟩ = .ok lhs →
      get_table db lhs.tab_name = .ok tab →
      tab.get_col lhs.col_name = .ok col →
      (col.type = .TYPE_FLOAT → v.type = .TYPE_INT →
        analyzeSetClause db tab_name all_cols col_name v =
          .ok ⟨lhs,
            { v with type := .TYPE_FLOAT, float_val := (v.int_val : ℚ), raw := some col.len }⟩) ∧
      (col.type = .TYPE_INT → v.type = .TYPE_FLOAT →
        analyzeSetClause db tab_name all_cols col_name v =
          .ok ⟨lhs,
            { v with type := .TYPE_INT, int_val := truncTowardZero v.float_val, raw := some col.len }⟩) ∧
      (v.type = col.type →
        analyzeSetClause db tab_name all_cols col_name v =
          .ok ⟨lhs, { v with raw := some col.len }⟩) ∧
      (col.type ≠ v.type → ¬(col.type = .TYPE_FLOAT ∧ v.type = .TYPE_INT) →
        ¬(col.type = .TYPE_INT ∧ v.type = .TYPE_FLOAT) →
        analyzeSetClause db tab_name all_cols col_name v =
          .error .incompatibleType)) ∧
    (∀ (db : List TabMeta) (all_cols : List ColMeta) (lc : TabCol) (rv : Value)
        (rc : TabCol) (lhs : TabCol) (tab : TabMeta) (col : ColMeta),
      check_column all_cols lc = .ok lhs →
      get_table db lhs.tab_name = .ok tab →
      tab.get_col lhs.col_name = .ok col →
      (col.type = .TYPE_FLOAT → rv.type = .TYPE_INT →
        check_clause_one db all_cols ⟨lc, true, rv, rc⟩ =
          .ok ⟨lhs, true,
            { rv with type := .TYPE_FLOAT, float_val := (rv.int_val : ℚ), raw := some col.len }, rc⟩) ∧
      (col.type = .TYPE_INT → rv.type = .TYPE_FLOAT →
        check_clause_one db all_cols ⟨lc, true, rv, rc⟩ =
          .ok ⟨lhs, true,
            { rv with type := .TYPE_INT, int_val := truncTowardZero rv.float_val, raw := some col.len }, rc⟩) ∧
      (rv.type = col.type →
        check_clause_one db all_cols ⟨lc, true, rv, rc⟩ =
          .ok ⟨lhs, true, { rv with raw := some col.len }, rc⟩) ∧
      (col.type ≠ rv.type → ¬(col.type = .TYPE_FLOAT ∧ rv.type = .TYPE_INT) →
        ¬(col.type = .TYPE_INT ∧ rv.type = .TYPE_FLOAT) →
        check_clause_one db all_cols ⟨lc, true, rv, rc⟩ =
          .error .incompatibleType)) ∧
    (∀ q : ℚ, |((truncTowardZero q : Int) : ℚ)| ≤ |q| ∧
      |q| < |((truncTowardZero q : Int) : ℚ)| + 1 ∧
      (0 ≤ q → 0 ≤ truncTowardZero q) ∧ (q ≤ 0 → truncTowardZero q ≤ 0)) := by
  refine ⟨?_, ?_, ?_⟩
  · intro db tab_name all_cols col_name v lhs tab col hcc hgt hgc
    have heq := analyzeSetClause_eq db tab_name all_cols col_name v lhs tab col
      hcc hgt hgc
    refine ⟨?_, ?_, ?_, ?_⟩
    · intro hcol hv
      rw [heq, if_pos ⟨hcol, hv⟩]
      rfl
    · intro hcol hv
      rw [heq, if_neg (by rintro ⟨h1, _⟩; rw [hcol] at h1; cases h1),
        if_pos ⟨hcol, hv⟩]
      rfl
    · intro hveq
      rw [heq, if_neg (by rintro ⟨h1, h2⟩; rw [hveq, h1] at h2; cases h2),
        if_neg (by rintro ⟨h1, h2⟩; rw [hveq, h1] at h2; cases h2),
        if_neg (by intro hne; exact hne hveq.symm)]
      rfl
    · intro hne hn1 hn2
      rw [heq, if_neg hn1, if_neg hn2, if_pos hne]
  · intro db all_cols lc rv rc lhs tab col hcc hgt hgc
    have heq := check_clause_one_eq db all_cols lc rv rc lhs tab col hcc hgt hgc
    refine ⟨?_, ?_, ?_, ?_⟩
    · intro hcol hv
      have hp1 : col.type = ColType.TYPE_FLOAT ∧ rv.type = ColType.TYPE_INT :=
        ⟨hcol, hv⟩
      have hb1 : ¬(col.type ≠
          ((rv.set_float (rv.int_val : ℚ)).init_raw col.len).type ∧
          ¬(col.type = ColType.TYPE_INT ∧
              ((rv.set_float (rv.int_val : ℚ)).init_raw col.len).type =
                ColType.TYPE_FLOAT ∨
            col.type = ColType.TYPE_FLOAT ∧
              ((rv.set_float (rv.int_val : ℚ)).init_raw col.len).type =
                ColType.TYPE_INT)) := by
        rintro ⟨hne, _⟩
        exact hne (by rw [hcol]; rfl)
      rw [heq, if_pos hp1, if_neg hb1]
      rfl
    · intro hcol hv
      have hn1 : ¬(col.type = ColType.TYPE_FLOAT ∧ rv.type = ColType.TYPE_INT) := by
        rintro ⟨h1, _⟩
        rw [hcol] at h1
        cases h1
      have hp2 : col.type = ColType.TYPE_INT ∧ rv.type = ColType.TYPE_FLOAT :=
        ⟨hcol, hv⟩
      have hb2 : ¬(col.type ≠
          ((rv.set_int (truncTowardZero rv.float_val)).init_raw col.len).type ∧
          ¬(col.type = ColType.TYPE_INT ∧
              ((rv.set_int (truncTowardZero rv.float_val)).init_raw col.len).type =
                ColType.TYPE_FLOAT ∨
            col.type = ColType.TYPE_FLOAT ∧
              ((rv.set_int (truncTowardZero rv.float_val)).init_raw col.len).type =
                ColType.TYPE_INT)) := by
        rintro ⟨hne, _⟩
        exact hne (by rw [hcol]; rfl)
      rw [heq, if_neg hn1, if_pos hp2, if_neg hb2]
      rfl
    · intro hveq
      have hn1 : ¬(col.type = ColType.TYPE_FLOAT ∧ rv.type = ColType.TYPE_INT) := by
        rintro ⟨h1, h2⟩
        rw [hveq, h1] at h2
        cases h2
      have hn2 : ¬(col.type = ColType.TYPE_INT ∧ rv.type = ColType.TYPE_FLOAT) := by
        rintro ⟨h1, h2⟩
        rw [hveq, h1] at h2
        cases h2
      have hb3 : ¬(col.type ≠ (rv.init_raw col.len).type ∧
          ¬(col.type = ColType.TYPE_INT ∧
              (rv.init_raw col.len).type = ColType.TYPE_FLOAT ∨
            col.type = ColType.TYPE_FLOAT ∧
              (rv.init_raw col.len).type = ColType.TYPE_INT)) := by
        rintro ⟨hne, _⟩
        exact hne hveq.symm
      rw [heq, if_neg hn1, if_neg hn2, if_neg hb3]
      rfl
    · intro hne hn1 hn2
      have hb4 : col.type ≠ (rv.init_raw col.len).type ∧
          ¬(col.type = ColType.TYPE_INT ∧
              (rv.init_raw col.len).type = ColType.TYPE_FLOAT ∨
            col.type = ColType.TYPE_FLOAT ∧
              (rv.init_raw col.len).type = ColType.TYPE_INT) := by
        constructor
        · exact fun h => hne h
        · rintro (⟨h1, h2⟩ | ⟨h1, h2⟩)
          · exact hn2 ⟨h1, h2⟩
          · exact hn1 ⟨h1, h2⟩
      rw [heq, if_neg hn1, if_neg hn2, if_pos hb4]
  · intro q
    unfold truncTowardZero
    by_cases h : 0 ≤ q
    · rw [if_pos h]
      have h0 : (0 : Int) ≤ ⌊q⌋ := Int.floor_nonneg.mpr h
      have h0' : (0 : ℚ) ≤ (⌊q⌋ : ℚ) := by exact_mod_cast h0
      rw [abs_of_nonneg h, abs_of_nonneg h0']
      exact ⟨Int.floor_le q, Int.lt_floor_add_one q, fun _ => h0, fun hq => by
        have hq0 : q = 0 := le_antisymm hq h
        simp [hq0]⟩
    · rw [if_neg h]
      push_neg at h
      have h0 : ⌈q⌉ ≤ 0 := Int.ceil_le.mpr (by exact_mod_cast h.le)
      have h0' : ((⌈q⌉ : Int) : ℚ) ≤ 0 := by exact_mod_cast h0
      rw [abs_of_neg h, abs_of_nonpos h0']
      exact ⟨by linarith [Int.le_ceil q], by linarith [Int.ceil_lt_add_one q],
        fun hq => absurd hq (not_le.mpr h), fun _ => h0⟩

/-- The candidate columns of the C7 instances: tables `t1(a, b)` and
`t2(b)`. -/
def colsC7 : List ColMeta :=
  [⟨"t1", "a", .TYPE_INT, 4, 0⟩, ⟨"t1", "b", .TYPE_INT, 4, 4⟩,
   ⟨"t2", "b", .TYPE_FLOAT, 4, 0⟩]

open Analyze in
/-- Claim C7 is false of the source in its qualified-reference part:
`check_column` resolves an unqualified name to its unique owning table,
fails with `AmbiguousColumn` on several matches and with `ColumnNotFound`
on none — but with a table qualifier it returns the target entirely
unchecked (the `TODO` at analyze.cpp:144), so a qualified reference to a
nonexistent column passes instead of failing with `ColumnNotFound`. -/
theorem claim_C7 :
    (∀ (all_cols : List ColMeta) (t : TabCol), t.tab_name ≠ "" →
      check_column all_cols t = .ok t) ∧
    check_column colsC7 ⟨"", "a"⟩ = .ok ⟨"t1", "a"⟩ ∧
    check_column colsC7 ⟨"", "b"⟩ = .error .ambiguousColumn ∧
    check_column colsC7 ⟨"", "zzz"⟩ = .error .columnNotFound ∧
    check_column colsC7 ⟨"t1", "zzz"⟩ = .ok ⟨"t1", "zzz"⟩ := by
  refine ⟨?_, rfl, rfl, rfl, rfl⟩
  intro all_cols t h
  unfold check_column
  rw [if_neg h]

open Analyze in
/-- Witness for claim C7: the unchecked-qualifier clause of `claim_C7`
applied to a qualified reference to a column that exists in no table. -/
theorem claim_C7_witness :
    Analyze.check_column colsC7 ⟨"t9", "nope"⟩ = .ok ⟨"t9", "nope"⟩ :=
  claim_C7.1 colsC7 ⟨"t9", "nope"⟩ (by decide)

/-- The catalog of the C8 witness: one table `t` with an INT and a FLOAT
column, both 4 bytes wide. -/
def dbC8 : List TabMeta :=
  [⟨"t", [⟨"t", "i", .TYPE_INT, 4, 0⟩, ⟨"t", "f", .TYPE_FLOAT, 4, 4⟩]⟩]

/-- The columns of `dbC8`. -/
def colsC8 : List ColMeta :=
  [⟨"t", "i", .TYPE_INT, 4, 0⟩, ⟨"t", "f", .TYPE_FLOAT, 4, 4⟩]

/-- The FLOAT literal `7/2` of the C8 witness. -/
def vFloatC8 : Value := ⟨.TYPE_FLOAT, 0, 7 / 2, "", none⟩

/-- The INT literal `5` of the C8 witness. -/
def vIntC8 : Value := ⟨.TYPE_INT, 5, 0, "", none⟩

open Analyze in
/-- Witness for claim C8: a SET clause assigning the FLOAT literal `7/2` to
the INT column truncates it toward zero, and a WHERE condition comparing the
FLOAT column against the INT literal `5` widens it to float; both raw
buffers get the 4-byte column width. -/
theorem claim_C8_witness :
    analyzeSetClause dbC8 "t" colsC8 "i" vFloatC8 =
      .ok ⟨⟨"t", "i"⟩,
        { vFloatC8 with type := .TYPE_INT, int_val := truncTowardZero vFloatC8.float_val, raw := some 4 }⟩ ∧
    check_clause_one dbC8 colsC8 ⟨⟨"t", "f"⟩, true, vIntC8, ⟨"", ""⟩⟩ =
      .ok ⟨⟨"t", "f"⟩, true,
        { vIntC8 with type := .TYPE_FLOAT, float_val := (vIntC8.int_val : ℚ), raw := some 4 }, ⟨"", ""⟩⟩ :=
  ⟨(claim_C8.1 dbC8 "t" colsC8 "i" vFloatC8 ⟨"t", "i"⟩
      ⟨"t", [⟨"t", "i", .TYPE_INT, 4, 0⟩, ⟨"t", "f", .TYPE_FLOAT, 4, 4⟩]⟩
      ⟨"t", "i", .TYPE_INT, 4, 0⟩ rfl rfl rfl).2.1 rfl rfl,
   (claim_C8.2.1 dbC8 colsC8 ⟨"t", "f"⟩ vIntC8 ⟨"", ""⟩ ⟨"t", "f"⟩
      ⟨"t", [⟨"t", "i", .TYPE_INT, 4, 0⟩, ⟨"t", "f", .TYPE_FLOAT, 4, 4⟩]⟩
      ⟨"t", "f", .TYPE_FLOAT, 4, 4⟩ rfl rfl rfl).1 rfl rfl⟩
